import Mathlib

/-!
# Logging pipeline of `utility.js`

A shallow embedding of the logging section of `src/utility.js`
(lines 250-576): the verbosity levels, the two trim-level stacks, stack capture
and parsing, path compaction and formatting, and the `LoggerUtility` class
(severity table, hook and filter registration, the severity gate, the filter
gate, `do_log` and the ten logging methods).

Modelling conventions

* A JavaScript object with integer-like keys (`this._hooks`, `this._filters`)
  is an association list kept in ascending key order, which is the order in
  which `Object.entries` enumerates such keys.
* Callbacks are caller-supplied inputs.  A filter is a total predicate on the
  argument array together with an identifier; a hook is an identifier of an
  opaque recording callback.  Callbacks that raise or that re-enter the logger
  are outside the model.
* Everything a call does to the outside world is recorded, in order, in a list
  of `Event`s.  The host `console` is taken to provide the standard methods the
  code calls on it (`log`, `warn`, `error`, `group`, `groupEnd`, `assert`).
* What the host runtime decides (browser identification, the text of a captured
  stack, URL parsing, whether the console has the method `exception`) is a
  parameter, `Host`.
* Severity names are strings.  The numbers of an argument array are exact
  integers; a number that `parseInt` returns is a number value, `JS.Num`.
-/

/-! ## JavaScript values and observable events -/

/-- JavaScript values that can occur in an argument array or as a return value. -/
inductive Value where
  | undefined : Value
  | null : Value
  | bool (b : Bool) : Value
  | num (n : Int) : Value
  | str (s : String) : Value
  deriving DecidableEq

/-- Methods of the host `console` object used by the logging code. -/
inductive Channel where
  | log | warn | error | exception | group | groupEnd | assert
  deriving DecidableEq

/-- Observable effects, in the order in which they happen.
`filterCall key id args`: the predicate `id`, stored under `this._filters[key]`,
is applied to `args`.  `hookCall id args`: `hook.apply(hook, args)`.
`console ch args`: `console.<ch>(...args)`.  `stackCapture`: the
`throw new Error()` of `Util.GetStack`. -/
inductive Event where
  | filterCall (key : Nat) (id : Nat) (args : List Value) : Event
  | hookCall (id : Nat) (args : List Value) : Event
  | console (ch : Channel) (args : List Value) : Event
  | stackCapture : Event
  deriving DecidableEq

/-- A filter callback: an identifier and the truthiness of its result on an
argument array. -/
structure FilterFn where
  id : Nat
  pred : List Value → Bool

/-- A hook callback, identified by a number; invoking it is recorded as
`Event.hookCall`. -/
abbrev HookFn := Nat

/-! ## JavaScript objects with integer-like keys -/

/-- Property read `o[k]`: `none` is `undefined`. -/
def objGet {β : Type} (o : List (Nat × β)) (k : Nat) : Option β :=
  (o.find? (fun e => e.1 == k)).map (fun e => e.2)

/-- Property write `o[k] = v`, keeping the keys in ascending order. -/
def objSet {β : Type} : List (Nat × β) → Nat → β → List (Nat × β)
  | [], k, v => [(k, v)]
  | (k', v') :: rest, k, v =>
    if k < k' then (k, v) :: (k', v') :: rest
    else if k = k' then (k, v) :: rest
    else (k', v') :: objSet rest k v

/-- In-place `o[k].push(x)` on an array stored under an existing key. -/
def objPush {α : Type} (o : List (Nat × List α)) (k : Nat) (x : α) : List (Nat × List α) :=
  o.map (fun e => if e.1 = k then (e.1, e.2 ++ [x]) else e)

/-! ## Verbosity levels and trim-level stacks (lines 250-292) -/

namespace Util

def LEVEL_MIN : Int := 0
def LEVEL_OFF : Int := LEVEL_MIN
def LEVEL_DEBUG : Int := LEVEL_OFF + 1
def LEVEL_TRACE : Int := LEVEL_DEBUG + 1
def LEVEL_MAX : Int := LEVEL_TRACE

/-- The mutable fields of the global `Util` object that the logging code reads
or writes. -/
structure State where
  DebugLevel : Int
  _stack_trim_begin_level : List Int
  _stack_trim_end_level : List Int
  deriving DecidableEq

/-- State right after the module is loaded (lines 256-258). -/
def State.initial : State :=
  { DebugLevel := 0, _stack_trim_begin_level := [0], _stack_trim_end_level := [0] }

def PushStackTrimBegin (u : State) (level : Int) : State :=
  { u with _stack_trim_begin_level := u._stack_trim_begin_level ++ [level] }

def PopStackTrimBegin (u : State) : State :=
  if u._stack_trim_begin_level.length > 1 then
    { u with _stack_trim_begin_level := u._stack_trim_begin_level.dropLast }
  else u

def PushStackTrimEnd (u : State) (level : Int) : State :=
  { u with _stack_trim_end_level := u._stack_trim_end_level ++ [level] }

def PopStackTrimEnd (u : State) : State :=
  if u._stack_trim_end_level.length > 1 then
    { u with _stack_trim_end_level := u._stack_trim_end_level.dropLast }
  else u

/-- The array read `a[a.length-1]`; `none` is `undefined`. -/
def GetStackTrimBegin (u : State) : Option Int :=
  u._stack_trim_begin_level.get? (u._stack_trim_begin_level.length - 1)

def GetStackTrimEnd (u : State) : Option Int :=
  u._stack_trim_end_level.get? (u._stack_trim_end_level.length - 1)

/-- One call of the trim-level interface. -/
inductive TrimCall where
  | PushStackTrimBegin (level : Int)
  | PopStackTrimBegin
  | PushStackTrimEnd (level : Int)
  | PopStackTrimEnd
  deriving DecidableEq

def TrimCall.apply (u : State) : TrimCall → State
  | .PushStackTrimBegin level => Util.PushStackTrimBegin u level
  | .PopStackTrimBegin => Util.PopStackTrimBegin u
  | .PushStackTrimEnd level => Util.PushStackTrimEnd u level
  | .PopStackTrimEnd => Util.PopStackTrimEnd u

/-- Run a finite sequence of trim-level calls, first call first. -/
def runTrimCalls (u : State) (calls : List TrimCall) : State :=
  calls.foldl TrimCall.apply u

end Util

/-! ## The logger object (lines 430-498) -/

/-- The two fields of a `LoggerUtility` instance. -/
structure LoggerUtility where
  _hooks : List (Nat × List HookFn)
  _filters : List (Nat × List FilterFn)

/-- What a method call leaves behind: its return value, the logger afterwards,
the effects it had, and the message of the exception that escapes, if one
does; the call then returns nothing and `value` is `undefined`. -/
structure Ret (α : Type) where
  value : α
  logger : LoggerUtility
  events : List Event
  raised : Option String

/-- What `_assert_sev` and `severity_enabled` leave behind: the boolean
returned, the effects, and the message of the exception that escapes, if one
does; the call then returns nothing and `answer` is `false`. -/
structure Check where
  answer : Bool
  events : List Event
  raised : Option String

/-- The result of `Util.Browser.Get()`. -/
inductive Browser where
  | FIREFOX | CHROME | OBS | UNKNOWN
  deriving DecidableEq

/-- What the host runtime supplies to a call.
`browser`: the answer of `Util.Browser.Get()`, which also fixes
`Util.Browser.IsFirefox`.  `stackLines`: `e.stack.trim().split("\n")` for the
error thrown inside `Util.GetStack`.  `URL`: the constructor call
`new URL(path)`, giving either the `pathname` of the parsed URL or the message
of the exception it throws.  `consoleException`: whether `console.exception`
is a function; it is no part of the console standard (Firefox has it as
another name of `console.error`), and the call `console.exception(...)` raises
a `TypeError` where it is missing. -/
structure Host where
  browser : Browser
  stackLines : List String
  URL : String → Except String String
  consoleException : Bool

namespace LoggerUtility

/-- The object literal returned by the static getter, in source order. -/
def SEVERITIES : List (String × Nat) :=
  [("ALL", 6), ("ERROR", 5), ("WARN", 4), ("INFO", 3), ("DEBUG", 2), ("TRACE", 1)]

/-- The constructor: an empty hook list and an empty filter list for every
value of `SEVERITIES`. -/
def new : LoggerUtility :=
  SEVERITIES.foldl
    (fun self e => { _hooks := objSet self._hooks e.2 [], _filters := objSet self._filters e.2 [] })
    { _hooks := [], _filters := [] }

/-- The lookup `LoggerUtility.SEVERITIES[sev]` for a string `sev`; `none` is
`undefined`.  For a name inherited from `Object.prototype` (such as
`"constructor"` or `"toSource"`) JavaScript yields a function or object, whose
string form is not a key of `_hooks` and which compares false with every key,
so it behaves like `undefined` in every use below. -/
def _sev_value (sev : String) : Option Nat :=
  (SEVERITIES.find? (fun e => e.1 == sev)).map (fun e => e.2)

/-- The read `this._hooks[v]` where `v` is the result of `_sev_value`;
`this._hooks[undefined]` is `undefined`. -/
def hooksAt (self : LoggerUtility) (v : Option Nat) : Option (List HookFn) :=
  match v with
  | none => none
  | some k => objGet self._hooks k

/-- The method `_assert_sev(sev)`.  On an unknown severity it calls
`console.exception` before `return false`; where the host has no such method
the call raises and `return false` is not reached. -/
def _assert_sev (h : Host) (self : LoggerUtility) (sev : String) : Check :=
  if (self.hooksAt (_sev_value sev)).isNone then
    if h.consoleException then
      { answer := false
        events := [Event.console Channel.exception
          [Value.str ("Logger: invalid severity " ++ sev)]]
        raised := none }
    else
      { answer := false, events := [],
        raised := some "TypeError: console.exception is not a function" }
  else { answer := true, events := [], raised := none }

/-- The method `add_hook(fn, sev)` with `sev` given.  The array
`this._hooks[this._sev_value(sev)]` exists when `_assert_sev` has answered
true, so the default of `getD` is never used. -/
def add_hook (h : Host) (self : LoggerUtility) (fn : HookFn) (sev : String) : Ret Value :=
  let a := self._assert_sev h sev
  match a.raised with
  | some msg => { value := Value.undefined, logger := self, events := a.2, raised := some msg }
  | none =>
    if !a.1 then { value := Value.bool false, logger := self, events := a.2, raised := none }
    else
      { value := Value.bool true
        logger := { self with _hooks := objPush self._hooks ((_sev_value sev).getD 0) fn }
        events := a.2
        raised := none }

/-- The method `add_filter(func, sev)` with `sev` given.  The success path has
no `return` statement, so the call evaluates to `undefined`. -/
def add_filter (h : Host) (self : LoggerUtility) (func : FilterFn) (sev : String) :
    Ret Value :=
  let a := self._assert_sev h sev
  match a.raised with
  | some msg => { value := Value.undefined, logger := self, events := a.2, raised := some msg }
  | none =>
    if !a.1 then { value := Value.bool false, logger := self, events := a.2, raised := none }
    else
      { value := Value.undefined
        logger := { self with _filters := objPush self._filters ((_sev_value sev).getD 0) func }
        events := a.2
        raised := none }

/-- The call `add_hook(fn)`: the parameter default `sev="ALL"` applies. -/
def add_hook_default (h : Host) (self : LoggerUtility) (fn : HookFn) : Ret Value :=
  self.add_hook h fn "ALL"

/-- The call `add_filter(func)`: the parameter default `sev="ALL"` applies. -/
def add_filter_default (h : Host) (self : LoggerUtility) (func : FilterFn) : Ret Value :=
  self.add_filter h func "ALL"

/-- The comparison `key >= sev` of a key of `_filters` with the result of
`_sev_value`; a comparison with `undefined` is false. -/
def keyGe (key : Nat) (sev : Option Nat) : Bool :=
  match sev with
  | none => false
  | some v => decide (key ≥ v)

/-- The inner loop of `should_filter` over one filter list: the result is
`true` at the first filter that answers true, and the filters applied up to
that point are recorded. -/
def runFilters (key : Nat) (message_args : List Value) : List FilterFn → Bool × List Event
  | [] => (false, [])
  | filter :: rest =>
    if filter.pred message_args then (true, [Event.filterCall key filter.id message_args])
    else
      let r := runFilters key message_args rest
      (r.1, Event.filterCall key filter.id message_args :: r.2)

/-- The outer loop of `should_filter` over `Object.entries(this._filters)`. -/
def filterEntries (sev : Option Nat) (message_args : List Value) :
    List (Nat × List FilterFn) → Bool × List Event
  | [] => (false, [])
  | (key, filters) :: rest =>
    if keyGe key sev then
      let r := runFilters key message_args filters
      if r.1 then r
      else
        let r' := filterEntries sev message_args rest
        (r'.1, r.2 ++ r'.2)
    else filterEntries sev message_args rest

def should_filter (self : LoggerUtility) (message_args : List Value) (severity : String) :
    Bool × List Event :=
  filterEntries (_sev_value severity) message_args self._filters

/-- The method `severity_enabled(sev)`; an exception of `_assert_sev` escapes
it. -/
def severity_enabled (h : Host) (u : Util.State) (self : LoggerUtility) (sev : String) :
    Check :=
  let a := self._assert_sev h sev
  if !a.1 then { answer := false, events := a.2, raised := a.3 }
  else
    let val := (_sev_value sev).getD 0
    if u.DebugLevel = Util.LEVEL_TRACE then { answer := true, events := a.2, raised := none }
    else if u.DebugLevel = Util.LEVEL_DEBUG then
      { answer := decide (val ≥ (_sev_value "DEBUG").getD 0), events := a.2, raised := none }
    else if u.DebugLevel = Util.LEVEL_OFF then
      { answer := decide (val ≥ (_sev_value "INFO").getD 0), events := a.2, raised := none }
    else { answer := decide (val ≥ (_sev_value "WARN").getD 0), events := a.2, raised := none }

end LoggerUtility

/-! ## Stack capture, parsing and formatting (lines 294-428) -/

/-- A number value that is a non-negative integer, or `Infinity`: the values
that `parseInt` gives for a text of decimal digits. -/
inductive JS.Num where
  | int (n : Nat)
  | infinity
  deriving DecidableEq

/-- One parsed stack frame; a field that was never assigned is `none`. -/
structure Frame where
  name : Option String
  actual_name : Option String
  file : Option String
  line : Option JS.Num
  column : Option JS.Num
  deriving DecidableEq

/-- What `Util._toConsole` and its helpers leave behind: the effects, and the
message of the exception that escapes, if one does. -/
structure ConsoleRet where
  events : List Event
  raised : Option String

/-- What `do_log` leaves behind: the global state, the logger, the effects in
order, and the message of the exception that escapes, if one does. -/
structure LogRet where
  util : Util.State
  logger : LoggerUtility
  events : List Event
  raised : Option String

namespace JS

/-- The characters that `.` does not match in a regular expression. -/
def isLineTerminator (c : Char) : Bool :=
  c == '\n' || c == '\r' || c == Char.ofNat 0x2028 || c == Char.ofNat 0x2029

/-- The class `[0-9]`. -/
def isDigit (c : Char) : Bool := '0' ≤ c && c ≤ '9'

/-- The class `\w`. -/
def isWord (c : Char) : Bool :=
  ('a' ≤ c && c ≤ 'z') || ('A' ≤ c && c ≤ 'Z') || isDigit c || c == '_'

/-- The integer that a string of decimal digits writes. -/
def parseDigits (ds : List Char) : Nat :=
  ds.foldl (fun n c => 10 * n + (c.toNat - '0'.toNat)) 0

/-- The number of binary digits of a natural number (one for 0). -/
def bitLength (n : Nat) : Nat := (Nat.toDigits 2 n).length

/-- The rounding of a natural number to 53 significant binary digits, a tie
going to the even one of the two neighbours: the number value nearest to `n`
when that is finite.  A number of at most 53 binary digits is not changed. -/
def roundToDouble (n : Nat) : Nat :=
  let s := bitLength n - 53
  let q := n / 2 ^ s
  let r := n % 2 ^ s
  let q' := if 2 ^ (s - 1) < r ∨ (r = 2 ^ (s - 1) ∧ q % 2 = 1) then q + 1 else q
  q' * 2 ^ s

/-- The number value of a natural number.  Every natural number up to `2^53`
is a number value; a larger one is rounded, and the result is `Infinity` when
the rounded number has more than 1024 binary digits (it is `2^1024` or
more). -/
def toNumber (n : Nat) : Num :=
  if n ≤ 2 ^ 53 then Num.int n
  else if bitLength (roundToDouble n) ≤ 1024 then Num.int (roundToDouble n)
  else Num.infinity

/-- The value of `parseInt` on a non-empty string of decimal digits: the number
value of the integer written.  (Beyond 20 significant digits the language lets
an engine approximate; the engines of `Util.Browser` round the exact
integer.) -/
def parseInt (ds : List Char) : Num := toNumber (parseDigits ds)

/-- The pattern `:([0-9]+):([0-9]+)` at the start of the input, followed by
anything: the two digit groups. -/
def colonDigits (cs : List Char) : Option (List Char × List Char) :=
  match cs with
  | ':' :: r =>
    let d1 := r.takeWhile isDigit
    match r.dropWhile isDigit with
    | ':' :: r' =>
      let d2 := r'.takeWhile isDigit
      if d1.isEmpty || d2.isEmpty then none else some (d1, d2)
    | _ => none
  | _ => none

/-- The pattern `(.*):([0-9]+):([0-9]+)` at the start of the input, followed by
anything: the greedy `.*` takes the longest run for which the rest matches. -/
def dotStarColonDigits : List Char → Option (List Char × List Char × List Char)
  | [] => none
  | c :: cs =>
    let longer :=
      if isLineTerminator c then none
      else (dotStarColonDigits cs).map (fun r => (c :: r.1, r.2))
    match longer with
    | some r => some r
    | none => (colonDigits (c :: cs)).map (fun r => ([], r))

/-- The pattern `(.*):([0-9]+):([0-9]+)\)$`: as above, and the second digit
group is followed by `)` and the end of the input. -/
def dotStarColonDigitsParen : List Char → Option (List Char × List Char × List Char)
  | [] => none
  | c :: cs =>
    let longer :=
      if isLineTerminator c then none
      else (dotStarColonDigitsParen cs).map (fun r => (c :: r.1, r.2))
    match longer with
    | some r => some r
    | none =>
      match colonDigits (c :: cs) with
      | some (d1, d2) =>
        if (c :: cs).drop (1 + d1.length + 1 + d2.length) = [')'] then some ([], d1, d2) else none
      | none => none

/-- The substring test behind `message.match(/is not a valid URL/)`. -/
def includes (s sub : List Char) : Bool :=
  s.tails.any (fun t => sub.isPrefixOf t)

/-- A template-literal substitution of a possibly undefined string. -/
def showStr : Option String → String
  | none => "undefined"
  | some s => s

/-- One step of the search for the shortest decimal text of the number value
`d`, which has `len` decimal digits: the multiple of `10^(len-k)` next below
`d` and the one next above are the only candidates with `k` significant digits
that can round to `d`; of two that do, the nearer one is taken, and the even
one at equal distance. -/
def shortestAt (d len k : Nat) : Option Nat :=
  let p := 10 ^ (len - k)
  let v := d / p * p
  let w := v + p
  match decide (roundToDouble v = d), decide (roundToDouble w = d) with
  | true, true =>
    some (if d - v < w - d then v else if w - d < d - v then w
      else if d / p % 2 = 0 then v else w)
  | true, false => some v
  | false, true => some w
  | false, false => none

/-- The integer with the fewest significant decimal digits that rounds to the
number value `d`; 17 digits always suffice. -/
def shortestDecimal (d : Nat) : Nat :=
  ((List.range 17).findSome? (fun i => shortestAt d (Nat.toDigits 10 d).length (i + 1))).getD d

/-- The exponent form of a decimal text of more than 21 digits: the
significant digits with a point after the first, `e+`, and the exponent. -/
def exponentText (ds : List Char) : String :=
  match (ds.reverse.dropWhile (fun c => c == '0')).reverse with
  | [] => "0"
  | [c] => String.mk [c] ++ "e+" ++ toString (ds.length - 1)
  | c :: rest => String.mk (c :: '.' :: rest) ++ "e+" ++ toString (ds.length - 1)

/-- The text of a number value that is a natural number: up to `2^53` its
decimal digits; above, the digits of the shortest decimal that rounds to it,
in exponent form when they are more than 21. -/
def numberText (d : Nat) : String :=
  if d ≤ 2 ^ 53 then toString d
  else if (Nat.toDigits 10 (shortestDecimal d)).length ≤ 21 then
    String.mk (Nat.toDigits 10 (shortestDecimal d))
  else exponentText (Nat.toDigits 10 (shortestDecimal d))

/-- A template-literal substitution of a possibly undefined number. -/
def showNum : Option Num → String
  | none => "undefined"
  | some (Num.int n) => numberText n
  | some Num.infinity => "Infinity"

end JS

namespace Util

/-- The line pattern of the Chrome branch of `ParseStack`,
`/^[ ]* at ([^ ]+)(?: \[as ([\w]+)\])? \((.*):([0-9]+):([0-9]+)\)$/`,
and the frame built from its groups; `none` is a failed match. -/
def matchChrome (line : String) : Option Frame :=
  let cs := line.toList
  if (cs.takeWhile (fun c => c == ' ')).isEmpty then none
  else
    match cs.dropWhile (fun c => c == ' ') with
    | 'a' :: 't' :: ' ' :: r1 =>
      let name := r1.takeWhile (fun c => c != ' ')
      let finish (actual : Option String) (r : List Char) : Option Frame :=
        (JS.dotStarColonDigitsParen r).map (fun m =>
          { name := some (String.mk name), actual_name := actual, file := some (String.mk m.1),
            line := some (JS.parseInt m.2.1), column := some (JS.parseInt m.2.2) })
      if name.isEmpty then none
      else
        match r1.dropWhile (fun c => c != ' ') with
        | ' ' :: '(' :: r3 => finish none r3
        | ' ' :: '[' :: 'a' :: 's' :: ' ' :: r3 =>
          let w := r3.takeWhile JS.isWord
          if w.isEmpty then none
          else
            match r3.dropWhile JS.isWord with
            | ']' :: ' ' :: '(' :: r5 => finish (some (String.mk w)) r5
            | _ => none
        | _ => none
    | _ => none

/-- The line pattern of the Firefox branch at one start position:
`([^@]*)@(.*):([0-9]+):([0-9]+)` matched at the head of the input. -/
def matchFirefoxHere (cs : List Char) : Option Frame :=
  match cs.dropWhile (fun c => c != '@') with
  | '@' :: r =>
    (JS.dotStarColonDigits r).map (fun m =>
      { name := some (String.mk (cs.takeWhile (fun c => c != '@'))), actual_name := none,
        file := some (String.mk m.1),
        line := some (JS.parseInt m.2.1), column := some (JS.parseInt m.2.2) })
  | _ => none

/-- The unanchored search of the Firefox pattern: the leftmost start position
at which it matches. -/
def matchFirefoxFrom : List Char → Option Frame
  | [] => matchFirefoxHere []
  | c :: cs =>
    match matchFirefoxHere (c :: cs) with
    | some f => some f
    | none => matchFirefoxFrom cs

/-- The line pattern of the Firefox branch of `ParseStack`,
`/([^@]*)@(.*):([0-9]+):([0-9]+)/`; `none` is a failed match. -/
def matchFirefox (line : String) : Option Frame :=
  matchFirefoxFrom line.toList

/-- The frame `{}`. -/
def Frame.empty : Frame :=
  { name := none, actual_name := none, file := none, line := none, column := none }

/-- The function `Util.GetStack`: the host's lines without the first one,
without `GetStackTrimBegin()` further leading lines and without
`GetStackTrimEnd()` trailing lines.  A loop bounded by `undefined` or by a
negative level does not run. -/
def GetStack (h : Host) (u : State) : List String :=
  let lines := h.stackLines.drop 1
  let lines := lines.drop ((GetStackTrimBegin u).getD 0).toNat
  lines.take (lines.length - ((GetStackTrimEnd u).getD 0).toNat)

/-- The function `Util.SplitPath`. -/
def SplitPath (path : String) : String × String :=
  let cs := path.toList
  if cs.contains '/' then
    let file := (cs.reverse.takeWhile (fun c => c != '/')).reverse
    (String.mk (cs.take (cs.length - file.length - 1)), String.mk file)
  else ("", path)

/-- The function `Util.JoinPath`; an empty string is falsy. -/
def JoinPath (dir file : String) : String :=
  if dir ≠ "" then dir ++ "/" ++ file else file

/-- The call `dir.split('/')` on the characters of `dir`: the result is never
empty, and an empty `dir` gives one empty segment. -/
def splitSlashChars : List Char → List (List Char)
  | [] => [[]]
  | c :: cs =>
    if c = '/' then [] :: splitSlashChars cs
    else
      match splitSlashChars cs with
      | [] => [[c]]
      | seg :: segs => (c :: seg) :: segs

/-- The call `dir.split('/')`. -/
def splitSlash (dir : String) : List String :=
  (splitSlashChars dir.toList).map String.mk

/-- The first loop of `StripCommonPrefix`, inside the `try`: each path goes
through `new URL`, `SplitPath` and `split('/')`; the first exception ends it. -/
def toPieces (h : Host) : List (Option String) → Except String (List (List String × String))
  | [] => Except.ok []
  | path :: rest =>
    match h.URL (JS.showStr path) with
    | Except.error msg => Except.error msg
    | Except.ok pathname =>
      match toPieces h rest with
      | Except.error msg => Except.error msg
      | Except.ok pieces =>
        let df := SplitPath pathname
        Except.ok ((splitSlash df.1, df.2) :: pieces)

/-- The second loop of `StripCommonPrefix`: the first directory list of
strictly greatest length, `none` being `null`. -/
def refPath (pieces : List (List String × String)) : Option (List String) :=
  (pieces.foldl
    (fun (acc : Option (List String) × Nat) piece =>
      if piece.1.length > acc.2 then (some piece.1, piece.1.length) else acc)
    (none, 0)).1

/-- The third loop of `StripCommonPrefix`, over the elements of `ref_path`:
when every piece's current first segment equals the element, every piece loses
its first segment. -/
def stripLoop : List String → List (List String × String) → List (List String × String)
  | [], pieces => pieces
  | seg :: rest, pieces =>
    if pieces.all (fun p => p.1.head? == some seg) then
      stripLoop rest (pieces.map (fun p => (p.1.drop 1, p.2)))
    else stripLoop rest pieces

/-- The function `Util.StripCommonPrefix`.  `Except.error` is an exception
that is raised again by the `catch` block. -/
def StripCommonPrefix (h : Host) (paths : List (Option String)) :
    Except String (List (Option String)) :=
  match toPieces h paths with
  | Except.error msg =>
    if JS.includes msg.toList "is not a valid URL".toList then Except.ok paths
    else Except.error msg
  | Except.ok pieces =>
    let pieces :=
      match refPath pieces with
      | some ref_path => stripLoop ref_path pieces
      | none => pieces
    Except.ok (pieces.map (fun v => some (JoinPath ("/".intercalate v.1) v.2)))

/-- The last loop of `Util.FormatStack`: one entry per path; reading a field
of a missing `stack[i]` raises. -/
def formatEntries : List Frame → List (Option String) → Except String (List String)
  | _, [] => Except.ok []
  | [], _ :: _ => Except.error "TypeError: stack[i] is undefined"
  | frame :: stack, path :: paths =>
    match formatEntries stack paths with
    | Except.error msg => Except.error msg
    | Except.ok result =>
      Except.ok ((JS.showStr frame.name ++ "@" ++ JS.showStr path ++ ":" ++ JS.showNum frame.line
        ++ ":" ++ JS.showNum frame.column) :: result)

/-- The function `Util.FormatStack`: the effects (a failed `console.assert`
writes to the console) and the text or the exception. -/
def FormatStack (h : Host) (stack : List Frame) : List Event × Except String String :=
  match StripCommonPrefix h (stack.map (fun frame => frame.file)) with
  | Except.error msg => ([], Except.error msg)
  | Except.ok paths =>
    let asserted : List Event :=
      if stack.length = paths.length then [] else [Event.console Channel.assert []]
    match formatEntries stack paths with
    | Except.error msg => (asserted, Except.error msg)
    | Except.ok result => (asserted, Except.ok ("\n".intercalate result))

end Util

/-! ## Logging a message (lines 500-576) -/

namespace LoggerUtility

/-- The `switch (val)` of `do_log`: the console method for each severity
value; the value of `ALL` and `undefined` match no `case`. -/
def channelOf (val : Option Nat) : Option Channel :=
  match val with
  | some 1 => some Channel.log
  | some 2 => some Channel.log
  | some 3 => some Channel.log
  | some 4 => some Channel.warn
  | some 5 => some Channel.error
  | _ => none

/-- The loop `for (let hook of this._hooks[val])`: each hook is applied to
`[sev, stacktrace].concat(Util.ArgsToArray(argobj))`. -/
def hookEvents (self : LoggerUtility) (sev : String) (argobj : List Value) (stacktrace : Bool) :
    List Event :=
  ((self.hooksAt (_sev_value sev)).getD []).map
    (fun hook => Event.hookCall hook ([Value.str sev, Value.bool stacktrace] ++ argobj))

/-- The level `Math.max(Util.GetStackTrimBegin(), 1)` pushed by a traced call.
`Math.max(undefined, 1)` is `NaN`, which bounds no loop iteration; it can only
arise from an empty trim-level array, and is then modelled by the level 0. -/
def tracedLevel (u : Util.State) : Int :=
  match Util.GetStackTrimBegin u with
  | some l => max l 1
  | none => 0

/-- The body of `do_log`, with the callee `Util._toConsole` passed in as
`toConsole` (it receives the global state at the time of the call).  An
exception of `severity_enabled` escapes it. -/
def do_log_with (h : Host) (toConsole : Util.State → Channel → List Value → ConsoleRet)
    (u : Util.State) (self : LoggerUtility) (sev : String) (argobj : List Value)
    (stacktrace : Bool) : LogRet :=
  let enabled := self.severity_enabled h u sev
  if !enabled.1 then { util := u, logger := self, events := enabled.2, raised := enabled.3 }
  else
    let filtered := self.should_filter argobj sev
    if filtered.1 then
      { util := u, logger := self, events := enabled.2 ++ filtered.2, raised := none }
    else
      let val := _sev_value sev
      let before := enabled.2 ++ filtered.2 ++ self.hookEvents sev argobj stacktrace
      if stacktrace then
        let pushed := Util.PushStackTrimBegin u (tracedLevel u)
        match channelOf val with
        | some func =>
          let r := toConsole pushed func argobj
          match r.raised with
          | some msg =>
            { util := pushed, logger := self, events := before ++ r.events, raised := some msg }
          | none =>
            { util := Util.PopStackTrimBegin pushed, logger := self, events := before ++ r.events,
              raised := none }
        | none =>
          { util := Util.PopStackTrimBegin pushed, logger := self, events := before, raised := none }
      else
        match channelOf val with
        | some func =>
          { util := u, logger := self, events := before ++ [Event.console func argobj],
            raised := none }
        | none => { util := u, logger := self, events := before, raised := none }

end LoggerUtility

namespace Util

/-- The bound method `Util.ErrorOnly`, which is
`Util.Logger.do_log("ERROR", args, false)`; `logger` is `Util.Logger`.  A call
with `stacktrace = false` never reaches `Util._toConsole`. -/
def ErrorOnly (h : Host) (u : State) (logger : LoggerUtility) (args : List Value) : LogRet :=
  LoggerUtility.do_log_with h (fun _ _ _ => { events := [], raised := none }) u logger "ERROR"
    args false

/-- The function `Util.ParseStack`: the frames, and the effects of the
`Util.ErrorOnly` calls made for the lines that do not match.  Such a call does
not raise: `logger` is an instance that the constructor built, on which
`ERROR` is a known severity. -/
def ParseStack (h : Host) (u : State) (logger : LoggerUtility) :
    List String → List Frame × List Event
  | [] => ([], [])
  | line :: lines =>
    let rest := ParseStack h u logger lines
    let failed : List Frame × List Event :=
      (rest.1,
        (ErrorOnly h u logger [Value.str "Failed to parse stack frame", Value.str line]).events
          ++ rest.2)
    match h.browser with
    | Browser.CHROME =>
      match matchChrome line with
      | none => failed
      | some frame => (frame :: rest.1, rest.2)
    | Browser.FIREFOX =>
      match matchFirefox line with
      | none => failed
      | some frame => (frame :: rest.1, rest.2)
    | _ => (Frame.empty :: rest.1, rest.2)

/-- The function `Util._toConsole`; `func` is the console method passed in and
`logger` is `Util.Logger`. -/
def _toConsole (h : Host) (logger : LoggerUtility) (u : State) (func : Channel)
    (args : List Value) : ConsoleRet :=
  let parsed := ParseStack h u logger (GetStack h u)
  let stack := parsed.1.drop 2
  let formatted := FormatStack h stack
  let before := Event.stackCapture :: (parsed.2 ++ formatted.1)
  match formatted.2 with
  | Except.error msg => { events := before, raised := some msg }
  | Except.ok text =>
    { events := before ++
        [Event.console Channel.group [Value.str ("From " ++ text)], Event.console func args,
          Event.console Channel.groupEnd []],
      raised := none }

end Util

namespace LoggerUtility

/-- The method `do_log(sev, argobj, stacktrace)`.  The logger is the instance
`Util.Logger`, the only one the module creates, so the diagnostics that
`Util.ParseStack` sends through `Util.ErrorOnly` reach the same logger. -/
def do_log (h : Host) (u : Util.State) (self : LoggerUtility) (sev : String)
    (argobj : List Value) (stacktrace : Bool) : LogRet :=
  do_log_with h (Util._toConsole h self) u self sev argobj stacktrace

def Trace (h : Host) (u : Util.State) (self : LoggerUtility) (args : List Value) : LogRet :=
  self.do_log h u "TRACE" args true

def Debug (h : Host) (u : Util.State) (self : LoggerUtility) (args : List Value) : LogRet :=
  self.do_log h u "DEBUG" args true

def Info (h : Host) (u : Util.State) (self : LoggerUtility) (args : List Value) : LogRet :=
  self.do_log h u "INFO" args true

def Warn (h : Host) (u : Util.State) (self : LoggerUtility) (args : List Value) : LogRet :=
  self.do_log h u "WARN" args true

def Error (h : Host) (u : Util.State) (self : LoggerUtility) (args : List Value) : LogRet :=
  self.do_log h u "ERROR" args true

def TraceOnly (h : Host) (u : Util.State) (self : LoggerUtility) (args : List Value) : LogRet :=
  self.do_log h u "TRACE" args false

def DebugOnly (h : Host) (u : Util.State) (self : LoggerUtility) (args : List Value) : LogRet :=
  self.do_log h u "DEBUG" args false

def InfoOnly (h : Host) (u : Util.State) (self : LoggerUtility) (args : List Value) : LogRet :=
  self.do_log h u "INFO" args false

def WarnOnly (h : Host) (u : Util.State) (self : LoggerUtility) (args : List Value) : LogRet :=
  self.do_log h u "WARN" args false

def ErrorOnly (h : Host) (u : Util.State) (self : LoggerUtility) (args : List Value) : LogRet :=
  self.do_log h u "ERROR" args false

end LoggerUtility

/-! ## Vocabulary of the statements -/

/-- The five concrete severities, in the order TRACE < DEBUG < INFO < WARN <
ERROR of the specification. -/
inductive Severity where
  | TRACE | DEBUG | INFO | WARN | ERROR
  deriving DecidableEq

/-- The name under which a severity is passed to the logger. -/
def Severity.name : Severity → String
  | .TRACE => "TRACE"
  | .DEBUG => "DEBUG"
  | .INFO => "INFO"
  | .WARN => "WARN"
  | .ERROR => "ERROR"

/-- The position of a severity in the order TRACE < DEBUG < INFO < WARN <
ERROR. -/
def Severity.rank : Severity → Nat
  | .TRACE => 0
  | .DEBUG => 1
  | .INFO => 2
  | .WARN => 3
  | .ERROR => 4

/-- The console method on which `do_log` emits a call of a severity:
`console.log` for TRACE, DEBUG and INFO, `console.warn` for WARN and
`console.error` for ERROR. -/
def Severity.channel : Severity → Channel
  | .TRACE => Channel.log
  | .DEBUG => Channel.log
  | .INFO => Channel.log
  | .WARN => Channel.warn
  | .ERROR => Channel.error

/-- One registration call on a logger, with an arbitrary string as severity
name. -/
inductive RegCall where
  | add_hook (fn : HookFn) (sev : String)
  | add_filter (func : FilterFn) (sev : String)

/-- The logger after one registration call on the host `h`. -/
def RegCall.apply (h : Host) (self : LoggerUtility) : RegCall → LoggerUtility
  | .add_hook fn sev => (self.add_hook h fn sev).logger
  | .add_filter func sev => (self.add_filter h func sev).logger

/-- The logger built by the constructor and then a finite sequence of
registration calls on the host `h`, first call first. -/
def LoggerUtility.after (h : Host) (calls : List RegCall) : LoggerUtility :=
  calls.foldl (RegCall.apply h) LoggerUtility.new

/-- The hooks passed to `add_hook` under the severity name `sev`, in call
order. -/
def hooksRegistered (calls : List RegCall) (sev : String) : List HookFn :=
  calls.filterMap (fun c =>
    match c with
    | .add_hook fn s => if s = sev then some fn else none
    | .add_filter _ _ => none)

/-- The hooks passed to `add_hook` under a severity name whose value is `k`, in
call order. -/
def hooksRegisteredAt (calls : List RegCall) (k : Nat) : List HookFn :=
  calls.filterMap (fun c =>
    match c with
    | .add_hook fn s => if LoggerUtility._sev_value s = some k then some fn else none
    | .add_filter _ _ => none)

/-- The filters passed to `add_filter` under a severity name whose value is
`k`, in call order. -/
def filtersRegisteredAt (calls : List RegCall) (k : Nat) : List FilterFn :=
  calls.filterMap (fun c =>
    match c with
    | .add_hook _ _ => none
    | .add_filter func s => if LoggerUtility._sev_value s = some k then some func else none)

/-- The text of a Chrome stack line for the function `n` in file `f` at line
`l`, column `c`: two spaces, `at n (f:l:c)`, with the numbers in decimal. -/
def chromeLine (n f : String) (l c : Nat) : String :=
  "  at " ++ n ++ " (" ++ f ++ ":" ++ toString l ++ ":" ++ toString c ++ ")"

/-- The text of a Firefox stack line for the function `n` in file `f` at line
`l`, column `c`: `n@f:l:c`, with the numbers in decimal. -/
def firefoxLine (n f : String) (l c : Nat) : String :=
  n ++ "@" ++ f ++ ":" ++ toString l ++ ":" ++ toString c

/-- The `pathname` that `new URL(path)` gives for a path that the host accepts
(the empty string stands in for a path it rejects). -/
def Util.pathnameOf (h : Host) (path : Option String) : String :=
  match h.URL (JS.showStr path) with
  | Except.ok pathname => pathname
  | Except.error _ => ""

/-- The directory part of a path: the first component of `SplitPath` on its
`pathname`. -/
def Util.dirOf (h : Host) (path : Option String) : String :=
  (Util.SplitPath (Util.pathnameOf h path)).1

/-- The basename of a path: the second component of `SplitPath` on its
`pathname`. -/
def Util.baseOf (h : Host) (path : Option String) : String :=
  (Util.SplitPath (Util.pathnameOf h path)).2

/-- The directory-segment sequence of a path: its directory part split at
`/`. -/
def Util.segmentsOf (h : Host) (path : Option String) : List String :=
  Util.splitSlash (Util.dirOf h path)

/-- The number of leading positions at which two segment sequences agree. -/
def commonLen : List String → List String → Nat
  | a :: as, b :: bs => if a = b then commonLen as bs + 1 else 0
  | _, _ => 0

/-- The length of the longest common prefix of all the sequences of a list:
the common length of the first sequence with each of the others, at most its
own length; 0 for no sequence at all. -/
def longestCommonPrefixLen : List (List String) → Nat
  | [] => 0
  | d :: ds => (ds.map (commonLen d)).foldr min d.length

/-- A host that identifies itself as Chrome and whose `new URL` accepts exactly
the strings that start with `http://h`, giving what follows as `pathname`; on
every other string it throws with the message Chrome uses.  The stack is that
of a `Warn` call made from code typed into the developer console, the file of
which is reported as `<anonymous>`. -/
def chromeHost : Host :=
  { browser := Browser.CHROME
    stackLines :=
      ["Error",
       "    at _Util_GetStack (http://h/js/utility.js:297:15)",
       "    at _Util__toConsole (http://h/js/utility.js:422:31)",
       "    at LoggerUtility.do_log (http://h/js/utility.js:522:16)",
       "    at LoggerUtility.Warn (http://h/js/utility.js:554:27)",
       "    at main (<anonymous>:1:6)"]
    URL := fun s =>
      if "http://h".toList.isPrefixOf s.toList then Except.ok (String.mk (s.toList.drop 8))
      else Except.error "Failed to construct \x27URL\x27: Invalid URL"
    consoleException := false }

/-- A host that identifies itself as Firefox and whose `new URL` accepts
exactly the strings that start with `http://h`, giving what follows as
`pathname`; on every other string it throws with the message Firefox uses. -/
def firefoxHost : Host :=
  { browser := Browser.FIREFOX
    stackLines :=
      ["_Util_GetStack@http://h/js/utility.js:297:15",
       "_Util__toConsole@http://h/js/utility.js:422:31",
       "do_log@http://h/js/utility.js:522:16",
       "Warn@http://h/js/utility.js:554:27",
       "main@http://h/js/main.js:10:5"]
    URL := fun s =>
      if "http://h".toList.isPrefixOf s.toList then Except.ok (String.mk (s.toList.drop 8))
      else Except.error ("URL constructor: " ++ s ++ " is not a valid URL.")
    consoleException := true }

/-- A host whose runtime is neither Chrome nor Firefox. -/
def unknownHost : Host :=
  { browser := Browser.UNKNOWN
    stackLines := ["x@y:1:2"]
    URL := fun s => Except.error ("URL constructor: " ++ s ++ " is not a valid URL.")
    consoleException := false }

/-- The hook invoked by an effect, when the effect is a hook invocation with
the argument list `a`. -/
def hookInvokedWith (a : List Value) : Event → Option HookFn
  | Event.hookCall id b => if b = a then some id else none
  | _ => none

/-- The text of one entry of `Util.FormatStack`:
`name@path:line:column`, where a missing field reads `undefined`. -/
def Util.entryText (frame : Frame) (path : Option String) : String :=
  JS.showStr frame.name ++ "@" ++ JS.showStr path ++ ":" ++ JS.showNum frame.line
    ++ ":" ++ JS.showNum frame.column

/-- Whether an effect is a call of a method of `console`. -/
def isConsoleEvent : Event → Bool
  | Event.console _ _ => true
  | _ => false

/-! ## String additions (lines 140-229) -/

namespace JS

/-- The call `s.indexOf(sep)` on characters: the index of the first
occurrence of `sep`, `none` being -1. -/
def indexOf (sep : List Char) : List Char → Option Nat
  | [] => if sep.isEmpty then some 0 else none
  | c :: cs =>
    if sep.isPrefixOf (c :: cs) then some 0 else (indexOf sep cs).map (fun i => i + 1)

/-- The loop of `split_n`: at most `num` rounds, each of which needs an
occurrence of `sep` in `temp`; the tokens pushed and the final `temp`. -/
def split_n_loop (sep : List Char) : Nat → List Char → List (List Char) × List Char
  | 0, temp => ([], temp)
  | num + 1, temp =>
    match indexOf sep temp with
    | none => ([], temp)
    | some i =>
      let r := split_n_loop sep num (temp.drop (i + sep.length))
      (temp.take i :: r.1, r.2)

/-- The method `String.prototype.split_n(sep, num)`. -/
def split_n (s sep : String) (num : Nat) : List String :=
  let r := split_n_loop sep.toList num s.toList
  if r.2.length > 0 then r.1.map String.mk ++ [String.mk r.2] else r.1.map String.mk

/-- The characters stripped when `chrs` is omitted. -/
def defaultStripChars : List Char := [' ', '\r', '\n']

/-- The loop of `_stripFrom` going left from index `i`: it runs while `i > 0`
and `chrs` includes the character at `i`; the final `i`. -/
def stripRightIndex (s chrs : List Char) : Nat → Nat
  | 0 => 0
  | i + 1 =>
    match s.get? (i + 1) with
    | some c => if chrs.contains c then stripRightIndex s chrs i else i + 1
    | none => i + 1

/-- The method `String.prototype._stripFrom(chrs, from)`: `dir` is `from`, and
`chrs` is `none` when a falsy value is passed.  Going right the loop runs while
`i < this.length`; going left it starts at `this.length - 1` and the result is
`this.substr(0, i+1)`, which is empty for the empty string. -/
def _stripFrom (s : String) (chrs : Option (List Char)) (dir : Int) : String :=
  let cs := chrs.getD defaultStripChars
  if dir > 0 then String.mk (s.toList.dropWhile (fun c => cs.contains c))
  else String.mk (s.toList.take (stripRightIndex s.toList cs (s.toList.length - 1) + 1))

/-- The method `String.prototype.lstrip(chrs)`. -/
def lstrip (s : String) (chrs : Option (List Char)) : String := _stripFrom s chrs 1

/-- The method `String.prototype.rstrip(chrs)`. -/
def rstrip (s : String) (chrs : Option (List Char)) : String := _stripFrom s chrs (-1)

/-- The method `String.prototype.strip(chrs)`. -/
def strip (s : String) (chrs : Option (List Char)) : String :=
  _stripFrom (_stripFrom s chrs 1) chrs (-1)

/-- The call `s.split(c)` for a one-character separator: never empty. -/
def splitAtChar (sep : Char) : List Char → List (List Char)
  | [] => [[]]
  | c :: cs =>
    if c = sep then [] :: splitAtChar sep cs
    else
      match splitAtChar sep cs with
      | [] => [[c]]
      | seg :: segs => (c :: seg) :: segs

end JS

/-! ## Query strings (lines 1345-1381) -/

/-- A value of the object that `Util.ParseQueryString` builds.  `int n` is a
number that `parseInt` gave, and `float text` is the number that `parseFloat`
gives for `text`. -/
inductive QValue where
  | bool (b : Bool)
  | int (n : JS.Num)
  | float (text : String)
  | null
  | str (s : String)
  deriving DecidableEq

/-- What the host supplies to `Util.ParseQueryString`: `window.location.search`
and the result of `decodeURIComponent` on a text that contains `%` (the decoded
text, or the message of the `URIError`). -/
structure QueryHost where
  search : String
  decodeEscapes : String → Except String String

namespace Util

/-- The call `decodeURIComponent(val)`: a text without `%` has no escape
sequence and is returned as it is. -/
def decodeURIComponent (host : QueryHost) (val : String) : Except String String :=
  if val.toList.contains '%' then host.decodeEscapes val else Except.ok val

/-- The pattern `/^[0-9]+$/`. -/
def isDigits (cs : List Char) : Bool := !cs.isEmpty && cs.all JS.isDigit

/-- The pattern `/^[0-9]+\.[0-9]+$/`. -/
def isDecimalFraction (cs : List Char) : Bool :=
  isDigits (cs.takeWhile JS.isDigit) &&
    (match cs.dropWhile JS.isDigit with
     | '.' :: rest => isDigits rest
     | _ => false)

/-- The chain of tests that turns the decoded text of a value into the value
stored. -/
def queryValue (val : String) : QValue :=
  if val.toList.length = 0 then QValue.bool false
  else if val = "true" then QValue.bool true
  else if val = "false" then QValue.bool false
  else if isDigits val.toList then QValue.int (JS.parseInt val.toList)
  else if isDecimalFraction val.toList then QValue.float val
  else if val = "null" then QValue.null
  else QValue.str val

/-- The assignment `obj[key] = val` on an object literal, read through
`queryGet` only.  An assignment to the key `__proto__` sets or ignores the
prototype and creates no property. -/
def querySet (obj : List (String × QValue)) (key : String) (val : QValue) :
    List (String × QValue) :=
  if key = "__proto__" then obj
  else (obj.filter (fun e => e.1 ≠ key)) ++ [(key, val)]

/-- The own property `obj[key]`, `none` when there is none. -/
def queryGet (obj : List (String × QValue)) (key : String) : Option QValue :=
  (obj.find? (fun e => e.1 = key)).map (fun e => e.2)

/-- The body of the loop of `ParseQueryString` for one part. -/
def queryPart (host : QueryHost) (obj : List (String × QValue)) (part : String) :
    Except String (List (String × QValue)) :=
  match JS.indexOf ['='] part.toList with
  | none => Except.ok (querySet obj part (QValue.bool true))
  | some i =>
    match decodeURIComponent host (String.mk (part.toList.drop (i + 1))) with
    | Except.error msg => Except.error msg
    | Except.ok val => Except.ok (querySet obj (String.mk (part.toList.take i)) (queryValue val))

/-- The loop of `ParseQueryString` over the parts; an exception ends it. -/
def queryParts (host : QueryHost) :
    List (String × QValue) → List String → Except String (List (String × QValue))
  | obj, [] => Except.ok obj
  | obj, part :: rest =>
    match queryPart host obj part with
    | Except.error msg => Except.error msg
    | Except.ok obj' => queryParts host obj' rest

/-- The function `Util.ParseQueryString(query)`; `none` or the empty string is
a falsy `query`, replaced by `window.location.search`. -/
def ParseQueryString (host : QueryHost) (query : Option String) :
    Except String (List (String × QValue)) :=
  let query := if query.getD "" = "" then host.search else query.getD ""
  let query :=
    match query.toList with
    | '?' :: rest => rest
    | cs => cs
  queryParts host [] ((JS.splitAtChar '&' query).map String.mk)

end Util

/-! ## Random identifiers (lines 1128-1166) -/

namespace Util.Random

/-- The method `numToHex(num, pad)`:
`num.toString("16").padStart(pad, "0")`. -/
def numToHex (num pad : Nat) : List Char :=
  List.replicate (pad - (Nat.toDigits 16 num).length) '0' ++ Nat.toDigits 16 num

/-- The method `bytesToHex(bytes)`. -/
def bytesToHex (bytes : List Nat) : List Char :=
  bytes.flatMap (fun byte => numToHex byte 2)

/-- The method `uuid()`, as a function of the array `a` that `randBytes(16)`
returns (a `Uint8Array`: a write outside its length is ignored and a read
outside it gives `undefined`, which `&` takes as 0). -/
def uuid (a : List Nat) : String :=
  let a := a.set 6 (((a.getD 6 0) &&& 0x0f) ||| 0x40)
  let a := a.set 8 (((a.getD 8 0) &&& 0x3f) ||| 0x80)
  let h := bytesToHex a
  let parts : List (Nat × Nat) := [(0, 8), (8, 4), (12, 4), (16, 4), (20, 12)]
  "-".intercalate (parts.map (fun sl => String.mk ((h.drop sl.1).take sl.2)))

end Util.Random

/-- The index, in the text of a UUID, of the first of the two digits of byte
`j`: two digits per byte and one dash after each of the bytes 3, 5, 7, 9. -/
def uuidPos (j : Nat) : Nat :=
  2 * j + (if 4 ≤ j then 1 else 0) + (if 6 ≤ j then 1 else 0) + (if 8 ≤ j then 1 else 0)
    + (if 10 ≤ j then 1 else 0)

/-- The digits `0`-`9` and `a`-`f`. -/
def isLowerHex (c : Char) : Bool := ('0' ≤ c && c ≤ '9') || ('a' ≤ c && c ≤ 'f')

/-! ## Web storage (lines 1303-1339) -/

/-- A value that `JSON.parse` can return and `JSON.stringify` can write. -/
inductive Json where
  | null : Json
  | bool (b : Bool) : Json
  | num (n : Int) : Json
  | str (s : String) : Json
  | arr (xs : List Json) : Json
  | obj (kv : List (String × Json)) : Json

/-- The items of `window.localStorage`, each as the value that `JSON.parse`
gives for its text; `none` is a key with no item. -/
abbrev Storage := String → Option Json

namespace Util

/-- The function `Util.GetWebStorage(key)` for a given key:
`JSON.parse(window.localStorage.getItem(key))`, which is `null` when there is
no item. -/
def GetWebStorage (st : Storage) (key : String) : Json :=
  match st key with
  | none => Json.null
  | some v => v

/-- The function `Util.SetWebStorage(value, key)` for a given key:
`window.localStorage.setItem(key, JSON.stringify(value))`. -/
def SetWebStorage (st : Storage) (value : Json) (key : String) : Storage :=
  fun k => if k = key then some value else st k

/-- The function `Util.StorageAppend(key, value)`.  In the last branch
`v.push(value)` changes the array `v`, and `new_v` is still `[]`. -/
def StorageAppend (st : Storage) (key : String) (value : Json) : Storage :=
  let v := GetWebStorage st key
  let new_v : List Json :=
    match v with
    | Json.null => [value]
    | Json.arr _ => []
    | other => [other, value]
  SetWebStorage st (Json.arr new_v) key

end Util

/-! ## Colours (lines 612-646, 968-990) -/

/-- The argument of `Util.ParseCSSColor`: a string or an array. -/
inductive ColorArg where
  | css (s : String)
  | array (xs : List Value)

namespace Util

/-- The assignments of the branch `typeof(color) == "object"` for an array:
`a = color[4]` reads past the end of an array of four elements. -/
def colorComponents (xs : List Value) : List Value :=
  if xs.length = 3 ∨ xs.length = 4 then
    [xs.getD 0 Value.undefined, xs.getD 1 Value.undefined, xs.getD 2 Value.undefined,
      if xs.length = 4 then xs.getD 4 Value.undefined else Value.num 0]
  else [Value.num 0, Value.num 0, Value.num 0, Value.num 0]

/-- The destructuring `[r, g, b, a] = xs`: a missing element is `undefined`. -/
def firstFour (xs : List Value) : List Value :=
  [xs.getD 0 Value.undefined, xs.getD 1 Value.undefined, xs.getD 2 Value.undefined,
    xs.getD 3 Value.undefined]

/-- The function `Util.ParseCSSColor(color)`; `parse` is `ColorParser.parse`,
which draws on a canvas of the host.  An array of one element is replaced by
that element: a string goes to `parse`, `null` raises on `color.length`, and
any other value of the model is neither a string nor an object. -/
def ParseCSSColor (parse : String → List Value) : ColorArg → Except String (List Value)
  | ColorArg.css s => Except.ok (firstFour (parse s))
  | ColorArg.array [Value.str s] => Except.ok (firstFour (parse s))
  | ColorArg.array [Value.null] => Except.error "TypeError: color is null"
  | ColorArg.array [_] => Except.ok [Value.num 0, Value.num 0, Value.num 0, Value.num 0]
  | ColorArg.array xs => Except.ok (colorComponents xs)

end Util

namespace Color

/-- The operator `%` of JavaScript on exact numbers: the remainder has the
sign of the dividend. -/
def jsRem (a b : ℚ) : ℚ :=
  if 0 ≤ a / b then a - b * ⌊a / b⌋ else a - b * ⌈a / b⌉

/-- The function `Math.round` on exact numbers: halves go up. -/
def round (x : ℚ) : ℤ := ⌊x + 1 / 2⌋

/-- The static method `Color.RGBToHSL(r, g, b)`, on exact numbers.  The last
test of the chain, `max === b`, holds whenever the two before it fail. -/
def RGBToHSL (r g b : ℚ) : ℚ × ℚ × ℚ :=
  let r := r / 255
  let g := g / 255
  let b := b / 255
  let max := Max.max (Max.max r g) b
  let min := Min.min (Min.min r g) b
  let d := max - min
  let h : ℚ :=
    if d = 0 then 0
    else if max = r then jsRem ((g - b) / d) 6
    else if max = g then (b - r) / d + 2
    else (r - g) / d + 4
  let l := (min + max) / 2
  let s := if d = 0 then 0 else d / (1 - |2 * l - 1|)
  (h * 60, s, l)

/-- The static method `Color.HSLToRGB(h, s, l)`, on exact numbers, none of
which is `NaN`; `none` is the `TypeError` of reading `rgb1[0]` when no branch
has assigned `rgb1`. -/
def HSLToRGB (h s l : ℚ) : Option (ℤ × ℤ × ℤ) :=
  let c := (1 - |2 * l - 1|) * s
  let hp := h / 60
  let x := c * (1 - |jsRem hp 2 - 1|)
  let rgb1 : Option (ℚ × ℚ × ℚ) :=
    if hp ≤ 1 then some (c, x, 0)
    else if hp ≤ 2 then some (x, c, 0)
    else if hp ≤ 3 then some (0, c, x)
    else if hp ≤ 4 then some (0, x, c)
    else if hp ≤ 5 then some (x, 0, c)
    else if hp ≤ 6 then some (c, 0, x)
    else none
  let m := l - c * (1 / 2)
  rgb1.map (fun t =>
    (round (255 * (t.1 + m)), round (255 * (t.2.1 + m)), round (255 * (t.2.2 + m))))

/-- The round trip `Color.HSLToRGB(...Color.RGBToHSL(r, g, b))`. -/
def roundTrip (r g b : ℚ) : Option (ℤ × ℤ × ℤ) :=
  HSLToRGB (RGBToHSL r g b).1 (RGBToHSL r g b).2.1 (RGBToHSL r g b).2.2

end Color

/-! ## Math and Array additions (lines 81-106) -/

namespace Math

/-- The function `Math.divmod(n, r)`, on exact numbers: `[n / r, n % r]`, the
division being that of numbers and `%` the remainder with the sign of the
dividend. -/
def divmod (n r : ℚ) : ℚ × ℚ := (n / r, Color.jsRem n r)

end Math

namespace JS

/-- The conversion of a value to a boolean, as in `if (v)` and `!v`. -/
def truthy : Value → Bool
  | Value.undefined => false
  | Value.null => false
  | Value.bool b => b
  | Value.num n => n ≠ 0
  | Value.str s => s ≠ ""

/-- The function `(function(x) { !!x; })` that `any` and `all` use when `func`
is falsy: its body is an expression statement, there is no `return`, and the
call gives `undefined`. -/
def defaultPredicate (_x : Value) : Value := Value.undefined

/-- The loop of `Array.prototype.any`, followed by `return false`. -/
def anyLoop (func : Value → Value) : List Value → Bool
  | [] => false
  | e :: rest => if truthy (func e) then true else anyLoop func rest

/-- The loop of `Array.prototype.all`, followed by `return true`. -/
def allLoop (func : Value → Value) : List Value → Bool
  | [] => true
  | e :: rest => if !truthy (func e) then false else allLoop func rest

/-- The method `Array.prototype.any(func)`, `none` being a call without
`func`; the name `Array.any` is taken by the library. -/
def any (func : Option (Value → Value)) (xs : List Value) : Bool :=
  anyLoop (func.getD defaultPredicate) xs

/-- The method `Array.prototype.all(func)`, `none` being a call without
`func`. -/
def all (func : Option (Value → Value)) (xs : List Value) : Bool :=
  allLoop (func.getD defaultPredicate) xs

end JS

/-! # Theorems -/

/-! ## Severity names -/

theorem sev_value_cases (sev : String) :
    (sev = "ALL" ∧ LoggerUtility._sev_value sev = some 6) ∨
    (sev = "ERROR" ∧ LoggerUtility._sev_value sev = some 5) ∨
    (sev = "WARN" ∧ LoggerUtility._sev_value sev = some 4) ∨
    (sev = "INFO" ∧ LoggerUtility._sev_value sev = some 3) ∨
    (sev = "DEBUG" ∧ LoggerUtility._sev_value sev = some 2) ∨
    (sev = "TRACE" ∧ LoggerUtility._sev_value sev = some 1) ∨
    ((sev ≠ "ALL" ∧ sev ≠ "ERROR" ∧ sev ≠ "WARN" ∧ sev ≠ "INFO" ∧ sev ≠ "DEBUG" ∧ sev ≠ "TRACE")
      ∧ LoggerUtility._sev_value sev = none) := by
  by_cases h6 : sev = "ALL"
  · subst h6; exact Or.inl ⟨rfl, by decide⟩
  by_cases h5 : sev = "ERROR"
  · subst h5; exact Or.inr (Or.inl ⟨rfl, by decide⟩)
  by_cases h4 : sev = "WARN"
  · subst h4; exact Or.inr (Or.inr (Or.inl ⟨rfl, by decide⟩))
  by_cases h3 : sev = "INFO"
  · subst h3; exact Or.inr (Or.inr (Or.inr (Or.inl ⟨rfl, by decide⟩)))
  by_cases h2 : sev = "DEBUG"
  · subst h2; exact Or.inr (Or.inr (Or.inr (Or.inr (Or.inl ⟨rfl, by decide⟩))))
  by_cases h1 : sev = "TRACE"
  · subst h1; exact Or.inr (Or.inr (Or.inr (Or.inr (Or.inr (Or.inl ⟨rfl, by decide⟩)))))
  refine Or.inr (Or.inr (Or.inr (Or.inr (Or.inr (Or.inr ⟨⟨h6, h5, h4, h3, h2, h1⟩, ?_⟩)))))
  have e6 : ("ALL" == sev) = false := by simpa [beq_eq_false_iff_ne] using Ne.symm h6
  have e5 : ("ERROR" == sev) = false := by simpa [beq_eq_false_iff_ne] using Ne.symm h5
  have e4 : ("WARN" == sev) = false := by simpa [beq_eq_false_iff_ne] using Ne.symm h4
  have e3 : ("INFO" == sev) = false := by simpa [beq_eq_false_iff_ne] using Ne.symm h3
  have e2 : ("DEBUG" == sev) = false := by simpa [beq_eq_false_iff_ne] using Ne.symm h2
  have e1 : ("TRACE" == sev) = false := by simpa [beq_eq_false_iff_ne] using Ne.symm h1
  simp [LoggerUtility._sev_value, LoggerUtility.SEVERITIES, List.find?, e6, e5, e4, e3, e2, e1]

theorem sev_value_TRACE : LoggerUtility._sev_value "TRACE" = some 1 := by decide

theorem sev_value_DEBUG : LoggerUtility._sev_value "DEBUG" = some 2 := by decide

theorem sev_value_INFO : LoggerUtility._sev_value "INFO" = some 3 := by decide

theorem sev_value_WARN : LoggerUtility._sev_value "WARN" = some 4 := by decide

theorem sev_value_ERROR : LoggerUtility._sev_value "ERROR" = some 5 := by decide

theorem sev_value_ALL : LoggerUtility._sev_value "ALL" = some 6 := by decide

theorem sev_value_name (S : Severity) :
    LoggerUtility._sev_value S.name = some (S.rank + 1) := by
  cases S <;> decide

/-! ## Loggers reachable through the registration interface -/

theorem after_snoc (host : Host) (calls : List RegCall) (c : RegCall) :
    LoggerUtility.after host (calls ++ [c]) =
      RegCall.apply host (LoggerUtility.after host calls) c := by
  simp [LoggerUtility.after, List.foldl_append]

theorem hooksRegisteredAt_snoc_hook (calls : List RegCall) (fn : HookFn) (sev : String) (k : Nat) :
    hooksRegisteredAt (calls ++ [RegCall.add_hook fn sev]) k =
      hooksRegisteredAt calls k ++ (if LoggerUtility._sev_value sev = some k then [fn] else []) := by
  unfold hooksRegisteredAt
  rw [List.filterMap_append]
  by_cases h : LoggerUtility._sev_value sev = some k <;> simp [List.filterMap, h]

theorem hooksRegisteredAt_snoc_filter (calls : List RegCall) (func : FilterFn) (sev : String)
    (k : Nat) :
    hooksRegisteredAt (calls ++ [RegCall.add_filter func sev]) k = hooksRegisteredAt calls k := by
  unfold hooksRegisteredAt
  rw [List.filterMap_append]
  simp [List.filterMap]

theorem filtersRegisteredAt_snoc_filter (calls : List RegCall) (func : FilterFn) (sev : String)
    (k : Nat) :
    filtersRegisteredAt (calls ++ [RegCall.add_filter func sev]) k =
      filtersRegisteredAt calls k ++
        (if LoggerUtility._sev_value sev = some k then [func] else []) := by
  unfold filtersRegisteredAt
  rw [List.filterMap_append]
  by_cases h : LoggerUtility._sev_value sev = some k <;> simp [List.filterMap, h]

theorem filtersRegisteredAt_snoc_hook (calls : List RegCall) (fn : HookFn) (sev : String)
    (k : Nat) :
    filtersRegisteredAt (calls ++ [RegCall.add_hook fn sev]) k = filtersRegisteredAt calls k := by
  unfold filtersRegisteredAt
  rw [List.filterMap_append]
  simp [List.filterMap]

/-- Both objects of a reachable logger hold exactly the keys 1 to 6, in
ascending order, and under each key the callbacks registered under the name of
that value, in registration order. -/
theorem after_shape (host : Host) (calls : List RegCall) :
    (LoggerUtility.after host calls)._hooks =
        [(1, hooksRegisteredAt calls 1), (2, hooksRegisteredAt calls 2),
         (3, hooksRegisteredAt calls 3), (4, hooksRegisteredAt calls 4),
         (5, hooksRegisteredAt calls 5), (6, hooksRegisteredAt calls 6)] ∧
    (LoggerUtility.after host calls)._filters =
        [(1, filtersRegisteredAt calls 1), (2, filtersRegisteredAt calls 2),
         (3, filtersRegisteredAt calls 3), (4, filtersRegisteredAt calls 4),
         (5, filtersRegisteredAt calls 5), (6, filtersRegisteredAt calls 6)] := by
  induction calls using List.reverseRecOn with
  | nil => exact ⟨rfl, rfl⟩
  | append_singleton calls c ih =>
    obtain ⟨ihh, ihf⟩ := ih
    rw [after_snoc]
    cases c with
    | add_hook fn sev =>
      simp only [hooksRegisteredAt_snoc_hook, filtersRegisteredAt_snoc_hook]
      rcases sev_value_cases sev with h | h | h | h | h | h | h <;>
        cases hc : host.consoleException <;>
        simp [RegCall.apply, LoggerUtility.add_hook, LoggerUtility._assert_sev,
          LoggerUtility.hooksAt, objGet, objPush, h.2, ihh, ihf, List.find?, hc]
    | add_filter func sev =>
      simp only [hooksRegisteredAt_snoc_filter, filtersRegisteredAt_snoc_filter]
      rcases sev_value_cases sev with h | h | h | h | h | h | h <;>
        cases hc : host.consoleException <;>
        simp [RegCall.apply, LoggerUtility.add_filter, LoggerUtility._assert_sev,
          LoggerUtility.hooksAt, objGet, objPush, h.2, ihh, ihf, List.find?, hc]

theorem after_hooksAt (host : Host) (calls : List RegCall) (S : Severity) :
    (LoggerUtility.after host calls).hooksAt (LoggerUtility._sev_value S.name) =
      some (hooksRegisteredAt calls (S.rank + 1)) := by
  rw [sev_value_name, LoggerUtility.hooksAt, (after_shape host calls).1]
  cases S <;> rfl

theorem after_assert_sev (host : Host) (calls : List RegCall) (S : Severity) :
    (LoggerUtility.after host calls)._assert_sev host S.name =
      { answer := true, events := [], raised := none } := by
  simp [LoggerUtility._assert_sev, after_hooksAt]

/-! ## The severity gate -/

/-- C1: for each of the five severities `S` and every value `K` of
`Util.DebugLevel`, on every logger reachable through the registration
interface, `severity_enabled(S)` is true when `K = LEVEL_TRACE`; true iff
`S >= DEBUG` when `K = LEVEL_DEBUG`; true iff `S >= INFO` when `K = LEVEL_OFF`;
and true iff `S >= WARN` for every other `K`. -/
theorem severity_enabled_table (host : Host) (calls : List RegCall) (u : Util.State)
    (S : Severity) :
    (u.DebugLevel = Util.LEVEL_TRACE →
      ((LoggerUtility.after host calls).severity_enabled host u S.name).1 = true) ∧
    (u.DebugLevel = Util.LEVEL_DEBUG →
      (((LoggerUtility.after host calls).severity_enabled host u S.name).1 = true ↔
        Severity.DEBUG.rank ≤ S.rank)) ∧
    (u.DebugLevel = Util.LEVEL_OFF →
      (((LoggerUtility.after host calls).severity_enabled host u S.name).1 = true ↔
        Severity.INFO.rank ≤ S.rank)) ∧
    (u.DebugLevel ≠ Util.LEVEL_TRACE → u.DebugLevel ≠ Util.LEVEL_DEBUG →
      u.DebugLevel ≠ Util.LEVEL_OFF →
      (((LoggerUtility.after host calls).severity_enabled host u S.name).1 = true ↔
        Severity.WARN.rank ≤ S.rank)) := by
  have hval : LoggerUtility._sev_value S.name = some (S.rank + 1) := sev_value_name S
  refine ⟨?_, ?_, ?_, ?_⟩
  · intro hK
    simp [LoggerUtility.severity_enabled, after_assert_sev, hK]
  · intro hK
    have h2 : Util.LEVEL_DEBUG ≠ Util.LEVEL_TRACE := by decide
    simp only [LoggerUtility.severity_enabled, after_assert_sev, hK, h2, hval, sev_value_DEBUG]
    cases S <;> simp [Severity.rank]
  · intro hK
    have h2 : Util.LEVEL_OFF ≠ Util.LEVEL_TRACE := by decide
    have h1 : Util.LEVEL_OFF ≠ Util.LEVEL_DEBUG := by decide
    simp only [LoggerUtility.severity_enabled, after_assert_sev, hK, h2, h1, hval, sev_value_INFO]
    cases S <;> simp [Severity.rank]
  · intro h2 h1 h0
    simp only [LoggerUtility.severity_enabled, after_assert_sev, h2, h1, h0, hval, sev_value_WARN]
    cases S <;> simp [Severity.rank]

/-- C1, at `DebugLevel = 7` (none of the three named levels) on the fresh
logger: INFO is disabled and WARN is enabled. -/
theorem severity_enabled_table_witness :
    ((LoggerUtility.after chromeHost []).severity_enabled chromeHost
        { DebugLevel := 7, _stack_trim_begin_level := [0], _stack_trim_end_level := [0] }
        Severity.INFO.name).1 = false ∧
    ((LoggerUtility.after chromeHost []).severity_enabled chromeHost
        { DebugLevel := 7, _stack_trim_begin_level := [0], _stack_trim_end_level := [0] }
        Severity.WARN.name).1 = true := by
  constructor
  · have h := (severity_enabled_table chromeHost []
      { DebugLevel := 7, _stack_trim_begin_level := [0], _stack_trim_end_level := [0] }
      Severity.INFO).2.2.2 (by decide) (by decide) (by decide)
    have hr : ¬ Severity.WARN.rank ≤ Severity.INFO.rank := by decide
    exact Bool.eq_false_iff.mpr (fun e => hr (h.mp e))
  · exact ((severity_enabled_table chromeHost []
      { DebugLevel := 7, _stack_trim_begin_level := [0], _stack_trim_end_level := [0] }
      Severity.WARN).2.2.2 (by decide) (by decide) (by decide)).mpr (by decide)

/-- C7, as stated, fails: in the initial state of the module it is not the
case that `severity_enabled` is true exactly for WARN and ERROR. -/
theorem initial_state_not_warn_and_above :
    ¬ ∀ S : Severity,
      ((LoggerUtility.new.severity_enabled chromeHost Util.State.initial S.name).1 = true ↔
        (S = Severity.WARN ∨ S = Severity.ERROR)) := by
  intro h
  have h3 := (h Severity.INFO).mp (by decide)
  rcases h3 with h3 | h3 <;> cases h3

/-- C7, amended: in the initial state of the module (`Util.DebugLevel` is 0,
which is `LEVEL_OFF`), `severity_enabled` is true exactly for INFO, WARN and
ERROR and false for TRACE and DEBUG. -/
theorem initial_state_info_and_above (host : Host) (S : Severity) :
    (LoggerUtility.new.severity_enabled host Util.State.initial S.name).1 = true ↔
      (S = Severity.INFO ∨ S = Severity.WARN ∨ S = Severity.ERROR) := by
  have e : (LoggerUtility.new.severity_enabled host Util.State.initial S.name).1 =
      decide (S = Severity.INFO ∨ S = Severity.WARN ∨ S = Severity.ERROR) := by
    cases S <;> rfl
  rw [e, decide_eq_true_iff]

/-! ## Registration -/

/-- C8: on every reachable logger and for every valid severity name,
`add_hook` returns `true`, but `add_filter` returns `undefined`, both with the
severity given (one of the five concrete names or `"ALL"`) and with the
severity omitted. -/
theorem add_filter_returns_undefined (host : Host) (calls : List RegCall) (fn : HookFn)
    (func : FilterFn)
    (S : Severity) :
    ((LoggerUtility.after host calls).add_hook host fn S.name).value = Value.bool true ∧
    ((LoggerUtility.after host calls).add_hook host fn "ALL").value = Value.bool true ∧
    ((LoggerUtility.after host calls).add_hook_default host fn).value = Value.bool true ∧
    ((LoggerUtility.after host calls).add_filter host func S.name).value = Value.undefined ∧
    ((LoggerUtility.after host calls).add_filter host func "ALL").value = Value.undefined ∧
    ((LoggerUtility.after host calls).add_filter_default host func).value = Value.undefined := by
  have hall : (LoggerUtility.after host calls)._assert_sev host "ALL" =
      { answer := true, events := [], raised := none } := by
    have e : LoggerUtility._sev_value "ALL" = some 6 := by decide
    simp [LoggerUtility._assert_sev, e, LoggerUtility.hooksAt, (after_shape host calls).1, objGet,
      List.find?]
  simp [LoggerUtility.add_hook, LoggerUtility.add_filter, LoggerUtility.add_hook_default,
    LoggerUtility.add_filter_default, after_assert_sev, hall]

/-- C9: for every severity name that is not one of TRACE, DEBUG, INFO, WARN,
ERROR, ALL, and every logger, `add_hook`, `add_filter` and `severity_enabled`
call `console.exception`, and what follows depends on the host.  Where
`console.exception` is a function, each of them returns `false` without
raising and its only effect is that diagnostic.  Where it is missing, each of
them raises the `TypeError` of the call and returns nothing.  On every host
the logger (all its hook lists and filter lists) is what it was before the
call. -/
theorem invalid_severity_rejected (host : Host) (u : Util.State) (self : LoggerUtility)
    (fn : HookFn) (func : FilterFn) (sev : String)
    (hsev : sev ∉ ["TRACE", "DEBUG", "INFO", "WARN", "ERROR", "ALL"]) :
    (self.add_hook host fn sev).logger = self ∧
    (self.add_filter host func sev).logger = self ∧
    (host.consoleException = true →
      (self.add_hook host fn sev).value = Value.bool false ∧
      (self.add_hook host fn sev).raised = none ∧
      (self.add_filter host func sev).value = Value.bool false ∧
      (self.add_filter host func sev).raised = none ∧
      (self.severity_enabled host u sev).1 = false ∧
      (self.severity_enabled host u sev).raised = none ∧
      (self.add_hook host fn sev).events =
        [Event.console Channel.exception [Value.str ("Logger: invalid severity " ++ sev)]] ∧
      (self.add_filter host func sev).events =
        [Event.console Channel.exception [Value.str ("Logger: invalid severity " ++ sev)]] ∧
      (self.severity_enabled host u sev).2 =
        [Event.console Channel.exception [Value.str ("Logger: invalid severity " ++ sev)]]) ∧
    (host.consoleException = false →
      (self.add_hook host fn sev).raised =
        some "TypeError: console.exception is not a function" ∧
      (self.add_filter host func sev).raised =
        some "TypeError: console.exception is not a function" ∧
      (self.severity_enabled host u sev).raised =
        some "TypeError: console.exception is not a function" ∧
      (self.add_hook host fn sev).events = [] ∧
      (self.add_filter host func sev).events = [] ∧
      (self.severity_enabled host u sev).2 = []) := by
  have hnone : LoggerUtility._sev_value sev = none := by
    rcases sev_value_cases sev with h | h | h | h | h | h | h
    · exact absurd h.1 (fun e => hsev (by simp [e]))
    · exact absurd h.1 (fun e => hsev (by simp [e]))
    · exact absurd h.1 (fun e => hsev (by simp [e]))
    · exact absurd h.1 (fun e => hsev (by simp [e]))
    · exact absurd h.1 (fun e => hsev (by simp [e]))
    · exact absurd h.1 (fun e => hsev (by simp [e]))
    · exact h.2
  refine ⟨?_, ?_, ?_, ?_⟩
  · cases hc : host.consoleException <;>
      simp [LoggerUtility.add_hook, LoggerUtility._assert_sev, LoggerUtility.hooksAt, hnone, hc]
  · cases hc : host.consoleException <;>
      simp [LoggerUtility.add_filter, LoggerUtility._assert_sev, LoggerUtility.hooksAt, hnone,
        hc]
  · intro hc
    simp [LoggerUtility.add_hook, LoggerUtility.add_filter, LoggerUtility.severity_enabled,
      LoggerUtility._assert_sev, LoggerUtility.hooksAt, hnone, hc]
  · intro hc
    simp [LoggerUtility.add_hook, LoggerUtility.add_filter, LoggerUtility.severity_enabled,
      LoggerUtility._assert_sev, LoggerUtility.hooksAt, hnone, hc]

/-- C9, at the name `"FATAL"` on the fresh logger: the three calls return
`false` on `firefoxHost`, and on `chromeHost`, whose console has no method
`exception`, `add_hook` raises. -/
theorem invalid_severity_rejected_witness :
    "FATAL" ∉ ["TRACE", "DEBUG", "INFO", "WARN", "ERROR", "ALL"] ∧
    (LoggerUtility.new.add_hook firefoxHost 1 "FATAL").value = Value.bool false ∧
    (LoggerUtility.new.add_filter firefoxHost { id := 2, pred := fun _ => true } "FATAL").value
      = Value.bool false ∧
    (LoggerUtility.new.severity_enabled firefoxHost Util.State.initial "FATAL").1 = false ∧
    (LoggerUtility.new.add_hook chromeHost 1 "FATAL").raised =
      some "TypeError: console.exception is not a function" ∧
    (LoggerUtility.new.add_hook chromeHost 1 "FATAL").logger = LoggerUtility.new :=
  have h := invalid_severity_rejected firefoxHost Util.State.initial LoggerUtility.new 1
    { id := 2, pred := fun _ => true } "FATAL" (by decide)
  have h' := invalid_severity_rejected chromeHost Util.State.initial LoggerUtility.new 1
    { id := 2, pred := fun _ => true } "FATAL" (by decide)
  ⟨by decide, (h.2.2.1 rfl).1, (h.2.2.1 rfl).2.2.1, (h.2.2.1 rfl).2.2.2.2.1,
    (h'.2.2.2 rfl).1, h'.1⟩

/-! ## The trim-level stacks -/

theorem head_dropLast_of_length {α : Type} (l : List α) (h : l.length > 1) :
    l.dropLast.head? = l.head? := by
  match l, h with
  | _ :: _ :: _, _ => rfl

theorem get_last_mem (l : List Int) (h : l ≠ []) :
    ∃ v, l.get? (l.length - 1) = some v ∧ v ∈ l := by
  have hlt : l.length - 1 < l.length := by
    have : 0 < l.length := List.length_pos.mpr h
    omega
  exact ⟨l.get ⟨l.length - 1, hlt⟩, List.get?_eq_get hlt, List.get_mem l (l.length - 1) hlt⟩

theorem trim_call_keeps_base (u : Util.State) (c : Util.TrimCall)
    (hb : u._stack_trim_begin_level.head? = some 0)
    (he : u._stack_trim_end_level.head? = some 0) :
    (Util.TrimCall.apply u c)._stack_trim_begin_level.head? = some 0 ∧
    (Util.TrimCall.apply u c)._stack_trim_end_level.head? = some 0 := by
  cases c with
  | PushStackTrimBegin level =>
    refine ⟨?_, he⟩
    cases hl : u._stack_trim_begin_level with
    | nil => rw [hl] at hb; cases hb
    | cons a t => rw [hl] at hb; simpa [Util.TrimCall.apply, Util.PushStackTrimBegin, hl] using hb
  | PopStackTrimBegin =>
    by_cases hlen : u._stack_trim_begin_level.length > 1
    · refine ⟨?_, ?_⟩
      · simp only [Util.TrimCall.apply, Util.PopStackTrimBegin, hlen, if_true]
        rw [head_dropLast_of_length _ hlen]; exact hb
      · simpa only [Util.TrimCall.apply, Util.PopStackTrimBegin, hlen, if_true] using he
    · simp only [Util.TrimCall.apply, Util.PopStackTrimBegin, hlen, if_false]
      exact ⟨hb, he⟩
  | PushStackTrimEnd level =>
    refine ⟨hb, ?_⟩
    cases hl : u._stack_trim_end_level with
    | nil => rw [hl] at he; cases he
    | cons a t => rw [hl] at he; simpa [Util.TrimCall.apply, Util.PushStackTrimEnd, hl] using he
  | PopStackTrimEnd =>
    by_cases hlen : u._stack_trim_end_level.length > 1
    · refine ⟨?_, ?_⟩
      · simpa only [Util.TrimCall.apply, Util.PopStackTrimEnd, hlen, if_true] using hb
      · simp only [Util.TrimCall.apply, Util.PopStackTrimEnd, hlen, if_true]
        rw [head_dropLast_of_length _ hlen]; exact he
    · simp only [Util.TrimCall.apply, Util.PopStackTrimEnd, hlen, if_false]
      exact ⟨hb, he⟩

theorem trim_calls_keep_base (calls : List Util.TrimCall) (u : Util.State)
    (hb : u._stack_trim_begin_level.head? = some 0)
    (he : u._stack_trim_end_level.head? = some 0) :
    (Util.runTrimCalls u calls)._stack_trim_begin_level.head? = some 0 ∧
    (Util.runTrimCalls u calls)._stack_trim_end_level.head? = some 0 := by
  induction calls generalizing u with
  | nil => exact ⟨hb, he⟩
  | cons c rest ih =>
    have hstep := trim_call_keeps_base u c hb he
    exact ih (Util.TrimCall.apply u c) hstep.1 hstep.2

theorem length_pos_of_head {α : Type} (l : List α) (a : α) (h : l.head? = some a) :
    1 ≤ l.length ∧ l ≠ [] := by
  cases l with
  | nil => cases h
  | cons b t => exact ⟨by simp, by simp⟩

/-- C10: starting from the initial trim-level stacks `[0]` and `[0]`, after any
finite sequence of `PushStackTrimBegin`, `PopStackTrimBegin`,
`PushStackTrimEnd` and `PopStackTrimEnd` calls each stack has length at least
1 and its first element is the base value 0; `GetStackTrimBegin` and
`GetStackTrimEnd` return an element of their stack (never `undefined`); and a
pop on a stack of length 1 returns the state unchanged. -/
theorem trim_stacks_never_lose_base (calls : List Util.TrimCall) (u : Util.State) (x : Int) :
    (1 ≤ (Util.runTrimCalls Util.State.initial calls)._stack_trim_begin_level.length ∧
      (Util.runTrimCalls Util.State.initial calls)._stack_trim_begin_level.head? = some 0 ∧
      1 ≤ (Util.runTrimCalls Util.State.initial calls)._stack_trim_end_level.length ∧
      (Util.runTrimCalls Util.State.initial calls)._stack_trim_end_level.head? = some 0) ∧
    ((∃ v, Util.GetStackTrimBegin (Util.runTrimCalls Util.State.initial calls) = some v ∧
        v ∈ (Util.runTrimCalls Util.State.initial calls)._stack_trim_begin_level) ∧
      (∃ v, Util.GetStackTrimEnd (Util.runTrimCalls Util.State.initial calls) = some v ∧
        v ∈ (Util.runTrimCalls Util.State.initial calls)._stack_trim_end_level)) ∧
    (Util.PopStackTrimBegin { u with _stack_trim_begin_level := [x] } =
        { u with _stack_trim_begin_level := [x] } ∧
      Util.PopStackTrimEnd { u with _stack_trim_end_level := [x] } =
        { u with _stack_trim_end_level := [x] }) := by
  obtain ⟨hb, he⟩ := trim_calls_keep_base calls Util.State.initial rfl rfl
  have lb := length_pos_of_head _ _ hb
  have le := length_pos_of_head _ _ he
  refine ⟨⟨lb.1, hb, le.1, he⟩, ⟨get_last_mem _ lb.2, get_last_mem _ le.2⟩, ?_, ?_⟩
  · simp [Util.PopStackTrimBegin]
  · simp [Util.PopStackTrimEnd]

/-! ## The filter gate -/

theorem runFilters_cons_hit (key : Nat) (args : List Value) (f : FilterFn) (rest : List FilterFn)
    (h : f.pred args = true) :
    LoggerUtility.runFilters key args (f :: rest) = (true, [Event.filterCall key f.id args]) := by
  simp [LoggerUtility.runFilters, h]

theorem runFilters_cons_miss (key : Nat) (args : List Value) (f : FilterFn)
    (rest : List FilterFn) (h : f.pred args = false) :
    LoggerUtility.runFilters key args (f :: rest) =
      ((LoggerUtility.runFilters key args rest).1,
        Event.filterCall key f.id args :: (LoggerUtility.runFilters key args rest).2) := by
  simp [LoggerUtility.runFilters, h]

theorem filterEntries_cons_skip (sev : Option Nat) (args : List Value) (key : Nat)
    (filters : List FilterFn) (rest : List (Nat × List FilterFn))
    (h : LoggerUtility.keyGe key sev = false) :
    LoggerUtility.filterEntries sev args ((key, filters) :: rest) =
      LoggerUtility.filterEntries sev args rest := by
  simp [LoggerUtility.filterEntries, h]

theorem filterEntries_cons_hit (sev : Option Nat) (args : List Value) (key : Nat)
    (filters : List FilterFn) (rest : List (Nat × List FilterFn))
    (h : LoggerUtility.keyGe key sev = true)
    (hr : (LoggerUtility.runFilters key args filters).1 = true) :
    LoggerUtility.filterEntries sev args ((key, filters) :: rest) =
      LoggerUtility.runFilters key args filters := by
  simp [LoggerUtility.filterEntries, h, hr]

theorem filterEntries_cons_miss (sev : Option Nat) (args : List Value) (key : Nat)
    (filters : List FilterFn) (rest : List (Nat × List FilterFn))
    (h : LoggerUtility.keyGe key sev = true)
    (hr : (LoggerUtility.runFilters key args filters).1 = false) :
    LoggerUtility.filterEntries sev args ((key, filters) :: rest) =
      ((LoggerUtility.filterEntries sev args rest).1,
        (LoggerUtility.runFilters key args filters).2 ++
          (LoggerUtility.filterEntries sev args rest).2) := by
  simp [LoggerUtility.filterEntries, h, hr]

theorem runFilters_true_iff (key : Nat) (args : List Value) (fs : List FilterFn) :
    (LoggerUtility.runFilters key args fs).1 = true ↔ ∃ f ∈ fs, f.pred args = true := by
  induction fs with
  | nil => simp [LoggerUtility.runFilters]
  | cons f rest ih =>
    cases hf : f.pred args with
    | true =>
      rw [runFilters_cons_hit key args f rest hf]
      exact ⟨fun _ => ⟨f, List.mem_cons_self _ _, hf⟩, fun _ => rfl⟩
    | false =>
      rw [runFilters_cons_miss key args f rest hf]
      constructor
      · intro h
        obtain ⟨g, hg, hgp⟩ := ih.mp h
        exact ⟨g, List.mem_cons_of_mem _ hg, hgp⟩
      · rintro ⟨g, hg, hgp⟩
        rcases List.mem_cons.mp hg with rfl | hg
        · rw [hf] at hgp; cases hgp
        · exact ih.mpr ⟨g, hg, hgp⟩

theorem runFilters_events (key : Nat) (args : List Value) (fs : List FilterFn) :
    ∀ e ∈ (LoggerUtility.runFilters key args fs).2,
      ∃ f ∈ fs, e = Event.filterCall key f.id args := by
  induction fs with
  | nil => simp [LoggerUtility.runFilters]
  | cons f rest ih =>
    intro e hmem
    cases hf : f.pred args with
    | true =>
      rw [runFilters_cons_hit key args f rest hf] at hmem
      exact ⟨f, List.mem_cons_self _ _, List.mem_singleton.mp hmem⟩
    | false =>
      rw [runFilters_cons_miss key args f rest hf] at hmem
      rcases List.mem_cons.mp hmem with hmem | hmem
      · exact ⟨f, List.mem_cons_self _ _, hmem⟩
      · obtain ⟨g, hg, hge⟩ := ih e hmem
        exact ⟨g, List.mem_cons_of_mem _ hg, hge⟩

theorem filterEntries_true_iff (sev : Option Nat) (args : List Value)
    (entries : List (Nat × List FilterFn)) :
    (LoggerUtility.filterEntries sev args entries).1 = true ↔
      ∃ p ∈ entries, LoggerUtility.keyGe p.1 sev = true ∧ ∃ f ∈ p.2, f.pred args = true := by
  induction entries with
  | nil => simp [LoggerUtility.filterEntries]
  | cons p rest ih =>
    obtain ⟨key, filters⟩ := p
    have lift : (∃ p ∈ rest, LoggerUtility.keyGe p.1 sev = true ∧ ∃ f ∈ p.2, f.pred args = true) →
        ∃ p ∈ (key, filters) :: rest,
          LoggerUtility.keyGe p.1 sev = true ∧ ∃ f ∈ p.2, f.pred args = true := by
      rintro ⟨p, hp, h⟩
      exact ⟨p, List.mem_cons_of_mem _ hp, h⟩
    cases hk : LoggerUtility.keyGe key sev with
    | false =>
      rw [filterEntries_cons_skip sev args key filters rest hk, ih]
      refine ⟨lift, ?_⟩
      rintro ⟨p, hp, hge, hf⟩
      rcases List.mem_cons.mp hp with rfl | hp
      · rw [hk] at hge; cases hge
      · exact ⟨p, hp, hge, hf⟩
    | true =>
      cases hr : (LoggerUtility.runFilters key args filters).1 with
      | true =>
        rw [filterEntries_cons_hit sev args key filters rest hk hr]
        exact ⟨fun _ => ⟨(key, filters), List.mem_cons_self _ _, hk,
          (runFilters_true_iff key args filters).mp hr⟩, fun _ => hr⟩
      | false =>
        rw [filterEntries_cons_miss sev args key filters rest hk hr]
        show (LoggerUtility.filterEntries sev args rest).1 = true ↔ _
        rw [ih]
        refine ⟨lift, ?_⟩
        rintro ⟨p, hp, hge, hf⟩
        rcases List.mem_cons.mp hp with rfl | hp
        · have := (runFilters_true_iff key args filters).mpr hf
          rw [hr] at this; cases this
        · exact ⟨p, hp, hge, hf⟩

theorem filterEntries_events (sev : Option Nat) (args : List Value)
    (entries : List (Nat × List FilterFn)) :
    ∀ e ∈ (LoggerUtility.filterEntries sev args entries).2,
      ∃ p ∈ entries, LoggerUtility.keyGe p.1 sev = true ∧
        ∃ f ∈ p.2, e = Event.filterCall p.1 f.id args := by
  induction entries with
  | nil => simp [LoggerUtility.filterEntries]
  | cons p rest ih =>
    obtain ⟨key, filters⟩ := p
    intro e hmem
    have lift : (∃ p ∈ rest, LoggerUtility.keyGe p.1 sev = true ∧
        ∃ f ∈ p.2, e = Event.filterCall p.1 f.id args) →
        ∃ p ∈ (key, filters) :: rest, LoggerUtility.keyGe p.1 sev = true ∧
          ∃ f ∈ p.2, e = Event.filterCall p.1 f.id args := by
      rintro ⟨p, hp, h⟩
      exact ⟨p, List.mem_cons_of_mem _ hp, h⟩
    have here : e ∈ (LoggerUtility.runFilters key args filters).2 →
        LoggerUtility.keyGe key sev = true →
        ∃ p ∈ (key, filters) :: rest, LoggerUtility.keyGe p.1 sev = true ∧
          ∃ f ∈ p.2, e = Event.filterCall p.1 f.id args := by
      intro h hk
      exact ⟨(key, filters), List.mem_cons_self _ _, hk, runFilters_events key args filters e h⟩
    cases hk : LoggerUtility.keyGe key sev with
    | false =>
      rw [filterEntries_cons_skip sev args key filters rest hk] at hmem
      exact lift (ih e hmem)
    | true =>
      cases hr : (LoggerUtility.runFilters key args filters).1 with
      | true =>
        rw [filterEntries_cons_hit sev args key filters rest hk hr] at hmem
        exact here hmem hk
      | false =>
        rw [filterEntries_cons_miss sev args key filters rest hk hr] at hmem
        rcases List.mem_append.mp hmem with hmem | hmem
        · exact here hmem hk
        · exact lift (ih e hmem)

theorem mem_filtersRegisteredAt (calls : List RegCall) (k : Nat) (f : FilterFn) :
    f ∈ filtersRegisteredAt calls k ↔
      ∃ sev, RegCall.add_filter f sev ∈ calls ∧ LoggerUtility._sev_value sev = some k := by
  unfold filtersRegisteredAt
  rw [List.mem_filterMap]
  constructor
  · rintro ⟨c, hc, h⟩
    cases c with
    | add_hook fn s => simp at h
    | add_filter func s =>
      by_cases hs : LoggerUtility._sev_value s = some k
      · simp only [hs, if_true, Option.some.injEq] at h
        subst h
        exact ⟨s, hc, hs⟩
      · simp [hs] at h
  · rintro ⟨sev, hc, hs⟩
    exact ⟨RegCall.add_filter f sev, hc, by simp [hs]⟩

theorem mem_after_filters (host : Host) (calls : List RegCall) (p : Nat × List FilterFn) :
    p ∈ (LoggerUtility.after host calls)._filters ↔
      (1 ≤ p.1 ∧ p.1 ≤ 6) ∧ p.2 = filtersRegisteredAt calls p.1 := by
  rw [(after_shape host calls).2]
  obtain ⟨k, fs⟩ := p
  simp only [List.mem_cons, Prod.mk.injEq, List.mem_singleton, List.not_mem_nil, or_false]
  constructor
  · rintro (⟨rfl, rfl⟩ | ⟨rfl, rfl⟩ | ⟨rfl, rfl⟩ | ⟨rfl, rfl⟩ | ⟨rfl, rfl⟩ | ⟨rfl, rfl⟩) <;> simp
  · rintro ⟨⟨h1, h6⟩, rfl⟩
    have hk : k = 1 ∨ k = 2 ∨ k = 3 ∨ k = 4 ∨ k = 5 ∨ k = 6 := by omega
    rcases hk with rfl | rfl | rfl | rfl | rfl | rfl <;> simp

theorem sev_value_range (sev : String) (k : Nat) (h : LoggerUtility._sev_value sev = some k) :
    1 ≤ k ∧ k ≤ 6 := by
  rcases sev_value_cases sev with c | c | c | c | c | c | c <;>
    (rw [c.2] at h; first | (cases h; omega) | cases h)

/-- C4: on every reachable logger, for every concrete severity `S` and argument
sequence `args`, `should_filter(args, S)` returns true if and only if some
predicate registered (through `add_filter`) under a severity name whose numeric
value is at least the value of `S` returns true on `args`; and every predicate
that `should_filter` consults is applied to `args` and was registered under a
key at least the value of `S`, so none registered under a lower key is
consulted. -/
theorem should_filter_iff_registered_at_or_above (host : Host) (calls : List RegCall)
    (args : List Value)
    (S : Severity) :
    (((LoggerUtility.after host calls).should_filter args S.name).1 = true ↔
      ∃ func sev key v, RegCall.add_filter func sev ∈ calls ∧
        LoggerUtility._sev_value sev = some key ∧ LoggerUtility._sev_value S.name = some v ∧
        key ≥ v ∧ func.pred args = true) ∧
    (∀ key id a, Event.filterCall key id a ∈ ((LoggerUtility.after host calls).should_filter args S.name).2 →
      a = args ∧
      (∃ v, LoggerUtility._sev_value S.name = some v ∧ key ≥ v) ∧
      ∃ func sev, RegCall.add_filter func sev ∈ calls ∧
        LoggerUtility._sev_value sev = some key ∧ func.id = id) := by
  have hv := sev_value_name S
  constructor
  · unfold LoggerUtility.should_filter
    rw [filterEntries_true_iff, hv]
    constructor
    · rintro ⟨p, hp, hge, f, hf, hpred⟩
      obtain ⟨-, hfs⟩ := (mem_after_filters host calls p).mp hp
      rw [hfs] at hf
      obtain ⟨sev, hc, hs⟩ := (mem_filtersRegisteredAt calls p.1 f).mp hf
      refine ⟨f, sev, p.1, S.rank + 1, hc, hs, rfl, ?_, hpred⟩
      simpa [LoggerUtility.keyGe] using hge
    · rintro ⟨func, sev, key, v, hc, hs, hv', hge, hpred⟩
      cases hv'
      refine ⟨(key, filtersRegisteredAt calls key), ?_, ?_, func, ?_, hpred⟩
      · exact (mem_after_filters host calls _).mpr ⟨sev_value_range sev key hs, rfl⟩
      · simpa [LoggerUtility.keyGe] using hge
      · exact (mem_filtersRegisteredAt calls key func).mpr ⟨sev, hc, hs⟩
  · intro key id a he
    unfold LoggerUtility.should_filter at he
    obtain ⟨p, hp, hge, f, hf, hev⟩ := filterEntries_events _ _ _ _ he
    obtain ⟨-, hfs⟩ := (mem_after_filters host calls p).mp hp
    rw [hfs] at hf
    obtain ⟨sev, hc, hs⟩ := (mem_filtersRegisteredAt calls p.1 f).mp hf
    cases hev
    rw [hv] at hge ⊢
    exact ⟨rfl, ⟨S.rank + 1, rfl, by simpa [LoggerUtility.keyGe] using hge⟩, f, sev, hc, hs, rfl⟩

theorem warn_filter_logger (host : Host) (func : FilterFn) :
    (LoggerUtility.new.add_filter host func "WARN").logger._filters =
      [(1, []), (2, []), (3, []), (4, [func]), (5, []), (6, [])] := rfl

/-- C5, as stated, fails: with the single filter `fun _ => true` registered at
WARN and the empty argument sequence, it is not the case that `should_filter`
is true for WARN and ERROR and false for INFO (it is false for ERROR and true
for INFO). -/
theorem warn_filter_not_warn_and_above :
    ¬ (((LoggerUtility.new.add_filter chromeHost { id := 0, pred := fun _ => true } "WARN").logger.should_filter
          [] "WARN").1 = true ∧
      ((LoggerUtility.new.add_filter chromeHost { id := 0, pred := fun _ => true } "WARN").logger.should_filter
          [] "ERROR").1 = true ∧
      ((LoggerUtility.new.add_filter chromeHost { id := 0, pred := fun _ => true } "WARN").logger.should_filter
          [] "INFO").1 = false) := by
  decide

/-- C5, amended: when the only registered filter is a predicate registered at
WARN that returns true on `args`, `should_filter(args, S)` is true for
`S` = TRACE, DEBUG, INFO and WARN (a WARN-or-lower call is suppressed) and
false for `S` = ERROR (an ERROR call is not suppressed). -/
theorem warn_filter_suppresses_warn_and_below (host : Host) (func : FilterFn) (args : List Value)
    (h : func.pred args = true) :
    ((LoggerUtility.new.add_filter host func "WARN").logger.should_filter args "TRACE").1 = true ∧
    ((LoggerUtility.new.add_filter host func "WARN").logger.should_filter args "DEBUG").1 = true ∧
    ((LoggerUtility.new.add_filter host func "WARN").logger.should_filter args "INFO").1 = true ∧
    ((LoggerUtility.new.add_filter host func "WARN").logger.should_filter args "WARN").1 = true ∧
    ((LoggerUtility.new.add_filter host func "WARN").logger.should_filter args "ERROR").1 = false := by
  simp [LoggerUtility.should_filter, warn_filter_logger, LoggerUtility.filterEntries,
    LoggerUtility.keyGe, LoggerUtility.runFilters, sev_value_TRACE, sev_value_DEBUG,
    sev_value_INFO, sev_value_WARN, sev_value_ERROR, h]

/-- C5, amended, at the filter that accepts every argument sequence and the
arguments `("x")`. -/
theorem warn_filter_suppresses_warn_and_below_witness :
    ((LoggerUtility.new.add_filter chromeHost { id := 0, pred := fun _ => true } "WARN").logger.should_filter
        [Value.str "x"] "INFO").1 = true ∧
    ((LoggerUtility.new.add_filter chromeHost { id := 0, pred := fun _ => true } "WARN").logger.should_filter
        [Value.str "x"] "ERROR").1 = false :=
  have h := warn_filter_suppresses_warn_and_below chromeHost { id := 0, pred := fun _ => true }
    [Value.str "x"] rfl
  ⟨h.2.2.1, h.2.2.2.2⟩

/-! ## Logging a message -/

theorem channelOf_name (S : Severity) :
    LoggerUtility.channelOf (LoggerUtility._sev_value S.name) = some S.channel := by
  cases S <;> rfl

theorem hooksRegisteredAt_name (calls : List RegCall) (S : Severity) :
    hooksRegisteredAt calls (S.rank + 1) = hooksRegistered calls S.name := by
  unfold hooksRegisteredAt hooksRegistered
  congr 1
  funext c
  cases c with
  | add_filter func s => rfl
  | add_hook fn s =>
    have hiff : LoggerUtility._sev_value s = some (S.rank + 1) ↔ s = S.name := by
      constructor
      · intro hs
        rcases sev_value_cases s with c | c | c | c | c | c | c <;>
          (rw [c.2] at hs; cases S <;> first | exact c.1 | cases hs)
      · intro hs
        rw [hs]; exact sev_value_name S
    by_cases hs : s = S.name
    · simp [hs, sev_value_name]
    · have hs' : ¬ LoggerUtility._sev_value s = some (S.rank + 1) := fun e => hs (hiff.mp e)
      simp [hs, hs']

/-- The events of a call of `do_log`, by the gate that ends it. -/
theorem do_log_with_events (host : Host)
    (toConsole : Util.State → Channel → List Value → ConsoleRet)
    (u : Util.State) (self : LoggerUtility) (sev : String) (argobj : List Value)
    (stacktrace : Bool) :
    (LoggerUtility.do_log_with host toConsole u self sev argobj stacktrace).events =
      if (self.severity_enabled host u sev).1 = false then (self.severity_enabled host u sev).2
      else if (self.should_filter argobj sev).1 = true then
        (self.severity_enabled host u sev).2 ++ (self.should_filter argobj sev).2
      else
        (self.severity_enabled host u sev).2 ++ (self.should_filter argobj sev).2 ++
          self.hookEvents sev argobj stacktrace ++
          match LoggerUtility.channelOf (LoggerUtility._sev_value sev) with
          | some func =>
            if stacktrace = true then
              (toConsole (Util.PushStackTrimBegin u (LoggerUtility.tracedLevel u)) func
                argobj).events
            else [Event.console func argobj]
          | none => [] := by
  unfold LoggerUtility.do_log_with
  cases hen : (self.severity_enabled host u sev).1 with
  | false => simp [hen]
  | true =>
    cases hf : (self.should_filter argobj sev).1 with
    | true => simp [hen, hf]
    | false =>
      cases stacktrace with
      | false =>
        cases hc : LoggerUtility.channelOf (LoggerUtility._sev_value sev) with
        | none => simp [hen, hf, hc]
        | some func => simp [hen, hf, hc]
      | true =>
        cases hc : LoggerUtility.channelOf (LoggerUtility._sev_value sev) with
        | none => simp [hen, hf, hc]
        | some func =>
          cases hr : (toConsole (Util.PushStackTrimBegin u (LoggerUtility.tracedLevel u)) func
            argobj).raised with
          | none => simp [hen, hf, hc, hr]
          | some msg => simp [hen, hf, hc, hr]

theorem after_severity_enabled_events (host : Host) (calls : List RegCall) (u : Util.State)
    (S : Severity) :
    ((LoggerUtility.after host calls).severity_enabled host u S.name).2 = [] := by
  unfold LoggerUtility.severity_enabled
  rw [after_assert_sev]
  simp only [Bool.not_true, Bool.false_eq_true, if_false]
  split_ifs <;> rfl

theorem after_severity_enabled_raised (host : Host) (calls : List RegCall) (u : Util.State)
    (S : Severity) :
    ((LoggerUtility.after host calls).severity_enabled host u S.name).raised = none := by
  unfold LoggerUtility.severity_enabled
  rw [after_assert_sev]
  simp only [Bool.not_true, Bool.false_eq_true, if_false]
  split_ifs <;> rfl

theorem severity_enabled_raised_of_true (host : Host) (u : Util.State) (self : LoggerUtility)
    (sev : String) (hen : (self.severity_enabled host u sev).1 = true) :
    (self.severity_enabled host u sev).raised = none := by
  unfold LoggerUtility.severity_enabled at hen ⊢
  cases ha : (self._assert_sev host sev).1 with
  | false => simp [ha] at hen
  | true =>
    simp only [ha, Bool.not_true, Bool.false_eq_true, if_false]
    split_ifs <;> rfl

theorem do_log_with_gate_closed (host : Host)
    (toConsole : Util.State → Channel → List Value → ConsoleRet)
    (u : Util.State) (self : LoggerUtility) (sev : String) (argobj : List Value)
    (stacktrace : Bool)
    (hgate : (self.severity_enabled host u sev).1 = false ∨
      (self.should_filter argobj sev).1 = true) :
    (LoggerUtility.do_log_with host toConsole u self sev argobj stacktrace).util = u ∧
    (LoggerUtility.do_log_with host toConsole u self sev argobj stacktrace).logger = self ∧
    (LoggerUtility.do_log_with host toConsole u self sev argobj stacktrace).raised =
      (self.severity_enabled host u sev).raised := by
  cases hen : (self.severity_enabled host u sev).1 with
  | false =>
    unfold LoggerUtility.do_log_with
    simp [hen]
  | true =>
    have hr := severity_enabled_raised_of_true host u self sev hen
    unfold LoggerUtility.do_log_with
    rcases hgate with hg | hg
    · rw [hen] at hg; cases hg
    · simp [hen, hg, hr]

/-- C6: on every reachable logger, for every concrete severity `S`, argument
sequence and trace flag: if `severity_enabled(S)` is false or
`should_filter(args, S)` is true, then `do_log` returns normally, leaves the
global state (both trim-level stacks) and the logger (all hook and filter
lists) unchanged, and none of its effects is a hook invocation, a console
emission or a stack capture. -/
theorem do_log_gate_closed (h : Host) (u : Util.State) (calls : List RegCall) (S : Severity)
    (args : List Value) (t : Bool)
    (hgate : ((LoggerUtility.after h calls).severity_enabled h u S.name).1 = false ∨
      ((LoggerUtility.after h calls).should_filter args S.name).1 = true) :
    ((LoggerUtility.after h calls).do_log h u S.name args t).util = u ∧
    ((LoggerUtility.after h calls).do_log h u S.name args t).logger = LoggerUtility.after h calls ∧
    ((LoggerUtility.after h calls).do_log h u S.name args t).raised = none ∧
    ∀ e ∈ ((LoggerUtility.after h calls).do_log h u S.name args t).events,
      (∀ id a, e ≠ Event.hookCall id a) ∧ (∀ ch a, e ≠ Event.console ch a) ∧
        e ≠ Event.stackCapture := by
  obtain ⟨hu, hl, hr⟩ := do_log_with_gate_closed h
    (Util._toConsole h (LoggerUtility.after h calls)) u (LoggerUtility.after h calls) S.name
    args t hgate
  refine ⟨hu, hl, hr.trans (after_severity_enabled_raised h calls u S), ?_⟩
  intro e he
  have hfc : ∃ key id a, e = Event.filterCall key id a := by
    unfold LoggerUtility.do_log at he
    rw [do_log_with_events, after_severity_enabled_events] at he
    cases hen : ((LoggerUtility.after h calls).severity_enabled h u S.name).1 with
    | false => simp [hen] at he
    | true =>
      rcases hgate with hg | hg
      · rw [hen] at hg; cases hg
      · simp only [hen, hg, Bool.true_eq_false, if_false, if_true, List.nil_append] at he
        obtain ⟨p, -, -, f, -, hev⟩ := filterEntries_events _ _ _ e he
        exact ⟨p.1, f.id, args, hev⟩
  obtain ⟨key, id, a, rfl⟩ := hfc
  exact ⟨fun _ _ hc => Event.noConfusion hc, fun _ _ hc => Event.noConfusion hc,
    fun hc => Event.noConfusion hc⟩

/-- C6, at a DEBUG call in the initial state of the module (where DEBUG is
disabled) on the fresh logger, for a traced call. -/
theorem do_log_gate_closed_witness :
    ((LoggerUtility.after chromeHost []).do_log
        chromeHost
        Util.State.initial Severity.DEBUG.name [Value.str "x"] true).util = Util.State.initial ∧
    ((LoggerUtility.after chromeHost []).do_log
        chromeHost
        Util.State.initial Severity.DEBUG.name [Value.str "x"] true).raised = none :=
  have h := do_log_gate_closed
    chromeHost
    Util.State.initial [] Severity.DEBUG [Value.str "x"] true (Or.inl (by decide))
  ⟨h.1, h.2.2.1⟩

theorem severity_enabled_events_of_assert (host : Host) (u : Util.State) (self : LoggerUtility)
    (sev : String)
    (h : self._assert_sev host sev = { answer := true, events := [], raised := none }) :
    (self.severity_enabled host u sev).2 = [] := by
  unfold LoggerUtility.severity_enabled
  rw [h]
  simp only [Bool.not_true, Bool.false_eq_true, if_false]
  split_ifs <;> rfl

theorem do_log_with_no_hook (host : Host)
    (toConsole : Util.State → Channel → List Value → ConsoleRet)
    (u : Util.State) (self : LoggerUtility) (sev : String) (argobj : List Value)
    (stacktrace : Bool)
    (hassert : self._assert_sev host sev = { answer := true, events := [], raised := none })
    (hhooks : self.hooksAt (LoggerUtility._sev_value sev) = some [])
    (hcons : ∀ u' func a, ∀ e ∈ (toConsole u' func a).events, ∀ id b, e ≠ Event.hookCall id b) :
    ∀ e ∈ (LoggerUtility.do_log_with host toConsole u self sev argobj stacktrace).events,
      ∀ id b, e ≠ Event.hookCall id b := by
  intro e he id b hc
  subst hc
  rw [do_log_with_events, severity_enabled_events_of_assert host u self sev hassert] at he
  have hfilter : Event.hookCall id b ∉ (self.should_filter argobj sev).2 := by
    intro hm
    obtain ⟨p, -, -, f, -, hev⟩ := filterEntries_events _ _ _ _ hm
    cases hev
  have hhe : self.hookEvents sev argobj stacktrace = [] := by
    simp [LoggerUtility.hookEvents, hhooks]
  rw [hhe] at he
  by_cases h1 : (self.severity_enabled host u sev).1 = false
  · rw [if_pos h1] at he; cases he
  · rw [if_neg h1] at he
    by_cases h2 : (self.should_filter argobj sev).1 = true
    · rw [if_pos h2] at he
      exact hfilter (by simpa using he)
    · rw [if_neg h2] at he
      simp only [List.nil_append, List.append_nil, List.mem_append] at he
      rcases he with he | he
      · exact hfilter he
      · cases hc : LoggerUtility.channelOf (LoggerUtility._sev_value sev) with
        | none => rw [hc] at he; cases he
        | some func =>
          rw [hc] at he
          by_cases ht : stacktrace = true
          · simp only [ht, if_true] at he
            exact hcons _ _ _ _ he id b rfl
          · simp [ht] at he

theorem parseStack_no_hook (h : Host) (u : Util.State) (logger : LoggerUtility)
    (hassert : logger._assert_sev h "ERROR" = { answer := true, events := [], raised := none })
    (hhooks : logger.hooksAt (LoggerUtility._sev_value "ERROR") = some [])
    (lines : List String) :
    ∀ e ∈ (Util.ParseStack h u logger lines).2, ∀ id b, e ≠ Event.hookCall id b := by
  induction lines with
  | nil => intro e he; cases he
  | cons line rest ih =>
    intro e he
    have hfailed : e ∈ (Util.ErrorOnly h u logger
        [Value.str "Failed to parse stack frame", Value.str line]).events ++
        (Util.ParseStack h u logger rest).2 → ∀ id b, e ≠ Event.hookCall id b := by
      intro hm
      rcases List.mem_append.mp hm with hm | hm
      · exact do_log_with_no_hook h _ u logger "ERROR" _ false hassert hhooks
          (fun _ _ _ e he => by cases he) e hm
      · exact ih e hm
    unfold Util.ParseStack at he
    cases hb : h.browser with
    | CHROME =>
      simp only [hb] at he
      cases hm : Util.matchChrome line with
      | none => rw [hm] at he; exact hfailed he
      | some frame => rw [hm] at he; exact ih e he
    | FIREFOX =>
      simp only [hb] at he
      cases hm : Util.matchFirefox line with
      | none => rw [hm] at he; exact hfailed he
      | some frame => rw [hm] at he; exact ih e he
    | OBS => simp only [hb] at he; exact ih e he
    | UNKNOWN => simp only [hb] at he; exact ih e he

theorem formatStack_no_hook (h : Host) (stack : List Frame) :
    ∀ e ∈ (Util.FormatStack h stack).1, ∀ id b, e ≠ Event.hookCall id b := by
  intro e he id b hc
  subst hc
  unfold Util.FormatStack at he
  cases hs : Util.StripCommonPrefix h (stack.map (fun frame => frame.file)) with
  | error msg => rw [hs] at he; cases he
  | ok paths =>
    rw [hs] at he
    cases hf : Util.formatEntries stack paths with
    | error msg =>
      simp only [hf] at he
      split_ifs at he <;> simp at he
    | ok result =>
      simp only [hf] at he
      split_ifs at he <;> simp at he

theorem toConsole_no_hook (h : Host) (logger : LoggerUtility) (u : Util.State) (func : Channel)
    (args : List Value)
    (hassert : logger._assert_sev h "ERROR" = { answer := true, events := [], raised := none })
    (hhooks : logger.hooksAt (LoggerUtility._sev_value "ERROR") = some []) :
    ∀ e ∈ (Util._toConsole h logger u func args).events, ∀ id b, e ≠ Event.hookCall id b := by
  intro e he id b hc
  subst hc
  have hp := parseStack_no_hook h u logger hassert hhooks (Util.GetStack h u)
  have hf := formatStack_no_hook h ((Util.ParseStack h u logger (Util.GetStack h u)).1.drop 2)
  unfold Util._toConsole at he
  dsimp only at he
  cases hfmt : (Util.FormatStack h
      (List.drop 2 (Util.ParseStack h u logger (Util.GetStack h u)).1)).2 with
  | error msg =>
    rw [hfmt] at he
    simp only [List.mem_cons, List.mem_append] at he
    rcases he with he | he | he
    · cases he
    · exact hp _ he id b rfl
    · exact hf _ he id b rfl
  | ok text =>
    rw [hfmt] at he
    simp only [List.mem_cons, List.mem_append, List.mem_singleton, List.not_mem_nil,
      or_false] at he
    rcases he with (he | he | he) | he | he | he
    · cases he
    · exact hp _ he id b rfl
    · exact hf _ he id b rfl
    · cases he
    · cases he
    · cases he

theorem default_hook_logger (host : Host) (fn : HookFn) :
    (LoggerUtility.new.add_hook_default host fn).logger =
      LoggerUtility.after host [RegCall.add_hook fn "ALL"] :=
  rfl

theorem default_hook_hooksAt (host : Host) (fn : HookFn) (S : Severity) :
    (LoggerUtility.after host [RegCall.add_hook fn "ALL"]).hooksAt (LoggerUtility._sev_value S.name) =
      some [] := by
  rw [after_hooksAt]
  cases S <;> rfl

/-- C2: the code does not do what the claim says.  With verbosity TRACE, no
filters and one hook registered through `add_hook(fn)` (severity omitted, hence
`"ALL"`; the registration is accepted), a log call at any of the five concrete
severities, plain or traced, is enabled and unfiltered, and yet none of its
effects is a hook invocation. -/
theorem all_hook_never_invoked (h : Host) (b e : List Int) (fn : HookFn) (S : Severity)
    (args : List Value) (t : Bool) :
    (LoggerUtility.new.add_hook_default h fn).value = Value.bool true ∧
    ((LoggerUtility.new.add_hook_default h fn).logger.severity_enabled h
      { DebugLevel := Util.LEVEL_TRACE, _stack_trim_begin_level := b, _stack_trim_end_level := e }
      S.name).1 = true ∧
    ((LoggerUtility.new.add_hook_default h fn).logger.should_filter args S.name).1 = false ∧
    ∀ id a, Event.hookCall id a ∉
      ((LoggerUtility.new.add_hook_default h fn).logger.do_log h
        { DebugLevel := Util.LEVEL_TRACE, _stack_trim_begin_level := b,
          _stack_trim_end_level := e }
        S.name args t).events := by
  rw [default_hook_logger]
  refine ⟨rfl, ?_, ?_, ?_⟩
  · simp [LoggerUtility.severity_enabled, after_assert_sev]
  · have hf : (LoggerUtility.after h [RegCall.add_hook fn "ALL"])._filters =
        [(1, []), (2, []), (3, []), (4, []), (5, []), (6, [])] := rfl
    unfold LoggerUtility.should_filter
    rw [hf]
    simp [LoggerUtility.filterEntries, LoggerUtility.runFilters]
  · intro id a hmem
    have hE := default_hook_hooksAt h fn Severity.ERROR
    have hA := after_assert_sev h [RegCall.add_hook fn "ALL"] Severity.ERROR
    exact do_log_with_no_hook h _ _ _ S.name args t
      (after_assert_sev h [RegCall.add_hook fn "ALL"] S) (default_hook_hooksAt h fn S)
      (fun u' func a' => toConsole_no_hook h _ u' func a' hA hE) _ hmem id a rfl

theorem severity_enabled_events_no_hook (host : Host) (u : Util.State) (self : LoggerUtility)
    (sev : String) :
    ∀ e ∈ (self.severity_enabled host u sev).2, ∀ id b, e ≠ Event.hookCall id b := by
  intro e he id b hc
  subst hc
  unfold LoggerUtility.severity_enabled LoggerUtility._assert_sev at he
  split_ifs at he <;> simp at he

/-- Every hook invocation made by a plain call of `do_log` carries the
argument list `(sev, false, ...argobj)`. -/
theorem do_log_with_plain_hook_args (host : Host)
    (toConsole : Util.State → Channel → List Value → ConsoleRet)
    (u : Util.State) (self : LoggerUtility) (sev : String) (argobj : List Value) :
    ∀ id b, Event.hookCall id b ∈
        (LoggerUtility.do_log_with host toConsole u self sev argobj false).events →
      b = Value.str sev :: Value.bool false :: argobj := by
  intro id b he
  rw [do_log_with_events] at he
  have hen : Event.hookCall id b ∉ (self.severity_enabled host u sev).2 :=
    fun hm => severity_enabled_events_no_hook host u self sev _ hm id b rfl
  have hfilter : Event.hookCall id b ∉ (self.should_filter argobj sev).2 := by
    intro hm
    obtain ⟨p, -, -, f, -, hev⟩ := filterEntries_events _ _ _ _ hm
    cases hev
  by_cases h1 : (self.severity_enabled host u sev).1 = false
  · rw [if_pos h1] at he; exact absurd he hen
  · rw [if_neg h1] at he
    by_cases h2 : (self.should_filter argobj sev).1 = true
    · rw [if_pos h2] at he
      rcases List.mem_append.mp he with he | he
      · exact absurd he hen
      · exact absurd he hfilter
    · rw [if_neg h2] at he
      simp only [List.mem_append] at he
      rcases he with ((he | he) | he) | he
      · exact absurd he hen
      · exact absurd he hfilter
      · unfold LoggerUtility.hookEvents at he
        obtain ⟨hook, -, hev⟩ := List.mem_map.mp he
        cases hev
        rfl
      · cases hc : LoggerUtility.channelOf (LoggerUtility._sev_value sev) with
        | none => rw [hc] at he; cases he
        | some func => rw [hc] at he; simp at he

theorem parseStack_hook_args (h : Host) (u : Util.State) (logger : LoggerUtility)
    (lines : List String) :
    ∀ id b, Event.hookCall id b ∈ (Util.ParseStack h u logger lines).2 →
      ∃ rest, b = Value.str "ERROR" :: Value.bool false :: rest := by
  induction lines with
  | nil => intro id b he; cases he
  | cons line rest ih =>
    intro id b he
    have hfailed : Event.hookCall id b ∈ (Util.ErrorOnly h u logger
        [Value.str "Failed to parse stack frame", Value.str line]).events ++
        (Util.ParseStack h u logger rest).2 →
        ∃ rest, b = Value.str "ERROR" :: Value.bool false :: rest := by
      intro hm
      rcases List.mem_append.mp hm with hm | hm
      · exact ⟨_, do_log_with_plain_hook_args h _ u logger "ERROR" _ id b hm⟩
      · exact ih id b hm
    unfold Util.ParseStack at he
    cases hb : h.browser with
    | CHROME =>
      simp only [hb] at he
      cases hm : Util.matchChrome line with
      | none => rw [hm] at he; exact hfailed he
      | some frame => rw [hm] at he; exact ih id b he
    | FIREFOX =>
      simp only [hb] at he
      cases hm : Util.matchFirefox line with
      | none => rw [hm] at he; exact hfailed he
      | some frame => rw [hm] at he; exact ih id b he
    | OBS => simp only [hb] at he; exact ih id b he
    | UNKNOWN => simp only [hb] at he; exact ih id b he

/-- Every hook invocation that happens inside `Util._toConsole` belongs to an
`ErrorOnly` diagnostic: its argument list starts with `"ERROR", false`. -/
theorem toConsole_hook_args (h : Host) (logger : LoggerUtility) (u : Util.State) (func : Channel)
    (args : List Value) :
    ∀ id b, Event.hookCall id b ∈ (Util._toConsole h logger u func args).events →
      ∃ rest, b = Value.str "ERROR" :: Value.bool false :: rest := by
  intro id b he
  have hp := parseStack_hook_args h u logger (Util.GetStack h u) id b
  have hf := formatStack_no_hook h ((Util.ParseStack h u logger (Util.GetStack h u)).1.drop 2)
  unfold Util._toConsole at he
  dsimp only at he
  cases hfmt : (Util.FormatStack h
      (List.drop 2 (Util.ParseStack h u logger (Util.GetStack h u)).1)).2 with
  | error msg =>
    rw [hfmt] at he
    simp only [List.mem_cons, List.mem_append] at he
    rcases he with he | he | he
    · cases he
    · exact hp he
    · exact absurd rfl (hf _ he id b)
  | ok text =>
    rw [hfmt] at he
    simp only [List.mem_cons, List.mem_append, List.mem_singleton, List.not_mem_nil,
      or_false] at he
    rcases he with (he | he | he) | he | he | he
    · cases he
    · exact hp he
    · exact absurd rfl (hf _ he id b)
    · cases he
    · cases he
    · cases he

theorem filterMap_hookInvokedWith_none (a : List Value) (l : List Event)
    (h : ∀ e ∈ l, hookInvokedWith a e = none) : l.filterMap (hookInvokedWith a) = [] := by
  induction l with
  | nil => rfl
  | cons e rest ih =>
    rw [List.filterMap_cons, h e (List.mem_cons_self _ _)]
    exact ih (fun e' he' => h e' (List.mem_cons_of_mem _ he'))

theorem filterMap_hookInvokedWith_map (a : List Value) (hooks : List HookFn) :
    (hooks.map (fun fn => Event.hookCall fn a)).filterMap (hookInvokedWith a) = hooks := by
  induction hooks with
  | nil => rfl
  | cons fn rest ih =>
    rw [List.map_cons, List.filterMap_cons]
    simp [hookInvokedWith, ih]

/-- C3: on every reachable logger, for every enabled, unfiltered call at a
concrete severity `S` with arguments `args` and trace flag `t`, the effects of
`do_log` are, in order: the filter consultations of `should_filter`; then one
invocation of each hook registered through `add_hook` at `S`, in registration
order, each with the argument list `(S, t, ...args)`; then the emission, which
for a plain call is the single console call of the severity and for a traced
call is one call of `Util._toConsole`.  In the whole call, the hooks invoked
with the argument list `(S, t, ...args)` are exactly the hooks registered at
`S`, each once, in registration order. -/
theorem do_log_dispatches_registered_hooks (h : Host) (u : Util.State) (calls : List RegCall)
    (S : Severity) (args : List Value) (t : Bool)
    (hen : ((LoggerUtility.after h calls).severity_enabled h u S.name).1 = true)
    (hnf : ((LoggerUtility.after h calls).should_filter args S.name).1 = false) :
    ((LoggerUtility.after h calls).do_log h u S.name args t).events =
      ((LoggerUtility.after h calls).should_filter args S.name).2 ++
        (hooksRegistered calls S.name).map
          (fun fn => Event.hookCall fn (Value.str S.name :: Value.bool t :: args)) ++
        (if t = true then
          (Util._toConsole h (LoggerUtility.after h calls)
            (Util.PushStackTrimBegin u (LoggerUtility.tracedLevel u)) S.channel args).events
        else [Event.console S.channel args]) ∧
    (((LoggerUtility.after h calls).do_log h u S.name args t).events.filterMap
        (hookInvokedWith (Value.str S.name :: Value.bool t :: args)) =
      hooksRegistered calls S.name) := by
  have hev : ((LoggerUtility.after h calls).do_log h u S.name args t).events =
      ((LoggerUtility.after h calls).should_filter args S.name).2 ++
        (hooksRegistered calls S.name).map
          (fun fn => Event.hookCall fn (Value.str S.name :: Value.bool t :: args)) ++
        (if t = true then
          (Util._toConsole h (LoggerUtility.after h calls)
            (Util.PushStackTrimBegin u (LoggerUtility.tracedLevel u)) S.channel args).events
        else [Event.console S.channel args]) := by
    unfold LoggerUtility.do_log
    rw [do_log_with_events, after_severity_enabled_events, channelOf_name]
    simp only [hen, hnf, Bool.true_eq_false, Bool.false_eq_true, if_false, List.nil_append]
    simp [LoggerUtility.hookEvents, after_hooksAt, hooksRegisteredAt_name]
  refine ⟨hev, ?_⟩
  rw [hev, List.filterMap_append, List.filterMap_append, filterMap_hookInvokedWith_map]
  have h1 : (((LoggerUtility.after h calls).should_filter args S.name).2).filterMap
      (hookInvokedWith (Value.str S.name :: Value.bool t :: args)) = [] := by
    apply filterMap_hookInvokedWith_none
    intro e he
    obtain ⟨p, -, -, f, -, hfc⟩ := filterEntries_events _ _ _ e he
    rw [hfc]; rfl
  have h2 : (if t = true then
        (Util._toConsole h (LoggerUtility.after h calls)
          (Util.PushStackTrimBegin u (LoggerUtility.tracedLevel u)) S.channel args).events
      else [Event.console S.channel args]).filterMap
      (hookInvokedWith (Value.str S.name :: Value.bool t :: args)) = [] := by
    apply filterMap_hookInvokedWith_none
    intro e he
    cases t with
    | false =>
      simp only [Bool.false_eq_true, if_false, List.mem_singleton] at he
      rw [he]; rfl
    | true =>
      simp only [if_true] at he
      cases e with
      | hookCall id b =>
        obtain ⟨rest, hb⟩ := toConsole_hook_args h _ _ _ _ id b he
        subst hb
        simp [hookInvokedWith]
      | filterCall key id a => rfl
      | console ch a => rfl
      | stackCapture => rfl
  rw [h1, h2]
  simp

/-- C3, at the end-to-end example: verbosity TRACE, no filters, one hook
(number 7) registered at WARN; `WarnOnly("x", 1)` has exactly two effects, the
invocation of the hook with `("WARN", false, "x", 1)` and the `console.warn`
call, and leaves the trim-level stacks as they were. -/
theorem do_log_dispatches_registered_hooks_witness :
    ((LoggerUtility.after chromeHost [RegCall.add_hook 7 "WARN"]).WarnOnly
        chromeHost
        { DebugLevel := Util.LEVEL_TRACE, _stack_trim_begin_level := [0],
          _stack_trim_end_level := [0] }
        [Value.str "x", Value.num 1]).events =
      [Event.hookCall 7 [Value.str "WARN", Value.bool false, Value.str "x", Value.num 1],
        Event.console Channel.warn [Value.str "x", Value.num 1]] ∧
    ((LoggerUtility.after chromeHost [RegCall.add_hook 7 "WARN"]).WarnOnly
        chromeHost
        { DebugLevel := Util.LEVEL_TRACE, _stack_trim_begin_level := [0],
          _stack_trim_end_level := [0] }
        [Value.str "x", Value.num 1]).util =
      { DebugLevel := Util.LEVEL_TRACE, _stack_trim_begin_level := [0],
        _stack_trim_end_level := [0] } :=
  have h := (do_log_dispatches_registered_hooks
    chromeHost
    { DebugLevel := Util.LEVEL_TRACE, _stack_trim_begin_level := [0],
      _stack_trim_end_level := [0] }
    [RegCall.add_hook 7 "WARN"] Severity.WARN [Value.str "x", Value.num 1] false
    (by decide) (by decide)).1
  ⟨h.trans (by decide), by decide⟩

/-- C4, with the single filter `fun _ => true` registered at WARN: an INFO
call is filtered, because the key of WARN (4) is at least the value of INFO
(3). -/
theorem should_filter_iff_registered_at_or_above_witness :
    ((LoggerUtility.after chromeHost
        [RegCall.add_filter { id := 0, pred := fun _ => true } "WARN"]).should_filter
      [] Severity.INFO.name).1 = true :=
  (should_filter_iff_registered_at_or_above chromeHost
    [RegCall.add_filter { id := 0, pred := fun _ => true } "WARN"] [] Severity.INFO).1.mpr
    ⟨{ id := 0, pred := fun _ => true }, "WARN", 4, 3, List.mem_singleton.mpr rfl, by decide,
      by decide, by decide, rfl⟩

/-! ## Push and pop on the trim-level stacks -/

theorem pop_push_begin (u : Util.State) (v : Int) (h : u._stack_trim_begin_level ≠ []) :
    Util.PopStackTrimBegin (Util.PushStackTrimBegin u v) = u := by
  have hlen : (u._stack_trim_begin_level ++ [v]).length > 1 := by
    have : 0 < u._stack_trim_begin_level.length := List.length_pos.mpr h
    simp only [List.length_append, List.length_singleton]
    omega
  simp only [Util.PopStackTrimBegin, Util.PushStackTrimBegin, hlen, if_true,
    List.dropLast_concat]

theorem pop_push_end (u : Util.State) (v : Int) (h : u._stack_trim_end_level ≠ []) :
    Util.PopStackTrimEnd (Util.PushStackTrimEnd u v) = u := by
  have hlen : (u._stack_trim_end_level ++ [v]).length > 1 := by
    have : 0 < u._stack_trim_end_level.length := List.length_pos.mpr h
    simp only [List.length_append, List.length_singleton]
    omega
  simp only [Util.PopStackTrimEnd, Util.PushStackTrimEnd, hlen, if_true, List.dropLast_concat]

theorem reachable_stacks_ne_nil (calls : List Util.TrimCall) :
    (Util.runTrimCalls Util.State.initial calls)._stack_trim_begin_level ≠ [] ∧
    (Util.runTrimCalls Util.State.initial calls)._stack_trim_end_level ≠ [] := by
  obtain ⟨hb, he⟩ := trim_calls_keep_base calls Util.State.initial rfl rfl
  exact ⟨(length_pos_of_head _ _ hb).2, (length_pos_of_head _ _ he).2⟩

/-- C11: in every state reached from the initial stacks by a sequence of
trim-level calls, and for every level `v`, a push of `v` followed by a pop on
the same stack (begin or end) gives back the state exactly, so the level read
afterwards is the level read before the push; and in every state a push or pop
on the begin stack leaves the end stack as it was, and the other way round. -/
theorem push_then_pop_restores (calls : List Util.TrimCall) (v : Int) (u : Util.State) :
    (Util.PopStackTrimBegin
        (Util.PushStackTrimBegin (Util.runTrimCalls Util.State.initial calls) v) =
      Util.runTrimCalls Util.State.initial calls ∧
    Util.GetStackTrimBegin (Util.PopStackTrimBegin
        (Util.PushStackTrimBegin (Util.runTrimCalls Util.State.initial calls) v)) =
      Util.GetStackTrimBegin (Util.runTrimCalls Util.State.initial calls)) ∧
    (Util.PopStackTrimEnd
        (Util.PushStackTrimEnd (Util.runTrimCalls Util.State.initial calls) v) =
      Util.runTrimCalls Util.State.initial calls ∧
    Util.GetStackTrimEnd (Util.PopStackTrimEnd
        (Util.PushStackTrimEnd (Util.runTrimCalls Util.State.initial calls) v)) =
      Util.GetStackTrimEnd (Util.runTrimCalls Util.State.initial calls)) ∧
    ((Util.PushStackTrimBegin u v)._stack_trim_end_level = u._stack_trim_end_level ∧
      (Util.PopStackTrimBegin u)._stack_trim_end_level = u._stack_trim_end_level ∧
      (Util.PushStackTrimEnd u v)._stack_trim_begin_level = u._stack_trim_begin_level ∧
      (Util.PopStackTrimEnd u)._stack_trim_begin_level = u._stack_trim_begin_level) := by
  obtain ⟨hb, he⟩ := reachable_stacks_ne_nil calls
  have h1 := pop_push_begin _ v hb
  have h2 := pop_push_end _ v he
  refine ⟨⟨h1, by rw [h1]⟩, ⟨h2, by rw [h2]⟩, rfl, ?_, rfl, ?_⟩
  · unfold Util.PopStackTrimBegin
    split_ifs <;> rfl
  · unfold Util.PopStackTrimEnd
    split_ifs <;> rfl

/-! ## Stack capture -/

/-- C13: for every list `L` of raw stack lines and current trim levels `b`
(begin) and `e` (end), `GetStack` returns `L` without its first `1 + b` lines
and then without its last `e` lines, in the original order: `L` is a front part
of `min (1 + b) |L|` lines, then the result, then a back part of `e` lines (or
of all that is left); and the result is empty whenever `1 + b + e >= |L|`. -/
theorem GetStack_drops_front_and_back (h : Host) (u : Util.State) (b e : Nat)
    (hb : Util.GetStackTrimBegin u = some (b : Int))
    (he : Util.GetStackTrimEnd u = some (e : Int)) :
    ∃ front back, h.stackLines = front ++ Util.GetStack h u ++ back ∧
      front.length = min (1 + b) h.stackLines.length ∧
      back.length = min e (h.stackLines.length - (1 + b)) ∧
      (h.stackLines.length ≤ 1 + b + e → Util.GetStack h u = []) := by
  have hget : Util.GetStack h u =
      (h.stackLines.drop (1 + b)).take ((h.stackLines.drop (1 + b)).length - e) := by
    simp only [Util.GetStack, hb, he, Option.getD_some, Int.toNat_ofNat, List.drop_drop]
  refine ⟨h.stackLines.take (1 + b),
    (h.stackLines.drop (1 + b)).drop ((h.stackLines.drop (1 + b)).length - e), ?_, ?_, ?_, ?_⟩
  · rw [hget, List.append_assoc, List.take_append_drop, List.take_append_drop]
  · simp [List.length_take]
  · simp only [List.length_drop]
    omega
  · intro hlen
    rw [hget]
    have : (h.stackLines.drop (1 + b)).length - e = 0 := by
      simp only [List.length_drop]
      omega
    rw [this, List.take_zero]

/-- C13, on the five-line stack of `firefoxHost` with begin level 1 and end
level 0. -/
theorem GetStack_drops_front_and_back_witness :
    ∃ front back, firefoxHost.stackLines =
        front ++ Util.GetStack firefoxHost
          { DebugLevel := 0, _stack_trim_begin_level := [0, 1], _stack_trim_end_level := [0] }
          ++ back ∧
      front.length = min (1 + 1) firefoxHost.stackLines.length ∧
      back.length = min 0 (firefoxHost.stackLines.length - (1 + 1)) ∧
      (firefoxHost.stackLines.length ≤ 1 + 1 + 0 →
        Util.GetStack firefoxHost
          { DebugLevel := 0, _stack_trim_begin_level := [0, 1], _stack_trim_end_level := [0] }
          = []) :=
  GetStack_drops_front_and_back firefoxHost
    { DebugLevel := 0, _stack_trim_begin_level := [0, 1], _stack_trim_end_level := [0] } 1 0
    rfl rfl

/-! ## Stack parsing -/

theorem do_log_with_plain_congr (host : Host)
    (toConsole toConsole' : Util.State → Channel → List Value → ConsoleRet)
    (u : Util.State) (self : LoggerUtility) (sev : String) (argobj : List Value) :
    LoggerUtility.do_log_with host toConsole u self sev argobj false =
      LoggerUtility.do_log_with host toConsole' u self sev argobj false := by
  unfold LoggerUtility.do_log_with
  simp

theorem util_ErrorOnly_eq (h : Host) (u : Util.State) (logger : LoggerUtility)
    (args : List Value) : Util.ErrorOnly h u logger args = logger.ErrorOnly h u args :=
  do_log_with_plain_congr h _ _ u logger "ERROR" args

theorem parseStack_cons_chrome (h : Host) (u : Util.State) (logger : LoggerUtility)
    (line : String) (lines : List String) (hb : h.browser = Browser.CHROME) :
    Util.ParseStack h u logger (line :: lines) =
      match Util.matchChrome line with
      | none =>
        ((Util.ParseStack h u logger lines).1,
          (Util.ErrorOnly h u logger
            [Value.str "Failed to parse stack frame", Value.str line]).events ++
            (Util.ParseStack h u logger lines).2)
      | some frame =>
        (frame :: (Util.ParseStack h u logger lines).1, (Util.ParseStack h u logger lines).2) := by
  rw [Util.ParseStack]
  simp only [hb]

theorem parseStack_cons_firefox (h : Host) (u : Util.State) (logger : LoggerUtility)
    (line : String) (lines : List String) (hb : h.browser = Browser.FIREFOX) :
    Util.ParseStack h u logger (line :: lines) =
      match Util.matchFirefox line with
      | none =>
        ((Util.ParseStack h u logger lines).1,
          (Util.ErrorOnly h u logger
            [Value.str "Failed to parse stack frame", Value.str line]).events ++
            (Util.ParseStack h u logger lines).2)
      | some frame =>
        (frame :: (Util.ParseStack h u logger lines).1, (Util.ParseStack h u logger lines).2) := by
  rw [Util.ParseStack]
  simp only [hb]

theorem parseStack_cons_other (h : Host) (u : Util.State) (logger : LoggerUtility)
    (line : String) (lines : List String) (hc : h.browser ≠ Browser.CHROME)
    (hf : h.browser ≠ Browser.FIREFOX) :
    Util.ParseStack h u logger (line :: lines) =
      (Util.Frame.empty :: (Util.ParseStack h u logger lines).1,
        (Util.ParseStack h u logger lines).2) := by
  rw [Util.ParseStack]
  cases hb : h.browser with
  | CHROME => exact absurd hb hc
  | FIREFOX => exact absurd hb hf
  | OBS => rfl
  | UNKNOWN => rfl

theorem parseStack_of_matcher (h : Host) (u : Util.State) (logger : LoggerUtility)
    (matcher : String → Option Frame)
    (hcons : ∀ line lines, Util.ParseStack h u logger (line :: lines) =
      match matcher line with
      | none =>
        ((Util.ParseStack h u logger lines).1,
          (Util.ErrorOnly h u logger
            [Value.str "Failed to parse stack frame", Value.str line]).events ++
            (Util.ParseStack h u logger lines).2)
      | some frame =>
        (frame :: (Util.ParseStack h u logger lines).1, (Util.ParseStack h u logger lines).2))
    (lines : List String) :
    Util.ParseStack h u logger lines =
      (lines.filterMap matcher,
        (lines.filter (fun line => (matcher line).isNone)).flatMap (fun line =>
          (logger.ErrorOnly h u
            [Value.str "Failed to parse stack frame", Value.str line]).events)) := by
  induction lines with
  | nil => rfl
  | cons line rest ih =>
    rw [hcons, ih]
    cases hm : matcher line with
    | none => simp [hm, List.filterMap_cons, List.filter_cons, util_ErrorOnly_eq h]
    | some frame => simp [hm, List.filterMap_cons, List.filter_cons]

theorem do_log_with_plain_no_capture (host : Host)
    (toConsole : Util.State → Channel → List Value → ConsoleRet)
    (u : Util.State) (self : LoggerUtility) (sev : String) (argobj : List Value) :
    Event.stackCapture ∉ (LoggerUtility.do_log_with host toConsole u self sev argobj false).events := by
  intro he
  rw [do_log_with_events] at he
  have hen : Event.stackCapture ∉ (self.severity_enabled host u sev).2 := by
    intro hm
    unfold LoggerUtility.severity_enabled LoggerUtility._assert_sev at hm
    split_ifs at hm <;> simp at hm
  have hfilter : Event.stackCapture ∉ (self.should_filter argobj sev).2 := by
    intro hm
    obtain ⟨p, -, -, f, -, hev⟩ := filterEntries_events _ _ _ _ hm
    cases hev
  by_cases h1 : (self.severity_enabled host u sev).1 = false
  · rw [if_pos h1] at he; exact hen he
  · rw [if_neg h1] at he
    by_cases h2 : (self.should_filter argobj sev).1 = true
    · rw [if_pos h2] at he
      rcases List.mem_append.mp he with he | he
      · exact hen he
      · exact hfilter he
    · rw [if_neg h2] at he
      simp only [List.mem_append] at he
      rcases he with ((he | he) | he) | he
      · exact hen he
      · exact hfilter he
      · unfold LoggerUtility.hookEvents at he
        obtain ⟨hook, -, hev⟩ := List.mem_map.mp he
        cases hev
      · cases hc : LoggerUtility.channelOf (LoggerUtility._sev_value sev) with
        | none => rw [hc] at he; cases he
        | some func => rw [hc] at he; simp at he

/-- C15: under either recognised format, for every list of lines `ParseStack`
returns exactly the frames of the lines that match the active pattern, in
input order, and its effects are, for each line that does not match, in input
order, those of one call `ErrorOnly("Failed to parse stack frame", line)`,
which is `do_log("ERROR", ..., false)`; such a call captures no stack. -/
theorem ParseStack_frames_and_diagnostics (h : Host) (u : Util.State) (logger : LoggerUtility)
    (lines : List String) :
    (h.browser = Browser.CHROME →
      Util.ParseStack h u logger lines =
        (lines.filterMap Util.matchChrome,
          (lines.filter (fun line => (Util.matchChrome line).isNone)).flatMap (fun line =>
            (logger.ErrorOnly h u
              [Value.str "Failed to parse stack frame", Value.str line]).events))) ∧
    (h.browser = Browser.FIREFOX →
      Util.ParseStack h u logger lines =
        (lines.filterMap Util.matchFirefox,
          (lines.filter (fun line => (Util.matchFirefox line).isNone)).flatMap (fun line =>
            (logger.ErrorOnly h u
              [Value.str "Failed to parse stack frame", Value.str line]).events))) ∧
    (∀ line, logger.ErrorOnly h u [Value.str "Failed to parse stack frame", Value.str line] =
        logger.do_log h u "ERROR" [Value.str "Failed to parse stack frame", Value.str line] false ∧
      Event.stackCapture ∉
        (logger.ErrorOnly h u [Value.str "Failed to parse stack frame", Value.str line]).events) := by
  refine ⟨fun hb => ?_, fun hb => ?_, fun line => ⟨rfl, ?_⟩⟩
  · exact parseStack_of_matcher h u logger Util.matchChrome
      (fun line rest => parseStack_cons_chrome h u logger line rest hb) lines
  · exact parseStack_of_matcher h u logger Util.matchFirefox
      (fun line rest => parseStack_cons_firefox h u logger line rest hb) lines
  · exact do_log_with_plain_no_capture h _ u logger "ERROR" _

/-- C15, on a Firefox host with one line that matches and one that does not. -/
theorem ParseStack_frames_and_diagnostics_witness :
    Util.ParseStack firefoxHost Util.State.initial LoggerUtility.new
        ["foo@file.js:10:5", "nonsense"] =
      (["foo@file.js:10:5", "nonsense"].filterMap Util.matchFirefox,
        (["foo@file.js:10:5", "nonsense"].filter
          (fun line => (Util.matchFirefox line).isNone)).flatMap (fun line =>
            (LoggerUtility.new.ErrorOnly firefoxHost Util.State.initial
              [Value.str "Failed to parse stack frame", Value.str line]).events)) :=
  (ParseStack_frames_and_diagnostics firefoxHost Util.State.initial LoggerUtility.new
    ["foo@file.js:10:5", "nonsense"]).2.1 rfl

/-- C16, as stated, fails: on a host that is neither Chrome nor Firefox,
`ParseStack` applied to the single line `"x@y:1:2"` does not return the empty
sequence of frames. -/
theorem ParseStack_unknown_host_not_empty :
    ¬ ((Util.ParseStack unknownHost Util.State.initial LoggerUtility.new ["x@y:1:2"]).1 = []) := by
  decide

/-- C16, amended: when the host runtime is neither Chrome nor Firefox,
`ParseStack` returns, for every list of input lines, one frame `{}` (no name,
no file, no line, no column) per line, makes no diagnostic call, and does not
fail. -/
theorem ParseStack_unknown_host_empty_frames (h : Host) (u : Util.State)
    (logger : LoggerUtility) (lines : List String)
    (hc : h.browser ≠ Browser.CHROME) (hf : h.browser ≠ Browser.FIREFOX) :
    Util.ParseStack h u logger lines = (lines.map (fun _ => Util.Frame.empty), []) := by
  induction lines with
  | nil => rfl
  | cons line rest ih => rw [parseStack_cons_other h u logger line rest hc hf, ih]; rfl

/-- C16, amended, on the host `unknownHost` and two lines. -/
theorem ParseStack_unknown_host_empty_frames_witness :
    Util.ParseStack unknownHost Util.State.initial LoggerUtility.new ["x@y:1:2", "z"] =
      ([Util.Frame.empty, Util.Frame.empty], []) :=
  ParseStack_unknown_host_empty_frames unknownHost Util.State.initial LoggerUtility.new
    ["x@y:1:2", "z"] (by decide) (by decide)

/-! ## The trim level around a traced call -/

/-- C12, as stated, fails: on `chromeHost`, in the initial state and on the
fresh logger, the traced call `Warn("x")` passes both gates, `new URL` throws
inside `Util.FormatStack`, the exception leaves `do_log`, and the begin
trim-level stack is `[0, 1]` afterwards, not the `[0]` it was before. -/
theorem traced_call_raise_keeps_pushed_level :
    (LoggerUtility.new.severity_enabled chromeHost Util.State.initial "WARN").1 = true ∧
    (LoggerUtility.new.should_filter [Value.str "x"] "WARN").1 = false ∧
    (LoggerUtility.new.Warn chromeHost Util.State.initial [Value.str "x"]).raised =
      some "Failed to construct \x27URL\x27: Invalid URL" ∧
    Util.State.initial._stack_trim_begin_level = [0] ∧
    (LoggerUtility.new.Warn chromeHost Util.State.initial
      [Value.str "x"]).util._stack_trim_begin_level = [0, 1] := by
  decide

theorem do_log_with_returns_restores (host : Host)
    (toConsole : Util.State → Channel → List Value → ConsoleRet)
    (u : Util.State) (self : LoggerUtility) (sev : String) (argobj : List Value)
    (stacktrace : Bool) (hne : u._stack_trim_begin_level ≠ [])
    (hret : (LoggerUtility.do_log_with host toConsole u self sev argobj stacktrace).raised = none) :
    (LoggerUtility.do_log_with host toConsole u self sev argobj stacktrace).util = u := by
  unfold LoggerUtility.do_log_with at hret ⊢
  cases hen : (self.severity_enabled host u sev).1 with
  | false => simp [hen]
  | true =>
    cases hf : (self.should_filter argobj sev).1 with
    | true => simp [hen, hf]
    | false =>
      cases stacktrace with
      | false =>
        cases hc : LoggerUtility.channelOf (LoggerUtility._sev_value sev) with
        | none => simp [hen, hf, hc]
        | some func => simp [hen, hf, hc]
      | true =>
        cases hc : LoggerUtility.channelOf (LoggerUtility._sev_value sev) with
        | none => simp [hen, hf, hc, pop_push_begin u _ hne]
        | some func =>
          cases hr : (toConsole (Util.PushStackTrimBegin u (LoggerUtility.tracedLevel u)) func
            argobj).raised with
          | none => simp [hen, hf, hc, hr, pop_push_begin u _ hne]
          | some msg => simp [hen, hf, hc, hr] at hret

/-- C12, amended: for every traced log call (`Trace`, `Debug`, `Info`, `Warn`,
`Error`) that returns normally, in a state whose begin trim-level stack is not
empty (every reachable state), the global state after the call, and with it
the begin trim-level stack, equals the one before the call. -/
theorem traced_call_return_restores (h : Host) (u : Util.State) (self : LoggerUtility)
    (S : Severity) (args : List Value)
    (hne : u._stack_trim_begin_level ≠ [])
    (hret : (self.do_log h u S.name args true).raised = none) :
    (self.do_log h u S.name args true).util = u ∧
    (self.do_log h u S.name args true).util._stack_trim_begin_level =
      u._stack_trim_begin_level := by
  have hu := do_log_with_returns_restores h _ u self S.name args true hne hret
  exact ⟨hu, congrArg Util.State._stack_trim_begin_level hu⟩

/-- C12, amended, at the traced call `Warn("x")` on `firefoxHost`, in the
initial state and on the fresh logger: the call passes both gates, returns
normally and leaves the state as it was. -/
theorem traced_call_return_restores_witness :
    (LoggerUtility.new.severity_enabled firefoxHost Util.State.initial Severity.WARN.name).1 = true ∧
    (LoggerUtility.new.should_filter [Value.str "x"] Severity.WARN.name).1 = false ∧
    (LoggerUtility.new.do_log firefoxHost Util.State.initial Severity.WARN.name
      [Value.str "x"] true).util = Util.State.initial ∧
    (LoggerUtility.new.do_log firefoxHost Util.State.initial Severity.WARN.name
      [Value.str "x"] true).util._stack_trim_begin_level =
      Util.State.initial._stack_trim_begin_level :=
  ⟨by decide, by decide,
    traced_call_return_restores firefoxHost Util.State.initial LoggerUtility.new Severity.WARN
      [Value.str "x"] (by decide) (by decide)⟩

/-! ## Path compaction -/

theorem stripLoop_cons_strip (seg : String) (rest : List String)
    (pieces : List (List String × String))
    (h : ∀ p ∈ pieces, p.1.head? = some seg) :
    Util.stripLoop (seg :: rest) pieces =
      Util.stripLoop rest (pieces.map (fun p => (p.1.drop 1, p.2))) := by
  have hall : pieces.all (fun p => p.1.head? == some seg) = true := by
    rw [List.all_eq_true]
    intro p hp
    rw [h p hp]
    exact beq_self_eq_true _
  rw [Util.stripLoop, if_pos hall]

theorem stripLoop_cons_keep (seg : String) (rest : List String)
    (pieces : List (List String × String))
    (h : ¬ ∀ p ∈ pieces, p.1.head? = some seg) :
    Util.stripLoop (seg :: rest) pieces = Util.stripLoop rest pieces := by
  have hall : ¬ pieces.all (fun p => p.1.head? == some seg) = true := by
    rw [List.all_eq_true]
    intro hp
    exact h (fun p hm => eq_of_beq (hp p hm))
  rw [Util.stripLoop, if_neg hall]

theorem stripLoop_stuck (pieces : List (List String × String))
    (hstuck : ∀ seg, ¬ ∀ p ∈ pieces, p.1.head? = some seg) (l : List String) :
    Util.stripLoop l pieces = pieces := by
  induction l with
  | nil => rfl
  | cons seg rest ih => rw [stripLoop_cons_keep seg rest pieces (hstuck seg), ih]

theorem stripLoop_strips (pieces : List (List String × String)) (k : Nat) (r : List String)
    (hshare : ∀ i < k, ∀ p ∈ pieces, p.1[i]? = r[i]? ∧ i < r.length)
    (hstuck : ∀ seg, ¬ ∀ p ∈ pieces, p.1[k]? = some seg) :
    ∀ n i, k - i = n → i ≤ k →
      Util.stripLoop (r.drop i) (pieces.map (fun p => (p.1.drop i, p.2))) =
        pieces.map (fun p => (p.1.drop k, p.2)) := by
  intro n
  induction n with
  | zero =>
    intro i hn hi
    have hik : i = k := by omega
    subst hik
    apply stripLoop_stuck
    intro seg hall
    apply hstuck seg
    intro p hp
    have := hall (p.1.drop i, p.2) (List.mem_map.mpr ⟨p, hp, rfl⟩)
    simpa [List.head?_drop] using this
  | succ n ih =>
    intro i hn hi
    have hik : i < k := by omega
    have hr : i < r.length := by
      by_cases hp : pieces = []
      · subst hp
        exact absurd (fun p hp => absurd hp (List.not_mem_nil p)) (hstuck "")
      · obtain ⟨p, hp⟩ := List.exists_mem_of_ne_nil pieces hp
        exact (hshare i hik p hp).2
    rw [List.drop_eq_getElem_cons hr, stripLoop_cons_strip]
    · rw [List.map_map]
      have hcomp : ((fun p : List String × String => (p.1.drop 1, p.2)) ∘
          fun p : List String × String => (p.1.drop i, p.2)) =
          fun p : List String × String => (p.1.drop (i + 1), p.2) := by
        funext p
        simp [List.drop_drop]
      rw [hcomp]
      exact ih (i + 1) (by omega) (by omega)
    · intro q hq
      obtain ⟨p, hp, rfl⟩ := List.mem_map.mp hq
      rw [List.head?_drop, (hshare i hik p hp).1, List.getElem?_eq_getElem hr]

theorem refPath_fold_some (pieces : List (List String × String))
    (acc : Option (List String) × Nat) (r : List String)
    (h : (pieces.foldl
      (fun (acc : Option (List String) × Nat) piece =>
        if piece.1.length > acc.2 then (some piece.1, piece.1.length) else acc) acc).1 = some r) :
    acc.1 = some r ∨ ∃ p ∈ pieces, p.1 = r := by
  induction pieces generalizing acc with
  | nil => exact Or.inl h
  | cons p rest ih =>
    rw [List.foldl_cons] at h
    rcases ih _ h with h1 | ⟨q, hq, hqr⟩
    · by_cases hlen : p.1.length > acc.2
      · rw [if_pos hlen] at h1
        exact Or.inr ⟨p, List.mem_cons_self _ _, Option.some.inj h1⟩
      · rw [if_neg hlen] at h1
        exact Or.inl h1
    · exact Or.inr ⟨q, List.mem_cons_of_mem _ hq, hqr⟩

theorem refPath_fold_isSome (pieces : List (List String × String))
    (acc : Option (List String) × Nat) (h : acc.1.isSome = true) :
    (pieces.foldl
      (fun (acc : Option (List String) × Nat) piece =>
        if piece.1.length > acc.2 then (some piece.1, piece.1.length) else acc) acc).1.isSome
      = true := by
  induction pieces generalizing acc with
  | nil => exact h
  | cons p rest ih =>
    rw [List.foldl_cons]
    apply ih
    by_cases hlen : p.1.length > acc.2
    · rw [if_pos hlen]; rfl
    · rw [if_neg hlen]; exact h

theorem refPath_fold_none (pieces : List (List String × String))
    (acc : Option (List String) × Nat)
    (h : (pieces.foldl
      (fun (acc : Option (List String) × Nat) piece =>
        if piece.1.length > acc.2 then (some piece.1, piece.1.length) else acc) acc).1 = none) :
    ∀ p ∈ pieces, p.1.length ≤ acc.2 := by
  induction pieces generalizing acc with
  | nil => intro p hp; cases hp
  | cons p rest ih =>
    rw [List.foldl_cons] at h
    by_cases hlen : p.1.length > acc.2
    · rw [if_pos hlen] at h
      have hsome := refPath_fold_isSome rest (some p.1, p.1.length) rfl
      rw [h] at hsome
      cases hsome
    · rw [if_neg hlen] at h
      intro q hq
      rcases List.mem_cons.mp hq with rfl | hq
      · omega
      · exact ih acc h q hq

theorem refPath_strip (pieces : List (List String × String)) (k : Nat) (hne : pieces ≠ [])
    (hshare : ∀ i < k, ∀ p ∈ pieces, ∀ q ∈ pieces, p.1[i]? = q.1[i]? ∧ i < q.1.length)
    (hstuck : ∀ seg, ¬ ∀ p ∈ pieces, p.1[k]? = some seg) :
    (match Util.refPath pieces with
      | some ref_path => Util.stripLoop ref_path pieces
      | none => pieces) = pieces.map (fun p => (p.1.drop k, p.2)) := by
  cases href : Util.refPath pieces with
  | some r =>
    have hmem : ∃ q ∈ pieces, q.1 = r := by
      rcases refPath_fold_some pieces (none, 0) r href with h0 | h0
      · cases h0
      · exact h0
    obtain ⟨q, hq, rfl⟩ := hmem
    have := stripLoop_strips pieces k q.1 (fun i hi p hp => hshare i hi p hp q hq) hstuck k 0
      (by omega) (by omega)
    simpa using this
  | none =>
    have hlen := refPath_fold_none pieces (none, 0) href
    obtain ⟨p, hp⟩ := List.exists_mem_of_ne_nil pieces hne
    have hk : k = 0 := by
      by_contra hk0
      have h1 := (hshare 0 (Nat.pos_of_ne_zero hk0) p hp p hp).2
      have h2 := hlen p hp
      omega
    subst hk
    simp

theorem toPieces_ok (h : Host) (paths : List (Option String))
    (hwf : ∀ p ∈ paths, ∃ pathname, h.URL (JS.showStr p) = Except.ok pathname) :
    Util.toPieces h paths =
      Except.ok (paths.map (fun p => (Util.segmentsOf h p, Util.baseOf h p))) := by
  induction paths with
  | nil => rfl
  | cons p rest ih =>
    obtain ⟨pathname, hp⟩ := hwf p (List.mem_cons_self _ _)
    have ih' := ih (fun q hq => hwf q (List.mem_cons_of_mem _ hq))
    simp only [Util.toPieces, hp, ih', List.map_cons, Util.segmentsOf, Util.baseOf, Util.dirOf,
      Util.pathnameOf]

/-- The result of `StripCommonPrefix` on accepted paths whose segment
sequences agree on their first `k` positions and have no common segment at
position `k`. -/
theorem StripCommonPrefix_of_shared (h : Host) (paths : List (Option String)) (k : Nat)
    (hne : paths ≠ [])
    (hwf : ∀ p ∈ paths, ∃ pathname, h.URL (JS.showStr p) = Except.ok pathname)
    (hshare : ∀ i < k, ∀ p ∈ paths, ∀ q ∈ paths,
      (Util.segmentsOf h p)[i]? = (Util.segmentsOf h q)[i]? ∧ i < (Util.segmentsOf h q).length)
    (hstuck : ∀ seg, ¬ ∀ p ∈ paths, (Util.segmentsOf h p)[k]? = some seg) :
    Util.StripCommonPrefix h paths =
      Except.ok (paths.map (fun p =>
        some (Util.JoinPath ("/".intercalate ((Util.segmentsOf h p).drop k)) (Util.baseOf h p)))) := by
  have hstrip := refPath_strip (paths.map (fun p => (Util.segmentsOf h p, Util.baseOf h p))) k
    (by simpa using hne)
    (by
      intro i hi p hp q hq
      obtain ⟨p', hp', rfl⟩ := List.mem_map.mp hp
      obtain ⟨q', hq', rfl⟩ := List.mem_map.mp hq
      exact hshare i hi p' hp' q' hq')
    (by
      intro seg hall
      apply hstuck seg
      intro p hp
      exact hall _ (List.mem_map.mpr ⟨p, hp, rfl⟩))
  unfold Util.StripCommonPrefix
  rw [toPieces_ok h paths hwf]
  simp only [hstrip, List.map_map]
  rfl

theorem commonLen_lt (a b : List String) (i : Nat) (hi : i < commonLen a b) :
    a[i]? = b[i]? ∧ i < a.length ∧ i < b.length := by
  induction a generalizing b i with
  | nil => simp [commonLen] at hi
  | cons x xs ih =>
    cases b with
    | nil => simp [commonLen] at hi
    | cons y ys =>
      by_cases hxy : x = y
      · subst hxy
        simp only [commonLen, if_true] at hi
        cases i with
        | zero => simp
        | succ j =>
          have := ih ys j (by omega)
          simpa using this
      · simp [commonLen, hxy] at hi

theorem commonLen_stop (a b : List String) (x : String) (h : a[commonLen a b]? = some x) :
    b[commonLen a b]? ≠ some x := by
  induction a generalizing b with
  | nil => simp at h
  | cons y ys ih =>
    cases b with
    | nil => simp
    | cons z zs =>
      by_cases hyz : y = z
      · subst hyz
        simp only [commonLen, if_true, List.getElem?_cons_succ] at h ⊢
        exact ih zs h
      · simp only [commonLen, hyz, if_false, List.getElem?_cons_zero, Option.some.injEq] at h ⊢
        intro hz
        exact hyz (h.trans (Option.some.inj hz).symm)

theorem lcp_le (d : List String) (ds : List (List String)) :
    longestCommonPrefixLen (d :: ds) ≤ d.length ∧
      ∀ e ∈ ds, longestCommonPrefixLen (d :: ds) ≤ commonLen d e := by
  unfold longestCommonPrefixLen
  induction ds with
  | nil => simp
  | cons e rest ih =>
    simp only [List.map_cons, List.foldr_cons, List.mem_cons, forall_eq_or_imp]
    refine ⟨le_trans (Nat.min_le_right _ _) ih.1, Nat.min_le_left _ _, ?_⟩
    intro e' he'
    exact le_trans (Nat.min_le_right _ _) (ih.2 e' he')

theorem lcp_attained (d : List String) (ds : List (List String)) :
    longestCommonPrefixLen (d :: ds) = d.length ∨
      ∃ e ∈ ds, longestCommonPrefixLen (d :: ds) = commonLen d e := by
  unfold longestCommonPrefixLen
  induction ds with
  | nil => simp
  | cons e rest ih =>
    simp only [List.map_cons, List.foldr_cons]
    rcases Nat.le_total (commonLen d e) ((rest.map (commonLen d)).foldr min d.length) with hle | hle
    · rw [Nat.min_eq_left hle]
      exact Or.inr ⟨e, List.mem_cons_self _ _, rfl⟩
    · rw [Nat.min_eq_right hle]
      rcases ih with h1 | ⟨e', he', h1⟩
      · exact Or.inl h1
      · exact Or.inr ⟨e', List.mem_cons_of_mem _ he', h1⟩

/-- The computed length is that of the longest common prefix: all sequences
agree on their first `k` positions, and no segment is common to all of them at
position `k`. -/
theorem lcp_spec (dirs : List (List String)) (hne : dirs ≠ []) :
    (∀ i < longestCommonPrefixLen dirs, ∀ a ∈ dirs, ∀ b ∈ dirs,
      a[i]? = b[i]? ∧ i < b.length) ∧
    (∀ seg, ¬ ∀ a ∈ dirs, a[longestCommonPrefixLen dirs]? = some seg) := by
  cases dirs with
  | nil => exact absurd rfl hne
  | cons d ds =>
    have hle := lcp_le d ds
    have hd : ∀ i < longestCommonPrefixLen (d :: ds), ∀ a ∈ d :: ds,
        d[i]? = a[i]? ∧ i < a.length := by
      intro i hi a ha
      rcases List.mem_cons.mp ha with rfl | ha
      · exact ⟨rfl, by omega⟩
      · have := commonLen_lt d a i (lt_of_lt_of_le hi (hle.2 a ha))
        exact ⟨this.1, this.2.2⟩
    constructor
    · intro i hi a ha b hb
      exact ⟨(hd i hi a ha).1.symm.trans (hd i hi b hb).1, (hd i hi b hb).2⟩
    · intro seg hall
      have h0 := hall d (List.mem_cons_self _ _)
      rcases lcp_attained d ds with hk | ⟨e, he, hk⟩
      · rw [hk] at h0
        simp at h0
      · have he' := hall e (List.mem_cons_of_mem _ he)
        rw [hk] at h0 he'
        exact commonLen_stop d e seg h0 he'

theorem take_eq_of_getElem? (a b : List String) (k : Nat)
    (h : ∀ i < k, a[i]? = b[i]?) : a.take k = b.take k := by
  apply List.ext_getElem?
  intro n
  rw [List.getElem?_take, List.getElem?_take]
  by_cases hn : n < k
  · rw [if_pos hn, if_pos hn]; exact h n hn
  · rw [if_neg hn, if_neg hn]

/-- C17: for every list of well-formed paths (each accepted by `new URL`),
`StripCommonPrefix` removes the same number `k` of leading directory segments
from every input, where `k` is the length of the longest common prefix of the
inputs' directory-segment sequences: all sequences agree on their first `k`
segments, and (for a non-empty list) no segment is common to all of them at
position `k`.  Output `i` is `JoinPath` of the remaining directory segments of
input `i`, joined with `/`, and the basename of input `i`. -/
theorem StripCommonPrefix_removes_common_segments (h : Host)
    (paths : List (Option String))
    (hwf : ∀ p ∈ paths, ∃ pathname, h.URL (JS.showStr p) = Except.ok pathname) :
    Util.StripCommonPrefix h paths =
      Except.ok (paths.map (fun p =>
        some (Util.JoinPath
          ("/".intercalate ((Util.segmentsOf h p).drop
            (longestCommonPrefixLen (paths.map (Util.segmentsOf h)))))
          (Util.baseOf h p)))) ∧
    (∀ p ∈ paths, ∀ q ∈ paths,
      longestCommonPrefixLen (paths.map (Util.segmentsOf h)) ≤ (Util.segmentsOf h p).length ∧
      (Util.segmentsOf h p).take (longestCommonPrefixLen (paths.map (Util.segmentsOf h))) =
        (Util.segmentsOf h q).take (longestCommonPrefixLen (paths.map (Util.segmentsOf h)))) ∧
    (paths ≠ [] → ∀ seg, ¬ ∀ p ∈ paths,
      (Util.segmentsOf h p)[longestCommonPrefixLen (paths.map (Util.segmentsOf h))]? =
        some seg) := by
  by_cases hne : paths = []
  · subst hne
    exact ⟨rfl, fun p hp => absurd hp (List.not_mem_nil p), fun hc => absurd rfl hc⟩
  · have hspec := lcp_spec (paths.map (Util.segmentsOf h)) (by simpa using hne)
    have hshare : ∀ i < longestCommonPrefixLen (paths.map (Util.segmentsOf h)),
        ∀ p ∈ paths, ∀ q ∈ paths,
        (Util.segmentsOf h p)[i]? = (Util.segmentsOf h q)[i]? ∧
          i < (Util.segmentsOf h q).length :=
      fun i hi p hp q hq =>
        hspec.1 i hi _ (List.mem_map.mpr ⟨p, hp, rfl⟩) _ (List.mem_map.mpr ⟨q, hq, rfl⟩)
    have hstuck : ∀ seg, ¬ ∀ p ∈ paths,
        (Util.segmentsOf h p)[longestCommonPrefixLen (paths.map (Util.segmentsOf h))]? =
          some seg := by
      intro seg hall
      apply hspec.2 seg
      intro a ha
      obtain ⟨p, hp, rfl⟩ := List.mem_map.mp ha
      exact hall p hp
    refine ⟨StripCommonPrefix_of_shared h paths _ hne hwf hshare hstuck, ?_, fun _ => hstuck⟩
    intro p hp q hq
    constructor
    · by_contra hlt
      have hlt' : (Util.segmentsOf h p).length <
          longestCommonPrefixLen (paths.map (Util.segmentsOf h)) := by omega
      have := (hshare _ hlt' p hp p hp).2
      omega
    · exact take_eq_of_getElem? _ _ _ (fun i hi => (hshare i hi p hp q hq).1)

/-- C17, on two URLs of `firefoxHost` whose directories `/a/b` and `/a/x`
share the two leading segments (the empty one and `a`). -/
theorem StripCommonPrefix_removes_common_segments_witness :
    Util.StripCommonPrefix firefoxHost [some "http://h/a/b/c.js", some "http://h/a/x/d.js"] =
      Except.ok [some "b/c.js", some "x/d.js"] ∧
    longestCommonPrefixLen
      ([some "http://h/a/b/c.js", some "http://h/a/x/d.js"].map (Util.segmentsOf firefoxHost))
        = 2 :=
  ⟨(StripCommonPrefix_removes_common_segments firefoxHost
      [some "http://h/a/b/c.js", some "http://h/a/x/d.js"]
      (by
        intro p hp
        rcases List.mem_cons.mp hp with rfl | hp
        · exact ⟨_, rfl⟩
        · rcases List.mem_cons.mp hp with rfl | hp
          · exact ⟨_, rfl⟩
          · cases hp)).1.trans rfl,
    by decide⟩

theorem urls_accepted_two (h : Host) (a b : Option String) (pa pb : String)
    (ha : h.URL (JS.showStr a) = Except.ok pa) (hb : h.URL (JS.showStr b) = Except.ok pb) :
    ∀ p ∈ [a, b], ∃ pathname, h.URL (JS.showStr p) = Except.ok pathname := by
  intro p hp
  rcases List.mem_cons.mp hp with rfl | hp
  · exact ⟨pa, ha⟩
  · rcases List.mem_cons.mp hp with rfl | hp
    · exact ⟨pb, hb⟩
    · cases hp

/-- C18, as stated, fails on its own witness: `new URL` rejects a path that
has no scheme.  On `firefoxHost` the list `["/a/b/c.js", "/a/b/d.js"]` comes
back unchanged and not as the basenames, and on `chromeHost` the call
raises. -/
theorem StripCommonPrefix_plain_paths_not_stripped :
    Util.StripCommonPrefix firefoxHost [some "/a/b/c.js", some "/a/b/d.js"] =
      Except.ok [some "/a/b/c.js", some "/a/b/d.js"] ∧
    Util.StripCommonPrefix firefoxHost [some "/a/b/c.js", some "/a/b/d.js"] ≠
      Except.ok [some "c.js", some "d.js"] ∧
    Util.StripCommonPrefix chromeHost [some "/a/b/c.js", some "/a/b/d.js"] =
      Except.error "Failed to construct \x27URL\x27: Invalid URL" := by
  have h1 : Util.StripCommonPrefix firefoxHost [some "/a/b/c.js", some "/a/b/d.js"] =
      Except.ok [some "/a/b/c.js", some "/a/b/d.js"] := rfl
  refine ⟨h1, ?_, rfl⟩
  rw [h1]
  intro hc
  have := Except.ok.inj hc
  revert this
  decide

/-- C18, amended: for every non-empty list of URLs, each accepted by
`new URL`, whose pathnames all have the same directory part,
`StripCommonPrefix` returns exactly the list of their basenames. -/
theorem StripCommonPrefix_same_directory (h : Host) (paths : List (Option String))
    (hne : paths ≠ [])
    (hwf : ∀ p ∈ paths, ∃ pathname, h.URL (JS.showStr p) = Except.ok pathname)
    (hsame : ∀ p ∈ paths, ∀ q ∈ paths, Util.dirOf h p = Util.dirOf h q) :
    Util.StripCommonPrefix h paths = Except.ok (paths.map (fun p => some (Util.baseOf h p))) := by
  obtain ⟨p0, hp0⟩ := List.exists_mem_of_ne_nil paths hne
  have hseg : ∀ p ∈ paths, Util.segmentsOf h p = Util.segmentsOf h p0 := by
    intro p hp
    unfold Util.segmentsOf
    rw [hsame p hp p0 hp0]
  rw [StripCommonPrefix_of_shared h paths (Util.segmentsOf h p0).length hne hwf]
  · congr 1
    apply List.map_congr_left
    intro p hp
    rw [hseg p hp, List.drop_length]
    simp [Util.JoinPath, String.intercalate]
  · intro i hi p hp q hq
    rw [hseg p hp, hseg q hq]
    exact ⟨rfl, hi⟩
  · intro seg hall
    have := hall p0 hp0
    simp at this

/-- C18, amended, on two URLs with the directory `/a/b`, on `firefoxHost` and
on `chromeHost`. -/
theorem StripCommonPrefix_same_directory_witness :
    Util.StripCommonPrefix firefoxHost [some "http://h/a/b/c.js", some "http://h/a/b/d.js"] =
      Except.ok [some "c.js", some "d.js"] ∧
    Util.StripCommonPrefix chromeHost [some "http://h/a/b/c.js", some "http://h/a/b/d.js"] =
      Except.ok [some "c.js", some "d.js"] :=
  ⟨(StripCommonPrefix_same_directory firefoxHost
      [some "http://h/a/b/c.js", some "http://h/a/b/d.js"] (by simp)
      (urls_accepted_two firefoxHost _ _ _ _ rfl rfl)
      (by
        intro p hp q hq
        rcases List.mem_cons.mp hp with rfl | hp <;> rcases List.mem_cons.mp hq with rfl | hq
        · rfl
        · rw [List.mem_singleton.mp hq]; decide
        · rw [List.mem_singleton.mp hp]; decide
        · rw [List.mem_singleton.mp hp, List.mem_singleton.mp hq])).trans rfl,
    (StripCommonPrefix_same_directory chromeHost
      [some "http://h/a/b/c.js", some "http://h/a/b/d.js"] (by simp)
      (urls_accepted_two chromeHost _ _ _ _ rfl rfl)
      (by
        intro p hp q hq
        rcases List.mem_cons.mp hp with rfl | hp <;> rcases List.mem_cons.mp hq with rfl | hq
        · rfl
        · rw [List.mem_singleton.mp hq]; decide
        · rw [List.mem_singleton.mp hp]; decide
        · rw [List.mem_singleton.mp hp, List.mem_singleton.mp hq])).trans rfl⟩

theorem splitSlashChars_join (cs : List Char) :
    ∃ seg rest, Util.splitSlashChars cs = seg :: rest ∧
      seg ++ rest.flatMap (fun s => '/' :: s) = cs := by
  induction cs with
  | nil => exact ⟨[], [], rfl, rfl⟩
  | cons c cs ih =>
    obtain ⟨seg, rest, hsplit, hjoin⟩ := ih
    by_cases hc : c = '/'
    · subst hc
      refine ⟨[], seg :: rest, ?_, ?_⟩
      · simp [Util.splitSlashChars, hsplit]
      · simp [List.flatMap_cons, hjoin]
    · refine ⟨c :: seg, rest, ?_, ?_⟩
      · simp [Util.splitSlashChars, hc, hsplit]
      · simp [hjoin]

theorem intercalate_go_mk (acc : String) (l : List (List Char)) :
    String.intercalate.go acc "/" (l.map String.mk) =
      acc ++ String.mk (l.flatMap (fun s => '/' :: s)) := by
  induction l generalizing acc with
  | nil =>
    apply String.ext
    simp [String.intercalate.go]
  | cons a rest ih =>
    rw [List.map_cons, String.intercalate.go, ih]
    apply String.ext
    simp [String.data_append, List.flatMap_cons]

theorem intercalate_splitSlash (dir : String) :
    "/".intercalate (Util.splitSlash dir) = dir := by
  obtain ⟨seg, rest, hsplit, hjoin⟩ := splitSlashChars_join dir.toList
  unfold Util.splitSlash
  rw [hsplit, List.map_cons, String.intercalate, intercalate_go_mk]
  apply String.ext
  simp only [String.data_append]
  exact hjoin

/-- C19, as stated, fails: the directories `/a/b` and `/x/y` share no leading
directory name, yet the inputs are not returned unchanged.  On `firefoxHost`
the two URLs come back as `a/b/c.js` and `x/y/d.js`: scheme and host are
dropped, and the empty segment before the leading `/` is common to both
directories and is stripped.  On `chromeHost` the two plain paths of the
specification make the call raise. -/
theorem StripCommonPrefix_disjoint_directories_changed :
    Util.StripCommonPrefix firefoxHost [some "http://h/a/b/c.js", some "http://h/x/y/d.js"] =
      Except.ok [some "a/b/c.js", some "x/y/d.js"] ∧
    Util.StripCommonPrefix firefoxHost [some "http://h/a/b/c.js", some "http://h/x/y/d.js"] ≠
      Except.ok [some "http://h/a/b/c.js", some "http://h/x/y/d.js"] ∧
    Util.StripCommonPrefix chromeHost [some "/a/b/c.js", some "/x/y/d.js"] =
      Except.error "Failed to construct \x27URL\x27: Invalid URL" := by
  have h1 : Util.StripCommonPrefix firefoxHost
      [some "http://h/a/b/c.js", some "http://h/x/y/d.js"] =
      Except.ok [some "a/b/c.js", some "x/y/d.js"] := rfl
  refine ⟨h1, ?_, rfl⟩
  rw [h1]
  intro hc
  have := Except.ok.inj hc
  revert this
  decide

theorem splitSlashChars_head_of_take (rest : List Char) (n : Nat) :
    (Util.splitSlashChars (('/' :: rest).take n)).head? = some [] := by
  cases n with
  | zero => rfl
  | succ n =>
    rw [List.take_succ_cons, Util.splitSlashChars]
    simp

theorem segmentsOf_head_of_root (h : Host) (p : Option String) (rest : List Char)
    (hroot : (Util.pathnameOf h p).toList = '/' :: rest) :
    (Util.segmentsOf h p)[0]? = some "" := by
  unfold Util.segmentsOf Util.dirOf Util.SplitPath Util.splitSlash
  simp only [hroot]
  have hc : ('/' :: rest).contains '/' = true := by simp
  rw [if_pos hc]
  simp only []
  rw [← List.head?_eq_getElem?, List.head?_map]
  show Option.map String.mk (Util.splitSlashChars (List.take _ ('/' :: rest))).head? = some ""
  rw [splitSlashChars_head_of_take]
  rfl

/-- C19, amended: for every list of URLs, each accepted by `new URL`, whose
pathnames start with `/` and whose directories have no leading directory name
common to all of them (no segment is at position 1 of every directory-segment
sequence), `StripCommonPrefix` strips exactly the empty segment before the
leading `/`: output `i` is `JoinPath` of the remaining directory segments of
input `i`, joined with `/`, and the basename of input `i`. -/
theorem StripCommonPrefix_root_only_shared (h : Host) (paths : List (Option String))
    (hwf : ∀ p ∈ paths, ∃ pathname, h.URL (JS.showStr p) = Except.ok pathname)
    (hroot : ∀ p ∈ paths, ∃ rest, (Util.pathnameOf h p).toList = '/' :: rest)
    (hno : ∀ seg, ¬ ∀ p ∈ paths, (Util.segmentsOf h p)[1]? = some seg) :
    Util.StripCommonPrefix h paths =
      Except.ok (paths.map (fun p =>
        some (Util.JoinPath ("/".intercalate ((Util.segmentsOf h p).drop 1))
          (Util.baseOf h p)))) := by
  have hne : paths ≠ [] := by
    intro hnil
    subst hnil
    exact hno "" (fun p hp => absurd hp (List.not_mem_nil p))
  have hhead : ∀ p ∈ paths, (Util.segmentsOf h p)[0]? = some "" := by
    intro p hp
    obtain ⟨rest, hr⟩ := hroot p hp
    exact segmentsOf_head_of_root h p rest hr
  apply StripCommonPrefix_of_shared h paths 1 hne hwf
  · intro i hi p hp q hq
    have hi0 : i = 0 := by omega
    subst hi0
    refine ⟨(hhead p hp).trans (hhead q hq).symm, ?_⟩
    have hq0 := hhead q hq
    by_contra hlen
    rw [List.getElem?_eq_none (by omega)] at hq0
    cases hq0
  · exact hno

/-- C19, amended, on the two URLs `http://h/a/b/c.js` and `http://h/x/y/d.js`
of `firefoxHost`. -/
theorem StripCommonPrefix_root_only_shared_witness :
    Util.StripCommonPrefix firefoxHost [some "http://h/a/b/c.js", some "http://h/x/y/d.js"] =
      Except.ok [some "a/b/c.js", some "x/y/d.js"] :=
  (StripCommonPrefix_root_only_shared firefoxHost
    [some "http://h/a/b/c.js", some "http://h/x/y/d.js"]
    (urls_accepted_two firefoxHost _ _ _ _ rfl rfl)
    (by
      intro p hp
      rcases List.mem_cons.mp hp with rfl | hp
      · exact ⟨_, rfl⟩
      · rw [List.mem_singleton.mp hp]
        exact ⟨_, rfl⟩)
    (by
      intro seg hall
      have h1 := hall (some "http://h/a/b/c.js") (by simp)
      have h2 := hall (some "http://h/x/y/d.js") (by simp)
      have e1 : (Util.segmentsOf firefoxHost (some "http://h/a/b/c.js"))[1]? = some "a" := by
        decide
      have e2 : (Util.segmentsOf firefoxHost (some "http://h/x/y/d.js"))[1]? = some "x" := by
        decide
      rw [e1] at h1
      rw [e2] at h2
      have := (Option.some.inj h1).trans (Option.some.inj h2).symm
      revert this
      decide)).trans rfl

/-- C20, as stated, fails: a single well-formed path is not returned
unchanged.  On `firefoxHost` the single URL `http://h/a/b/c.js` comes back as
`c.js`, and so it does on `chromeHost`. -/
theorem StripCommonPrefix_single_path_changed :
    Util.StripCommonPrefix firefoxHost [some "http://h/a/b/c.js"] = Except.ok [some "c.js"] ∧
    Util.StripCommonPrefix firefoxHost [some "http://h/a/b/c.js"] ≠
      Except.ok [some "http://h/a/b/c.js"] ∧
    Util.StripCommonPrefix chromeHost [some "http://h/a/b/c.js"] = Except.ok [some "c.js"] ∧
    Util.StripCommonPrefix chromeHost [some "http://h/a/b/c.js"] ≠
      Except.ok [some "http://h/a/b/c.js"] := by
  have h1 : Util.StripCommonPrefix firefoxHost [some "http://h/a/b/c.js"] =
      Except.ok [some "c.js"] := rfl
  have h2 : Util.StripCommonPrefix chromeHost [some "http://h/a/b/c.js"] =
      Except.ok [some "c.js"] := rfl
  refine ⟨h1, ?_, h2, ?_⟩
  · rw [h1]
    intro hc
    have := Except.ok.inj hc
    revert this
    decide
  · rw [h2]
    intro hc
    have := Except.ok.inj hc
    revert this
    decide

/-- C20, amended: `StripCommonPrefix` returns the empty list for the empty
list, and for a single well-formed path (accepted by `new URL`) it returns the
basename of that path alone: the whole directory is the common prefix and is
stripped. -/
theorem StripCommonPrefix_empty_and_single (h : Host) (path : Option String) (pathname : String)
    (hurl : h.URL (JS.showStr path) = Except.ok pathname) :
    Util.StripCommonPrefix h [] = Except.ok [] ∧
    Util.StripCommonPrefix h [path] = Except.ok [some (Util.SplitPath pathname).2] := by
  refine ⟨rfl, ?_⟩
  have hwf : ∀ p ∈ [path], ∃ pathname, h.URL (JS.showStr p) = Except.ok pathname := by
    intro p hp
    rw [List.mem_singleton.mp hp]
    exact ⟨pathname, hurl⟩
  have hbase : Util.baseOf h path = (Util.SplitPath pathname).2 := by
    simp [Util.baseOf, Util.pathnameOf, hurl]
  rw [StripCommonPrefix_of_shared h [path] (Util.segmentsOf h path).length (by simp) hwf]
  · simp [Util.JoinPath, String.intercalate, hbase]
  · intro i hi p hp q hq
    rw [List.mem_singleton.mp hp, List.mem_singleton.mp hq]
    exact ⟨rfl, hi⟩
  · intro seg hall
    have := hall path (List.mem_singleton.mpr rfl)
    simp at this

/-- C20, amended, on the single URL `http://h/a/b/c.js` of `firefoxHost`. -/
theorem StripCommonPrefix_empty_and_single_witness :
    Util.StripCommonPrefix firefoxHost [] = Except.ok [] ∧
    Util.StripCommonPrefix firefoxHost [some "http://h/a/b/c.js"] = Except.ok [some "c.js"] :=
  have h := StripCommonPrefix_empty_and_single firefoxHost (some "http://h/a/b/c.js") "/a/b/c.js"
    rfl
  ⟨h.1, h.2.trans rfl⟩

/-! ## Decimal numerals -/

theorem digitChar_spec : ∀ k < 10, JS.isDigit (Nat.digitChar k) = true ∧
    (Nat.digitChar k).toNat - '0'.toNat = k := by
  decide

theorem toDigitsCore_parse (fuel : Nat) : ∀ (n : Nat) (ds : List Char), n < fuel →
    List.foldl (fun m c => 10 * m + (c.toNat - '0'.toNat)) 0 (Nat.toDigitsCore 10 fuel n ds) =
      List.foldl (fun m c => 10 * m + (c.toNat - '0'.toNat)) n ds := by
  induction fuel with
  | zero => intro n ds hn; omega
  | succ fuel ih =>
    intro n ds hn
    have hd := (digitChar_spec (n % 10) (Nat.mod_lt _ (by decide))).2
    by_cases h0 : n / 10 = 0
    · have hlt : n < 10 := by
        by_contra hge
        have : 1 ≤ n / 10 := (Nat.le_div_iff_mul_le (by decide)).mpr (by omega)
        omega
      simp only [Nat.toDigitsCore, h0, if_true, List.foldl_cons, hd, Nat.mul_zero, Nat.zero_add]
      rw [Nat.mod_eq_of_lt hlt]
    · simp only [Nat.toDigitsCore, h0, if_false]
      rw [ih (n / 10) _ (by omega), List.foldl_cons, hd]
      have : 10 * (n / 10) + n % 10 = n := Nat.div_add_mod n 10
      rw [this]

theorem toDigitsCore_digits (fuel : Nat) : ∀ (n : Nat) (ds : List Char),
    (∀ c ∈ ds, JS.isDigit c = true) →
    ∀ c ∈ Nat.toDigitsCore 10 fuel n ds, JS.isDigit c = true := by
  induction fuel with
  | zero => intro n ds hds c hc; exact hds c hc
  | succ fuel ih =>
    intro n ds hds c hc
    have hd := (digitChar_spec (n % 10) (Nat.mod_lt _ (by decide))).1
    have hds' : ∀ c ∈ Nat.digitChar (n % 10) :: ds, JS.isDigit c = true := by
      intro c hc
      rcases List.mem_cons.mp hc with rfl | hc
      · exact hd
      · exact hds c hc
    by_cases h0 : n / 10 = 0
    · simp only [Nat.toDigitsCore, h0, if_true] at hc
      exact hds' c hc
    · simp only [Nat.toDigitsCore, h0, if_false] at hc
      exact ih _ _ hds' c hc

theorem toDigitsCore_ne_nil (fuel : Nat) : ∀ (n : Nat) (ds : List Char), ds ≠ [] →
    Nat.toDigitsCore 10 fuel n ds ≠ [] := by
  induction fuel with
  | zero => intro n ds hds; exact hds
  | succ fuel ih =>
    intro n ds _
    by_cases h0 : n / 10 = 0
    · simp [Nat.toDigitsCore, h0]
    · simp only [Nat.toDigitsCore, h0, if_false]
      exact ih _ _ (List.cons_ne_nil _ _)

/-- The decimal numeral of a natural number is a non-empty string of digits
whose value is the number. -/
theorem decimal_spec (l : Nat) :
    (toString l).toList ≠ [] ∧ (∀ c ∈ (toString l).toList, JS.isDigit c = true) ∧
      JS.parseDigits (toString l).toList = l := by
  have hrepr : (toString l).toList = Nat.toDigitsCore 10 (l + 1) l [] := rfl
  rw [hrepr]
  refine ⟨?_, toDigitsCore_digits (l + 1) l [] (fun c hc => absurd hc (List.not_mem_nil c)), ?_⟩
  · by_cases h0 : l / 10 = 0
    · simp [Nat.toDigitsCore, h0]
    · simp only [Nat.toDigitsCore, h0, if_false]
      exact toDigitsCore_ne_nil _ _ _ (List.cons_ne_nil _ _)
  · unfold JS.parseDigits
    rw [toDigitsCore_parse (l + 1) l [] (Nat.lt_succ_self l)]
    rfl

/-! ## The two line patterns on well-formed lines -/

theorem takeWhile_dropWhile_stop (p : Char → Bool) (l1 : List Char) (x : Char) (xs : List Char)
    (h1 : ∀ a ∈ l1, p a = true) (hx : p x = false) :
    (l1 ++ x :: xs).takeWhile p = l1 ∧ (l1 ++ x :: xs).dropWhile p = x :: xs := by
  constructor
  · rw [List.takeWhile_append_of_pos h1, List.takeWhile_cons_of_neg (by simp [hx]),
      List.append_nil]
  · rw [List.dropWhile_append_of_pos h1, List.dropWhile_cons_of_neg (by simp [hx])]

theorem takeWhile_all (p : Char → Bool) (l : List Char) (h : ∀ a ∈ l, p a = true) :
    l.takeWhile p = l :=
  List.takeWhile_eq_self_iff.mpr h

theorem colonDigits_none (cs : List Char) (h : cs.count ':' < 2) : JS.colonDigits cs = none := by
  unfold JS.colonDigits
  split
  · next r =>
    split
    · next r' hdrop =>
      exfalso
      have hsub : (List.dropWhile JS.isDigit r).count ':' ≤ r.count ':' :=
        (List.dropWhile_suffix _).sublist.count_le _
      rw [hdrop] at hsub
      simp only [List.count_cons_self] at hsub h
      omega
    · rfl
  · rfl

theorem digits_count_colon (ds : List Char) (h : ∀ c ∈ ds, JS.isDigit c = true) :
    ds.count ':' = 0 := by
  rw [List.count_eq_zero]
  intro hmem
  have := h ':' hmem
  revert this
  decide

theorem colonDigits_match (dl dc tail : List Char) (hdl : dl ≠ []) (hdc : dc ≠ [])
    (hdl' : ∀ c ∈ dl, JS.isDigit c = true) (hdc' : ∀ c ∈ dc, JS.isDigit c = true)
    (htail : tail = [] ∨ tail = [')']) :
    JS.colonDigits (':' :: (dl ++ ':' :: (dc ++ tail))) = some (dl, dc) := by
  have hcolon : JS.isDigit ':' = false := by decide
  obtain ⟨ht1, hd1⟩ := takeWhile_dropWhile_stop JS.isDigit dl ':' (dc ++ tail) hdl' hcolon
  have ht2 : (dc ++ tail).takeWhile JS.isDigit = dc := by
    rcases htail with rfl | rfl
    · rw [List.append_nil]; exact takeWhile_all _ _ hdc'
    · exact (takeWhile_dropWhile_stop JS.isDigit dc ')' [] hdc' (by decide)).1
  have e1 : dl.isEmpty = false := by cases dl with
    | nil => exact absurd rfl hdl
    | cons _ _ => rfl
  have e2 : dc.isEmpty = false := by cases dc with
    | nil => exact absurd rfl hdc
    | cons _ _ => rfl
  simp only [JS.colonDigits, ht1, hd1, ht2, e1, e2, Bool.or_self, Bool.false_eq_true, if_false]

theorem dotStarColonDigitsParen_none (s : List Char) (h : s.count ':' < 2) :
    JS.dotStarColonDigitsParen s = none := by
  induction s with
  | nil => rfl
  | cons c cs ih =>
    have hcs : cs.count ':' < 2 := by
      have := List.count_le_count_cons (a := ':') (b := c) (l := cs)
      omega
    have hlong : (if JS.isLineTerminator c = true then none
        else (JS.dotStarColonDigitsParen cs).map (fun r => (c :: r.1, r.2))) = none := by
      rw [ih hcs]
      split_ifs <;> rfl
    simp only [JS.dotStarColonDigitsParen, hlong, colonDigits_none (c :: cs) h]

theorem dotStarColonDigits_none (s : List Char) (h : s.count ':' < 2) :
    JS.dotStarColonDigits s = none := by
  induction s with
  | nil => rfl
  | cons c cs ih =>
    have hcs : cs.count ':' < 2 := by
      have := List.count_le_count_cons (a := ':') (b := c) (l := cs)
      omega
    have hlong : (if JS.isLineTerminator c = true then none
        else (JS.dotStarColonDigits cs).map (fun r => (c :: r.1, r.2))) = none := by
      rw [ih hcs]
      split_ifs <;> rfl
    simp only [JS.dotStarColonDigits, hlong, colonDigits_none (c :: cs) h, Option.map_none']

theorem tail_count_colon (dl dc tail : List Char)
    (hdl' : ∀ c ∈ dl, JS.isDigit c = true) (hdc' : ∀ c ∈ dc, JS.isDigit c = true)
    (htail : tail = [] ∨ tail = [')']) :
    (dl ++ ':' :: (dc ++ tail)).count ':' < 2 := by
  have h1 := digits_count_colon dl hdl'
  have h2 := digits_count_colon dc hdc'
  have h3 : tail.count ':' = 0 := by
    rcases htail with rfl | rfl <;> decide
  simp only [List.count_append, List.count_cons_self, h1, h2, h3]
  omega

theorem dotStarColonDigitsParen_match (f dl dc : List Char) (hdl : dl ≠ []) (hdc : dc ≠ [])
    (hdl' : ∀ c ∈ dl, JS.isDigit c = true) (hdc' : ∀ c ∈ dc, JS.isDigit c = true)
    (hf : ∀ c ∈ f, JS.isLineTerminator c = false) :
    JS.dotStarColonDigitsParen (f ++ ':' :: (dl ++ ':' :: (dc ++ [')']))) = some (f, dl, dc) := by
  induction f with
  | nil =>
    have hnone := dotStarColonDigitsParen_none _
      (tail_count_colon dl dc [')'] hdl' hdc' (Or.inr rfl))
    have hmatch := colonDigits_match dl dc [')'] hdl hdc hdl' hdc' (Or.inr rfl)
    have hcolon : JS.isLineTerminator ':' = false := by decide
    have hdrop : (':' :: (dl ++ ':' :: (dc ++ [')']))).drop (1 + dl.length + 1 + dc.length) =
        [')'] := by
      have e : 1 + dl.length + 1 + dc.length = (dl.length + 1 + dc.length) + 1 := by omega
      rw [e, List.drop_succ_cons]
      have e2 : dl ++ ':' :: (dc ++ [')']) = (dl ++ ':' :: dc) ++ [')'] := by simp
      rw [e2]
      have e3 : dl.length + 1 + dc.length = (dl ++ ':' :: dc).length := by simp; omega
      rw [e3, List.drop_left]
    simp only [List.nil_append, JS.dotStarColonDigitsParen, hcolon, hnone, hmatch, hdrop,
      Bool.false_eq_true, if_false, if_true, Option.map_none']
  | cons c f ih =>
    have hc : JS.isLineTerminator c = false := hf c (List.mem_cons_self _ _)
    have ih' := ih (fun x hx => hf x (List.mem_cons_of_mem _ hx))
    show JS.dotStarColonDigitsParen (c :: (f ++ ':' :: (dl ++ ':' :: (dc ++ [')'])))) = _
    rw [JS.dotStarColonDigitsParen]
    simp only [hc, ih', Bool.false_eq_true, if_false, Option.map_some']

theorem dotStarColonDigits_match (f dl dc : List Char) (hdl : dl ≠ []) (hdc : dc ≠ [])
    (hdl' : ∀ c ∈ dl, JS.isDigit c = true) (hdc' : ∀ c ∈ dc, JS.isDigit c = true)
    (hf : ∀ c ∈ f, JS.isLineTerminator c = false) :
    JS.dotStarColonDigits (f ++ ':' :: (dl ++ ':' :: dc)) = some (f, dl, dc) := by
  induction f with
  | nil =>
    have hnone := dotStarColonDigits_none _ (tail_count_colon dl dc [] hdl' hdc' (Or.inl rfl))
    have hmatch := colonDigits_match dl dc [] hdl hdc hdl' hdc' (Or.inl rfl)
    rw [List.append_nil] at hnone hmatch
    have hcolon : JS.isLineTerminator ':' = false := by decide
    simp only [List.nil_append, JS.dotStarColonDigits, hcolon, hnone, hmatch,
      Bool.false_eq_true, if_false, Option.map_none', Option.map_some']
  | cons c f ih =>
    have hc : JS.isLineTerminator c = false := hf c (List.mem_cons_self _ _)
    have ih' := ih (fun x hx => hf x (List.mem_cons_of_mem _ hx))
    show JS.dotStarColonDigits (c :: (f ++ ':' :: (dl ++ ':' :: dc))) = _
    rw [JS.dotStarColonDigits]
    simp only [hc, ih', Bool.false_eq_true, if_false, Option.map_some']

theorem matchChrome_line (line : String) (n f dl dc : List Char)
    (hline : line.toList =
      ' ' :: ' ' :: 'a' :: 't' :: ' ' :: (n ++ ' ' :: '(' :: (f ++ ':' :: (dl ++ ':' :: (dc ++ [')'])))))
    (hn : n ≠ []) (hsp : ∀ c ∈ n, c ≠ ' ')
    (hdl : dl ≠ []) (hdc : dc ≠ [])
    (hdl' : ∀ c ∈ dl, JS.isDigit c = true) (hdc' : ∀ c ∈ dc, JS.isDigit c = true)
    (hf : ∀ c ∈ f, JS.isLineTerminator c = false) :
    Util.matchChrome line =
      some { name := some (String.mk n), actual_name := none, file := some (String.mk f),
             line := some (JS.parseInt dl), column := some (JS.parseInt dc) } := by
  have hname := takeWhile_dropWhile_stop (fun c => c != ' ') n ' '
    ('(' :: (f ++ ':' :: (dl ++ ':' :: (dc ++ [')']))))
    (fun c hc => by simpa using hsp c hc) (by decide)
  have hm := dotStarColonDigitsParen_match f dl dc hdl hdc hdl' hdc' hf
  have hne : n.isEmpty = false := by
    cases n with
    | nil => exact absurd rfl hn
    | cons _ _ => rfl
  have htake : (' ' :: ' ' :: 'a' :: 't' :: ' ' ::
      (n ++ ' ' :: '(' :: (f ++ ':' :: (dl ++ ':' :: (dc ++ [')']))))).takeWhile
      (fun c => c == ' ') = [' ', ' '] := by
    simp [List.takeWhile_cons]
  have hdrop : (' ' :: ' ' :: 'a' :: 't' :: ' ' ::
      (n ++ ' ' :: '(' :: (f ++ ':' :: (dl ++ ':' :: (dc ++ [')']))))).dropWhile
      (fun c => c == ' ') =
      'a' :: 't' :: ' ' :: (n ++ ' ' :: '(' :: (f ++ ':' :: (dl ++ ':' :: (dc ++ [')'])))) := by
    simp [List.dropWhile_cons]
  unfold Util.matchChrome
  simp only [hline, htake, hdrop, hname.1, hname.2, hne, hm, List.isEmpty_cons,
    Bool.false_eq_true, if_false, Option.map_some']

theorem matchFirefoxHere_line (n f dl dc : List Char)
    (hat : ∀ c ∈ n, c ≠ '@')
    (hdl : dl ≠ []) (hdc : dc ≠ [])
    (hdl' : ∀ c ∈ dl, JS.isDigit c = true) (hdc' : ∀ c ∈ dc, JS.isDigit c = true)
    (hf : ∀ c ∈ f, JS.isLineTerminator c = false) :
    Util.matchFirefoxHere (n ++ '@' :: (f ++ ':' :: (dl ++ ':' :: dc))) =
      some { name := some (String.mk n), actual_name := none, file := some (String.mk f),
             line := some (JS.parseInt dl), column := some (JS.parseInt dc) } := by
  have hname := takeWhile_dropWhile_stop (fun c => c != '@') n '@'
    (f ++ ':' :: (dl ++ ':' :: dc)) (fun c hc => by simpa using hat c hc) (by decide)
  have hm := dotStarColonDigits_match f dl dc hdl hdc hdl' hdc' hf
  unfold Util.matchFirefoxHere
  simp only [hname.1, hname.2, hm, Option.map_some']

theorem matchFirefox_line (line : String) (n f dl dc : List Char)
    (hline : line.toList = n ++ '@' :: (f ++ ':' :: (dl ++ ':' :: dc)))
    (hat : ∀ c ∈ n, c ≠ '@')
    (hdl : dl ≠ []) (hdc : dc ≠ [])
    (hdl' : ∀ c ∈ dl, JS.isDigit c = true) (hdc' : ∀ c ∈ dc, JS.isDigit c = true)
    (hf : ∀ c ∈ f, JS.isLineTerminator c = false) :
    Util.matchFirefox line =
      some { name := some (String.mk n), actual_name := none, file := some (String.mk f),
             line := some (JS.parseInt dl), column := some (JS.parseInt dc) } := by
  have hhere := matchFirefoxHere_line n f dl dc hat hdl hdc hdl' hdc' hf
  unfold Util.matchFirefox
  rw [hline]
  cases hl : n ++ '@' :: (f ++ ':' :: (dl ++ ':' :: dc)) with
  | nil => rw [hl] at hhere; rw [Util.matchFirefoxFrom]; exact hhere
  | cons c cs => rw [hl] at hhere; rw [Util.matchFirefoxFrom, hhere]

theorem chromeLine_toList (n f : String) (l c : Nat) :
    (chromeLine n f l c).toList =
      ' ' :: ' ' :: 'a' :: 't' :: ' ' :: (n.toList ++ ' ' :: '(' :: (f.toList ++ ':' ::
        ((toString l).toList ++ ':' :: ((toString c).toList ++ [')'])))) := by
  have e1 : "  at ".data = [' ', ' ', 'a', 't', ' '] := rfl
  have e2 : " (".data = [' ', '('] := rfl
  have e3 : ":".data = [':'] := rfl
  have e4 : ")".data = [')'] := rfl
  simp only [chromeLine, String.toList, String.data_append, e1, e2, e3, e4, List.append_assoc,
    List.cons_append, List.nil_append]

theorem firefoxLine_toList (n f : String) (l c : Nat) :
    (firefoxLine n f l c).toList =
      n.toList ++ '@' :: (f.toList ++ ':' :: ((toString l).toList ++ ':' :: (toString c).toList)) := by
  have e1 : "@".data = ['@'] := rfl
  have e3 : ":".data = [':'] := rfl
  simp only [firefoxLine, String.toList, String.data_append, e1, e3, List.append_assoc,
    List.cons_append, List.nil_append]

/-- C14, as stated, fails in two ways.  The numbers are number values: the
line text `9007199254740993` (which is `2^53 + 1`) gives the line
9007199254740992 in both branches.  And `.` matches no line terminator: with a
carriage return in the file text, which is no newline, neither pattern matches
and no frame is returned. -/
theorem ParseStack_line_not_recovered :
    Util.ParseStack chromeHost Util.State.initial LoggerUtility.new
        ["  at foo (file.js:9007199254740993:5)"] =
      ([{ name := some "foo", actual_name := none, file := some "file.js",
          line := some (JS.Num.int 9007199254740992), column := some (JS.Num.int 5) }], []) ∧
    Util.ParseStack firefoxHost Util.State.initial LoggerUtility.new
        ["foo@file.js:9007199254740993:5"] =
      ([{ name := some "foo", actual_name := none, file := some "file.js",
          line := some (JS.Num.int 9007199254740992), column := some (JS.Num.int 5) }], []) ∧
    (Util.ParseStack chromeHost Util.State.initial LoggerUtility.new
        ["  at foo (a\rb:10:5)"]).1 = [] ∧
    (Util.ParseStack firefoxHost Util.State.initial LoggerUtility.new
        ["foo@a\rb:10:5"]).1 = [] := by
  exact ⟨rfl, rfl, rfl, rfl⟩

theorem toNumber_of_le (n : Nat) (hn : n ≤ 2 ^ 53) : JS.toNumber n = JS.Num.int n := by
  unfold JS.toNumber
  rw [if_pos hn]

/-- C14, amended: for every function name `n` (non-empty, with no space and no
`@`), file text `f` with no line terminator (none of the four characters that
`.` does not match) and natural numbers `l` and `c`, the Chrome branch of
`ParseStack` applied to the line `  at n (f:l:c)` and the Firefox branch
applied to the line `n@f:l:c` each return exactly one frame, with name `n`,
file `f`, and as line and column the number values of `l` and `c`, and make
no diagnostic call; the number value of `l` is `l` itself when `l` is at most
`2^53`, and likewise for `c`. -/
theorem ParseStack_well_formed_line (h : Host) (u : Util.State) (logger : LoggerUtility)
    (n f : String) (l c : Nat)
    (hn : n ≠ "") (hsp : ' ' ∉ n.toList) (hat : '@' ∉ n.toList)
    (hf : ∀ ch ∈ f.toList, JS.isLineTerminator ch = false) :
    (h.browser = Browser.CHROME →
      Util.ParseStack h u logger [chromeLine n f l c] =
        ([{ name := some n, actual_name := none, file := some f, line := some (JS.toNumber l),
            column := some (JS.toNumber c) }], [])) ∧
    (h.browser = Browser.FIREFOX →
      Util.ParseStack h u logger [firefoxLine n f l c] =
        ([{ name := some n, actual_name := none, file := some f, line := some (JS.toNumber l),
            column := some (JS.toNumber c) }], [])) ∧
    (l ≤ 2 ^ 53 → JS.toNumber l = JS.Num.int l) ∧
    (c ≤ 2 ^ 53 → JS.toNumber c = JS.Num.int c) := by
  obtain ⟨hl1, hl2, hl3⟩ := decimal_spec l
  obtain ⟨hc1, hc2, hc3⟩ := decimal_spec c
  have hn' : n.toList ≠ [] := by
    intro he
    apply hn
    apply String.ext
    exact he
  refine ⟨?_, ?_, toNumber_of_le l, toNumber_of_le c⟩
  · intro hb
    have hm := matchChrome_line (chromeLine n f l c) n.toList f.toList (toString l).toList
      (toString c).toList (chromeLine_toList n f l c) hn'
      (fun ch hch he => hsp (he ▸ hch)) hl1 hc1 hl2 hc2 hf
    simp only [JS.parseInt, hl3, hc3] at hm
    rw [parseStack_cons_chrome h u logger _ _ hb, hm]
    rfl
  · intro hb
    have hm := matchFirefox_line (firefoxLine n f l c) n.toList f.toList (toString l).toList
      (toString c).toList (firefoxLine_toList n f l c)
      (fun ch hch he => hat (he ▸ hch)) hl1 hc1 hl2 hc2 hf
    simp only [JS.parseInt, hl3, hc3] at hm
    rw [parseStack_cons_firefox h u logger _ _ hb, hm]
    rfl

/-- C14, amended, on the two lines of the specification:
`  at foo (file.js:10:5)` on a Chrome host and `foo@file.js:10:5` on a Firefox
host both give the frame
`{name: "foo", file: "file.js", line: 10, column: 5}`. -/
theorem ParseStack_well_formed_line_witness :
    Util.ParseStack chromeHost Util.State.initial LoggerUtility.new ["  at foo (file.js:10:5)"] =
      ([{ name := some "foo", actual_name := none, file := some "file.js",
          line := some (JS.Num.int 10), column := some (JS.Num.int 5) }], []) ∧
    Util.ParseStack firefoxHost Util.State.initial LoggerUtility.new ["foo@file.js:10:5"] =
      ([{ name := some "foo", actual_name := none, file := some "file.js",
          line := some (JS.Num.int 10), column := some (JS.Num.int 5) }], []) :=
  ⟨(ParseStack_well_formed_line chromeHost Util.State.initial LoggerUtility.new "foo" "file.js"
      10 5 (by decide) (by decide) (by decide) (by decide)).1 rfl,
    (ParseStack_well_formed_line firefoxHost Util.State.initial LoggerUtility.new "foo" "file.js"
      10 5 (by decide) (by decide) (by decide) (by decide)).2.1 rfl⟩

/-! ## Lengths in path compaction and the text of a stack -/

theorem stripLoop_length (r : List String) :
    ∀ pieces : List (List String × String), (Util.stripLoop r pieces).length = pieces.length := by
  induction r with
  | nil => intro pieces; rfl
  | cons seg rest ih =>
    intro pieces
    rw [Util.stripLoop]
    split_ifs
    · rw [ih, List.length_map]
    · exact ih pieces

theorem toPieces_length (h : Host) :
    ∀ (paths : List (Option String)) (pieces : List (List String × String)),
      Util.toPieces h paths = Except.ok pieces → pieces.length = paths.length := by
  intro paths
  induction paths with
  | nil =>
    intro pieces hp
    simp only [Util.toPieces] at hp
    cases hp
    rfl
  | cons p rest ih =>
    intro pieces hp
    rw [Util.toPieces] at hp
    cases hurl : h.URL (JS.showStr p) with
    | error msg => rw [hurl] at hp; cases hp
    | ok pathname =>
      rw [hurl] at hp
      cases hrest : Util.toPieces h rest with
      | error msg => rw [hrest] at hp; cases hp
      | ok ps =>
        rw [hrest] at hp
        simp only at hp
        cases hp
        rw [List.length_cons, List.length_cons, ih ps hrest]

theorem StripCommonPrefix_length (h : Host) (paths out : List (Option String))
    (hout : Util.StripCommonPrefix h paths = Except.ok out) : out.length = paths.length := by
  unfold Util.StripCommonPrefix at hout
  cases hp : Util.toPieces h paths with
  | error msg =>
    rw [hp] at hout
    simp only at hout
    split_ifs at hout
    · cases hout; rfl
  | ok pieces =>
    rw [hp] at hout
    simp only at hout
    cases hout
    rw [List.length_map, ← toPieces_length h paths pieces hp]
    cases Util.refPath pieces with
    | none => rfl
    | some r => exact stripLoop_length r pieces

theorem formatEntries_zip :
    ∀ (stack : List Frame) (paths : List (Option String)), paths.length = stack.length →
      Util.formatEntries stack paths = Except.ok (List.zipWith Util.entryText stack paths) := by
  intro stack
  induction stack with
  | nil =>
    intro paths hlen
    cases paths with
    | nil => rfl
    | cons p ps => cases hlen
  | cons frame rest ih =>
    intro paths hlen
    cases paths with
    | nil => cases hlen
    | cons p ps =>
      rw [Util.formatEntries, ih ps (by simpa using hlen)]
      rfl

/-- C21, as stated, fails for a list of frames on whose files
`StripCommonPrefix` raises.  On `chromeHost` the frame of code typed into the
developer console has the file `<anonymous>`; `StripCommonPrefix` raises on
it, and `FormatStack` raises the same exception: it renders no entry and does
not reach its length check. -/
theorem FormatStack_anonymous_frame_raises :
    Util.StripCommonPrefix chromeHost
        ([({ name := some "main", actual_name := none, file := some "<anonymous>",
             line := some (JS.Num.int 1), column := some (JS.Num.int 6) } : Frame)].map (fun frame => frame.file)) =
      Except.error "Failed to construct \x27URL\x27: Invalid URL" ∧
    Util.FormatStack chromeHost
        [{ name := some "main", actual_name := none, file := some "<anonymous>",
           line := some (JS.Num.int 1), column := some (JS.Num.int 6) }] =
      ([], Except.error "Failed to construct \x27URL\x27: Invalid URL") := by
  exact ⟨rfl, rfl⟩

/-- C21, amended: for every input list on which `StripCommonPrefix` returns,
its output has the same length as its input; consequently, for every list of
frames on whose files `StripCommonPrefix` returns, the length check of
`FormatStack` holds (`console.assert` writes nothing) and `FormatStack`
returns the entries `name@compactedFile:line:column`, exactly one per frame,
in frame order, joined by newlines. -/
theorem FormatStack_one_entry_per_frame (h : Host) (paths out : List (Option String))
    (stack : List Frame) (compacted : List (Option String)) :
    (Util.StripCommonPrefix h paths = Except.ok out → out.length = paths.length) ∧
    (Util.StripCommonPrefix h (stack.map (fun frame => frame.file)) = Except.ok compacted →
      compacted.length = stack.length ∧
      Util.FormatStack h stack =
        ([], Except.ok ("\n".intercalate (List.zipWith Util.entryText stack compacted))) ∧
      (List.zipWith Util.entryText stack compacted).length = stack.length) := by
  refine ⟨StripCommonPrefix_length h paths out, ?_⟩
  intro hc
  have hlen : compacted.length = stack.length := by
    rw [StripCommonPrefix_length h _ _ hc, List.length_map]
  refine ⟨hlen, ?_, by simp [hlen]⟩
  unfold Util.FormatStack
  rw [hc]
  simp only [formatEntries_zip stack compacted hlen, hlen, if_true]

/-- C21, amended, on the two frames of a `Warn` call on `firefoxHost`. -/
theorem FormatStack_one_entry_per_frame_witness :
    Util.FormatStack firefoxHost
        [{ name := some "Warn", actual_name := none, file := some "http://h/js/utility.js",
           line := some (JS.Num.int 554), column := some (JS.Num.int 27) },
         { name := some "main", actual_name := none, file := some "http://h/js/main.js",
           line := some (JS.Num.int 10), column := some (JS.Num.int 5) }] =
      ([], Except.ok "Warn@utility.js:554:27\nmain@main.js:10:5") :=
  ((FormatStack_one_entry_per_frame firefoxHost [] []
      [{ name := some "Warn", actual_name := none, file := some "http://h/js/utility.js",
         line := some (JS.Num.int 554), column := some (JS.Num.int 27) },
       { name := some "main", actual_name := none, file := some "http://h/js/main.js",
         line := some (JS.Num.int 10), column := some (JS.Num.int 5) }]
      [some "utility.js", some "main.js"]).2 rfl).2.1.trans rfl

/-! ## Paths that the host rejects -/

theorem toPieces_first_error (h : Host) (pre post : List (Option String)) (p : Option String)
    (msg : String)
    (hpre : ∀ q ∈ pre, ∃ pathname, h.URL (JS.showStr q) = Except.ok pathname)
    (hp : h.URL (JS.showStr p) = Except.error msg) :
    Util.toPieces h (pre ++ p :: post) = Except.error msg := by
  induction pre with
  | nil => simp only [List.nil_append, Util.toPieces, hp]
  | cons q rest ih =>
    obtain ⟨pathname, hq⟩ := hpre q (List.mem_cons_self _ _)
    have ih' := ih (fun x hx => hpre x (List.mem_cons_of_mem _ hx))
    show Util.toPieces h (q :: (rest ++ p :: post)) = Except.error msg
    rw [Util.toPieces]
    simp only [hq, ih']

/-- C22: a path that fails URL parsing makes `StripCommonPrefix` raise on
Chrome.  The `catch` block recognises an invalid URL by the text
`is not a valid URL` in the message, which is the wording of Firefox; the
message of Chrome does not contain it.  On `chromeHost` the path `<anonymous>`
fails URL parsing and `StripCommonPrefix` applied to the list of that one
path raises the exception again instead of returning the list, while on
`firefoxHost` the same list is returned unchanged. -/
theorem StripCommonPrefix_malformed_raises :
    chromeHost.URL "<anonymous>" = Except.error "Failed to construct \x27URL\x27: Invalid URL" ∧
    Util.StripCommonPrefix chromeHost [some "<anonymous>"] =
      Except.error "Failed to construct \x27URL\x27: Invalid URL" ∧
    Util.StripCommonPrefix chromeHost [some "<anonymous>"] ≠ Except.ok [some "<anonymous>"] ∧
    Util.StripCommonPrefix firefoxHost [some "<anonymous>"] = Except.ok [some "<anonymous>"] := by
  have h1 : Util.StripCommonPrefix chromeHost [some "<anonymous>"] =
      Except.error "Failed to construct \x27URL\x27: Invalid URL" := rfl
  refine ⟨rfl, h1, ?_, rfl⟩
  rw [h1]
  intro hc
  cases hc

/-- The two branches of the `catch` block, for every host: if some path of the
input list fails URL parsing, and the first such path fails with an exception
whose message contains `is not a valid URL`, then `StripCommonPrefix` returns
the input list unchanged, element for element; if the message of that
exception does not contain this text, `StripCommonPrefix` raises the same
exception again. -/
theorem StripCommonPrefix_on_malformed (h : Host) (pre post : List (Option String))
    (p : Option String) (msg : String)
    (hpre : ∀ q ∈ pre, ∃ pathname, h.URL (JS.showStr q) = Except.ok pathname)
    (hp : h.URL (JS.showStr p) = Except.error msg) :
    (JS.includes msg.toList "is not a valid URL".toList = true →
      Util.StripCommonPrefix h (pre ++ p :: post) = Except.ok (pre ++ p :: post)) ∧
    (JS.includes msg.toList "is not a valid URL".toList = false →
      Util.StripCommonPrefix h (pre ++ p :: post) = Except.error msg) := by
  have hpieces := toPieces_first_error h pre post p msg hpre hp
  constructor
  · intro hinc
    unfold Util.StripCommonPrefix
    rw [hpieces]
    simp only [hinc, if_true]
  · intro hinc
    unfold Util.StripCommonPrefix
    rw [hpieces]
    simp only [hinc, Bool.false_eq_true, if_false]

/-- The first branch of the `catch` block on `firefoxHost`, with a URL followed
by a plain path, which Firefox rejects with a message of the expected form. -/
theorem StripCommonPrefix_on_malformed_firefox :
    Util.StripCommonPrefix firefoxHost [some "http://h/a/b/c.js", some "/x/y.js"] =
      Except.ok [some "http://h/a/b/c.js", some "/x/y.js"] :=
  (StripCommonPrefix_on_malformed firefoxHost [some "http://h/a/b/c.js"] [] (some "/x/y.js")
    "URL constructor: /x/y.js is not a valid URL."
    (by
      intro q hq
      rw [List.mem_singleton.mp hq]
      exact ⟨_, rfl⟩)
    rfl).1 (by decide)

/-! ## Plain log calls -/

theorem do_log_with_plain_state (host : Host)
    (toConsole : Util.State → Channel → List Value → ConsoleRet)
    (u : Util.State) (self : LoggerUtility) (sev : String) (argobj : List Value) :
    (LoggerUtility.do_log_with host toConsole u self sev argobj false).util = u ∧
    (LoggerUtility.do_log_with host toConsole u self sev argobj false).raised =
      (self.severity_enabled host u sev).raised := by
  cases hen : (self.severity_enabled host u sev).1 with
  | false =>
    unfold LoggerUtility.do_log_with
    simp [hen]
  | true =>
    rw [severity_enabled_raised_of_true host u self sev hen]
    unfold LoggerUtility.do_log_with
    cases hf : (self.should_filter argobj sev).1 with
    | true => simp [hen, hf]
    | false =>
      cases hc : LoggerUtility.channelOf (LoggerUtility._sev_value sev) with
      | none => simp [hen, hf, hc]
      | some func => simp [hen, hf, hc]

theorem filter_console_none (l : List Event) (h : ∀ e ∈ l, isConsoleEvent e = false) :
    l.filter isConsoleEvent = [] := by
  rw [List.filter_eq_nil_iff]
  intro e he
  rw [h e he]
  exact Bool.false_ne_true

/-- C23: on every reachable logger, for every plain call (`TraceOnly`,
`DebugOnly`, `InfoOnly`, `WarnOnly`, `ErrorOnly`, that is `do_log` with the
severity name and `stacktrace = false`) that passes the severity and filter
gates: the global state, and with it both trim-level stacks, is unchanged,
nothing raises, no effect is a stack capture, and the only console call among
the effects is one call of the method of the severity (`console.log` for
TRACE, DEBUG and INFO, `console.warn` for WARN, `console.error` for ERROR) with
exactly the arguments of the call, in order. -/
theorem plain_call_emits_once (h : Host) (u : Util.State) (calls : List RegCall)
    (S : Severity) (args : List Value)
    (hen : ((LoggerUtility.after h calls).severity_enabled h u S.name).1 = true)
    (hnf : ((LoggerUtility.after h calls).should_filter args S.name).1 = false) :
    ((LoggerUtility.after h calls).do_log h u S.name args false).events.filter isConsoleEvent =
      [Event.console S.channel args] ∧
    Event.stackCapture ∉ ((LoggerUtility.after h calls).do_log h u S.name args false).events ∧
    ((LoggerUtility.after h calls).do_log h u S.name args false).util = u ∧
    ((LoggerUtility.after h calls).do_log h u S.name args false).raised = none := by
  have hst := do_log_with_plain_state h (Util._toConsole h (LoggerUtility.after h calls)) u
    (LoggerUtility.after h calls) S.name args
  refine ⟨?_, do_log_with_plain_no_capture h _ u _ S.name args, hst.1,
    hst.2.trans (after_severity_enabled_raised h calls u S)⟩
  unfold LoggerUtility.do_log
  rw [do_log_with_events, after_severity_enabled_events, channelOf_name]
  simp only [hen, hnf, Bool.true_eq_false, Bool.false_eq_true, if_false, List.nil_append]
  rw [List.filter_append, List.filter_append]
  have h1 : (((LoggerUtility.after h calls).should_filter args S.name).2).filter isConsoleEvent
      = [] := by
    apply filter_console_none
    intro e he
    obtain ⟨p, -, -, f, -, hfc⟩ := filterEntries_events _ _ _ e he
    rw [hfc]; rfl
  have h2 : ((LoggerUtility.after h calls).hookEvents S.name args false).filter isConsoleEvent
      = [] := by
    apply filter_console_none
    intro e he
    unfold LoggerUtility.hookEvents at he
    obtain ⟨hook, -, hev⟩ := List.mem_map.mp he
    rw [← hev]; rfl
  rw [h1, h2]
  rfl

/-- C23, at `ErrorOnly("x", 1)` in the initial state of the module on the fresh
logger. -/
theorem plain_call_emits_once_witness :
    ((LoggerUtility.after firefoxHost []).do_log firefoxHost Util.State.initial Severity.ERROR.name
        [Value.str "x", Value.num 1] false).events.filter isConsoleEvent =
      [Event.console Channel.error [Value.str "x", Value.num 1]] ∧
    ((LoggerUtility.after firefoxHost []).do_log firefoxHost Util.State.initial Severity.ERROR.name
        [Value.str "x", Value.num 1] false).util = Util.State.initial :=
  have h := plain_call_emits_once firefoxHost Util.State.initial [] Severity.ERROR
    [Value.str "x", Value.num 1] (by decide) (by decide)
  ⟨h.1, h.2.2.1⟩

/-! ## Colour conversion -/

theorem RGBToHSL_magenta : Color.RGBToHSL 255 0 255 = (-60, 1, 1 / 2) := by
  have hmax : max (max (255 / 255 : ℚ) (0 / 255)) (255 / 255) = 1 := by norm_num
  have hmin : min (min (255 / 255 : ℚ) (0 / 255)) (255 / 255) = 0 := by norm_num
  have hrem : Color.jsRem ((0 / 255 - 255 / 255) / (1 - 0)) 6 = -1 := by
    unfold Color.jsRem
    norm_num
  simp only [Color.RGBToHSL, hmax, hmin, hrem]
  norm_num

theorem HSLToRGB_magenta : Color.HSLToRGB (-60) 1 (1 / 2) = some (255, -255, 0) := by
  have hrem : Color.jsRem (-60 / 60) 2 = -1 := by
    unfold Color.jsRem
    norm_num
  simp only [Color.HSLToRGB, hrem, Color.round]
  norm_num

/-- C30: the round trip is not the identity on the pure colour F0F of the
code's own test list.  `Color.RGBToHSL(255, 0, 255)` is `[-60, 1, 1/2]`, the
hue being negative because `%` keeps the sign of `(g - b) / d = -1`, and
`Color.HSLToRGB(-60, 1, 1/2)` is `[255, -255, 0]`, not `[255, 0, 255]`. -/
theorem roundTrip_magenta_differs :
    Color.RGBToHSL 255 0 255 = (-60, 1, 1 / 2) ∧
    Color.roundTrip 255 0 255 = some (255, -255, 0) ∧
    Color.roundTrip 255 0 255 ≠ some (255, 0, 255) := by
  have h : Color.roundTrip 255 0 255 = some (255, -255, 0) := by
    unfold Color.roundTrip
    rw [RGBToHSL_magenta]
    exact HSLToRGB_magenta
  refine ⟨RGBToHSL_magenta, h, ?_⟩
  rw [h]
  decide

/-! ## String additions -/

/-- C24: joining the tokens of `split_n` does not always give the string back.
`"a,".split_n(",", 1)` is `["a"]`: the rest after the separator is empty and
is not pushed, so the join is `"a"` and not `"a,"`. -/
theorem split_n_join_loses_trailing_separator :
    JS.split_n "a," "," 1 = ["a"] ∧
    ",".intercalate (JS.split_n "a," "," 1) = "a" ∧
    ",".intercalate (JS.split_n "a," "," 1) ≠ "a," := by
  refine ⟨by decide, by decide, by decide⟩

/-- C25: `rstrip` does not remove all trailing characters of `chrs`.  The loop
going left stops at index 0 without testing the character there, so a string
made of characters of `chrs` only keeps its first character: `" ".rstrip()` is
`" "` and `"   ".rstrip()` is `" "`, both ending in a character of the default
set, while `lstrip` empties both. -/
theorem rstrip_keeps_first_character :
    JS.rstrip " " none = " " ∧
    JS.rstrip "   " none = " " ∧
    JS.rstrip "aa" (some ['a']) = "a" ∧
    JS.lstrip " " none = "" ∧
    JS.lstrip "   " none = "" := by
  refine ⟨by decide, by decide, by decide, by decide, by decide⟩

/-! ## Query strings -/

/-- C26: a negative integer is not parsed as a number.  The pattern
`/^[0-9]+$/` accepts digits only, so `"k=-1"` falls through every test and the
value stored is the string `"-1"`, whatever the host; `"k=1"` gives the
number 1. -/
theorem ParseQueryString_negative_integer_is_string (host : QueryHost) :
    Util.ParseQueryString host (some "k=-1") = Except.ok [("k", QValue.str "-1")] ∧
    Util.ParseQueryString host (some "k=1") = Except.ok [("k", QValue.int (JS.Num.int 1))] := by
  refine ⟨?_, ?_⟩
  · rfl
  · rfl

/-! ## Web storage -/

/-- C28: appending to a stored array loses the array.  With the array `xs`
stored under `key`, `StorageAppend(key, value)` leaves the empty array there:
neither the old elements nor `value` are kept.  With `null` stored the call
stores `[value]`, and with a number `n` stored it stores `[n, value]`. -/
theorem StorageAppend_array_stores_empty (st : Storage) (key : String) (xs : List Json)
    (value : Json) :
    Util.GetWebStorage (Util.StorageAppend (Util.SetWebStorage st (Json.arr xs) key) key value)
      key = Json.arr [] ∧
    Util.GetWebStorage (Util.StorageAppend (Util.SetWebStorage st Json.null key) key value)
      key = Json.arr [value] ∧
    (∀ n : Int,
      Util.GetWebStorage (Util.StorageAppend (Util.SetWebStorage st (Json.num n) key) key value)
        key = Json.arr [Json.num n, value]) := by
  refine ⟨?_, ?_, ?_⟩
  · simp [Util.StorageAppend, Util.GetWebStorage, Util.SetWebStorage]
  · simp [Util.StorageAppend, Util.GetWebStorage, Util.SetWebStorage]
  · intro n
    simp [Util.StorageAppend, Util.GetWebStorage, Util.SetWebStorage]

/-- C29: the alpha component of a four-element array is not returned.  The
code reads `color[4]`, past the end of the array, so the fourth component of
the result is `undefined`; the first three are those given, as they are for a
three-element array, whose fourth component is 0. -/
theorem ParseCSSColor_four_elements_alpha_undefined (parse : String → List Value)
    (r g b a : Value) :
    Util.ParseCSSColor parse (ColorArg.array [r, g, b, a]) =
        Except.ok [r, g, b, Value.undefined] ∧
    Util.ParseCSSColor parse (ColorArg.array [r, g, b]) =
        Except.ok [r, g, b, Value.num 0] := by
  refine ⟨?_, ?_⟩
  · simp [Util.ParseCSSColor, Util.colorComponents]
  · simp [Util.ParseCSSColor, Util.colorComponents]

/-! ## Random identifiers -/

theorem numToHex_byte (b : Nat) (h : b < 256) :
    Util.Random.numToHex b 2 = [Nat.digitChar (b / 16), Nat.digitChar (b % 16)] := by
  interval_cases b <;> rfl

theorem version_byte (b : Nat) (h : b < 256) :
    ((b &&& 0x0f) ||| 0x40) < 256 ∧ ((b &&& 0x0f) ||| 0x40) / 16 = 4 ∧
      ((b &&& 0x0f) ||| 0x40) % 16 = b % 16 := by
  interval_cases b <;> decide

theorem variant_byte (b : Nat) (h : b < 256) :
    ((b &&& 0x3f) ||| 0x80) < 256 ∧ ((b &&& 0x3f) ||| 0x80) / 16 = 8 + (b / 16) % 4 ∧
      ((b &&& 0x3f) ||| 0x80) % 16 = b % 16 := by
  interval_cases b <;> decide

theorem digitChar_lowerHex (n : Nat) (h : n < 16) : isLowerHex (Nat.digitChar n) = true := by
  interval_cases n <;> decide

theorem list_length_sixteen (a : List Nat) (h : a.length = 16) :
    ∃ a0 a1 a2 a3 a4 a5 a6 a7 a8 a9 a10 a11 a12 a13 a14 a15 : Nat,
      a = [a0, a1, a2, a3, a4, a5, a6, a7, a8, a9, a10, a11, a12, a13, a14, a15] := by
  match a, h with
  | [a0, a1, a2, a3, a4, a5, a6, a7, a8, a9, a10, a11, a12, a13, a14, a15], _ => exact ⟨a0, a1, a2, a3, a4, a5, a6, a7, a8, a9, a10, a11, a12, a13, a14, a15, rfl⟩

theorem hi_lowerHex (b : Nat) (h : b < 256) : isLowerHex (Nat.digitChar (b / 16)) = true :=
  digitChar_lowerHex _ (by omega)

theorem lo_lowerHex (b : Nat) : isLowerHex (Nat.digitChar (b % 16)) = true :=
  digitChar_lowerHex _ (by omega)

theorem variant_lowerHex (b : Nat) :
    isLowerHex (Nat.digitChar (8 + b / 16 % 4)) = true :=
  digitChar_lowerHex _ (by omega)

theorem four_lowerHex : isLowerHex '4' = true := by decide

theorem variant_digit (b : Nat) :
    Nat.digitChar (8 + b / 16 % 4) ∈ ['8', '9', 'a', 'b'] := by
  have h : b / 16 % 4 < 4 := Nat.mod_lt _ (by decide)
  interval_cases b / 16 % 4 <;> decide

theorem uuid_chars (a0 a1 a2 a3 a4 a5 a6 a7 a8 a9 a10 a11 a12 a13 a14 a15 : Nat)
    (h : ∀ x ∈ [a0, a1, a2, a3, a4, a5, a6, a7, a8, a9, a10, a11, a12, a13, a14, a15], x < 256) :
    (Util.Random.uuid [a0, a1, a2, a3, a4, a5, a6, a7, a8, a9, a10, a11, a12, a13, a14, a15]).toList =
      [Nat.digitChar (a0 / 16), Nat.digitChar (a0 % 16), Nat.digitChar (a1 / 16), Nat.digitChar (a1 % 16),
        Nat.digitChar (a2 / 16), Nat.digitChar (a2 % 16), Nat.digitChar (a3 / 16), Nat.digitChar (a3 % 16),
        '-', Nat.digitChar (a4 / 16), Nat.digitChar (a4 % 16), Nat.digitChar (a5 / 16),
        Nat.digitChar (a5 % 16), '-', '4', Nat.digitChar (a6 % 16),
        Nat.digitChar (a7 / 16), Nat.digitChar (a7 % 16), '-', Nat.digitChar (8 + a8 / 16 % 4),
        Nat.digitChar (a8 % 16), Nat.digitChar (a9 / 16), Nat.digitChar (a9 % 16), '-',
        Nat.digitChar (a10 / 16), Nat.digitChar (a10 % 16), Nat.digitChar (a11 / 16), Nat.digitChar (a11 % 16),
        Nat.digitChar (a12 / 16), Nat.digitChar (a12 % 16), Nat.digitChar (a13 / 16), Nat.digitChar (a13 % 16),
        Nat.digitChar (a14 / 16), Nat.digitChar (a14 % 16), Nat.digitChar (a15 / 16), Nat.digitChar (a15 % 16)] := by
  simp only [List.mem_cons, List.mem_singleton, forall_eq_or_imp, forall_eq, List.not_mem_nil,
    IsEmpty.forall_iff, implies_true, and_true] at h
  obtain ⟨h0, h1, h2, h3, h4, h5, h6, h7, h8, h9, h10, h11, h12, h13, h14, h15⟩ := h
  have hv := version_byte a6 h6
  have hw := variant_byte a8 h8
  simp only [Util.Random.uuid, List.set, List.getD, List.get?, Option.getD,
    Util.Random.bytesToHex, List.flatMap_cons, List.flatMap_nil, numToHex_byte _ h0,
    numToHex_byte _ h1, numToHex_byte _ h2, numToHex_byte _ h3, numToHex_byte _ h4,
    numToHex_byte _ h5, numToHex_byte _ hv.1, numToHex_byte _ h7, numToHex_byte _ hw.1,
    numToHex_byte _ h9, numToHex_byte _ h10, numToHex_byte _ h11, numToHex_byte _ h12,
    numToHex_byte _ h13, numToHex_byte _ h14, numToHex_byte _ h15, hv.2.1, hv.2.2, hw.2.1,
    hw.2.2]
  simp [String.intercalate, String.intercalate.go]
  rfl

/-- C27: for every array of 16 bytes, `uuid()` returns a text of 36
characters with `-` at the indices 8, 13, 18 and 23 and a digit `0`-`9` or
`a`-`f` at every other index; the character at index 14 is `4` and the one at
index 19 is `8`, `9`, `a` or `b`; for every byte other than the bytes 6 and 8
the two characters at its position are its two-digit hexadecimal encoding, and
for the bytes 6 and 8 the second character (index 15, index 20) is the second
digit of the encoding of the byte. -/
theorem uuid_well_formed (a : List Nat) (hlen : a.length = 16) (hbyte : ∀ x ∈ a, x < 256) :
    (Util.Random.uuid a).toList.length = 36 ∧
    (∀ i ∈ [8, 13, 18, 23], (Util.Random.uuid a).toList.get? i = some '-') ∧
    (∀ i, i < 36 → i ∉ [8, 13, 18, 23] →
      ∃ c, (Util.Random.uuid a).toList.get? i = some c ∧ isLowerHex c = true) ∧
    (Util.Random.uuid a).toList.get? 14 = some '4' ∧
    (∃ c ∈ ['8', '9', 'a', 'b'], (Util.Random.uuid a).toList.get? 19 = some c) ∧
    (∀ j, j < 16 → j ≠ 6 → j ≠ 8 →
      ((Util.Random.uuid a).toList.drop (uuidPos j)).take 2 =
        Util.Random.numToHex (a.getD j 0) 2) ∧
    (∀ j, j = 6 ∨ j = 8 →
      (Util.Random.uuid a).toList.get? (uuidPos j + 1) =
        (Util.Random.numToHex (a.getD j 0) 2).get? 1) := by
  obtain ⟨a0, a1, a2, a3, a4, a5, a6, a7, a8, a9, a10, a11, a12, a13, a14, a15, rfl⟩ :=
    list_length_sixteen a hlen
  rw [uuid_chars _ _ _ _ _ _ _ _ _ _ _ _ _ _ _ _ hbyte]
  simp only [List.mem_cons, List.mem_singleton, forall_eq_or_imp, forall_eq, List.not_mem_nil,
    IsEmpty.forall_iff, implies_true, and_true] at hbyte
  obtain ⟨h0, h1, h2, h3, h4, h5, h6, h7, h8, h9, h10, h11, h12, h13, h14, h15⟩ := hbyte
  refine ⟨rfl, ?_, ?_, rfl, ?_, ?_, ?_⟩
  · simp
  · intro i hi hn
    interval_cases i <;>
      first
        | (exfalso; exact hn (by decide))
        | simp [hi_lowerHex, lo_lowerHex, variant_lowerHex, four_lowerHex, h0, h1, h2, h3, h4, h5, h6, h7, h8, h9, h10, h11, h12, h13, h14, h15]
  · exact ⟨_, variant_digit a8, rfl⟩
  · intro j hj h6 h8
    interval_cases j <;>
      first
        | exact absurd rfl h6
        | exact absurd rfl h8
        | simp [uuidPos, numToHex_byte, h0, h1, h2, h3, h4, h5, h7, h9, h10, h11, h12, h13, h14, h15]
  · intro j hj
    rcases hj with rfl | rfl
    · simp [uuidPos, numToHex_byte, h6]
    · simp [uuidPos, numToHex_byte, h8]

theorem uuid_well_formed_witness :
    (List.replicate 16 255).length = 16 ∧ (∀ x ∈ List.replicate 16 255, x < 256) ∧
    Util.Random.uuid (List.replicate 16 255) = "ffffffff-ffff-4fff-bfff-ffffffffffff" ∧
    (Util.Random.uuid (List.replicate 16 255)).toList.length = 36 ∧
    (Util.Random.uuid (List.replicate 16 255)).toList.get? 14 = some '4' :=
  ⟨rfl, by decide, by decide,
    (uuid_well_formed (List.replicate 16 255) rfl (by decide)).1,
    (uuid_well_formed (List.replicate 16 255) rfl (by decide)).2.2.2.1⟩

/-! ## Math and Array additions -/

/-- C31: `Math.divmod` does not return the integer quotient.  The first
component is the quotient of numbers `n / r`: `Math.divmod(7, 2)` is
`[7/2, 1]`, whose first component is no integer and for which
`q * r + m` is 8 and not 7; `Math.divmod(-7, 2)` is `[-7/2, -1]`. -/
theorem divmod_quotient_not_integer :
    Math.divmod 7 2 = (7 / 2, 1) ∧
    (∀ q : ℤ, (Math.divmod 7 2).1 ≠ (q : ℚ)) ∧
    (Math.divmod 7 2).1 * 2 + (Math.divmod 7 2).2 = 8 ∧
    Math.divmod (-7) 2 = (-7 / 2, -1) := by
  have h1 : Math.divmod 7 2 = (7 / 2, 1) := by
    unfold Math.divmod Color.jsRem
    norm_num
  have hc : ⌈(-7 : ℚ) / 2⌉ = -3 := by
    rw [Int.ceil_eq_iff]
    norm_num
  have h2 : Math.divmod (-7) 2 = (-7 / 2, -1) := by
    unfold Math.divmod Color.jsRem
    rw [hc]
    norm_num
  refine ⟨h1, ?_, ?_, h2⟩
  · intro q hq
    rw [h1] at hq
    have h3 : (7 : ℚ) = 2 * (q : ℚ) := by
      have h4 : (7 / 2 : ℚ) = (q : ℚ) := hq
      linarith
    have h5 : (7 : ℤ) = 2 * q := by exact_mod_cast h3
    omega
  · rw [h1]
    norm_num

theorem anyLoop_default (xs : List Value) : JS.anyLoop JS.defaultPredicate xs = false := by
  induction xs with
  | nil => rfl
  | cons e rest ih =>
    rw [JS.anyLoop, ih]
    rfl

theorem allLoop_default (xs : List Value) :
    JS.allLoop JS.defaultPredicate xs = xs.isEmpty := by
  cases xs with
  | nil => rfl
  | cons e rest => rfl

/-- C32: called with no predicate, `any` and `all` do not test the truthiness
of the elements.  The default predicate returns `undefined` for every element,
so for every array `xs.any()` is false and `xs.all()` is true only for the
empty array: `[true].any()` and `[true].all()` are both false. -/
theorem default_predicate_never_holds (xs : List Value) :
    JS.any none xs = false ∧
    JS.all none xs = xs.isEmpty ∧
    JS.truthy (Value.bool true) = true ∧
    JS.any none [Value.bool true] = false ∧
    JS.all none [Value.bool true] = false := by
  refine ⟨anyLoop_default xs, allLoop_default xs, rfl, rfl, rfl⟩
